import Mathlib

/-!
# Verification development for the hipCUB / rocThrust primitives

Shallow embedding of the device-level entry points of `hipcub` (segmented radix sort,
reduce) and of the scan-by-key family, with the properties the specification states
about them.
-/

/-- Device memory of element type `α`: the value stored at each address. -/
abbrev Memory (α : Type) := Nat → α

/-- Store `v` at address `a`. -/
def Memory.write {α : Type} (m : Memory α) (a : Nat) (v : α) : Memory α :=
  fun b => if b = a then v else m b

/-- The `n` values stored from address `base` on. -/
def Memory.read_range {α : Type} (m : Memory α) (base : Nat) : Nat → List α
  | 0 => []
  | n + 1 => m base :: Memory.read_range m (base + 1) n

/-- Store the list `xs` from address `base` on. -/
def Memory.write_range {α : Type} (m : Memory α) (base : Nat) : List α → Memory α
  | [] => m
  | x :: xs => Memory.write_range (m.write base x) (base + 1) xs

namespace thrust

variable {K V : Type}

/-- Modelled from the spec: the loop of `inclusive_scan_by_key` after the first element
(the implementation, `thrust/system/*/scan_by_key.h`, is not among the sources). The
spec: a new segment begins at every index `i > 0` where `equal(keys[i-1], keys[i])` is
false; inside a segment the scan is the prefix aggregation, and at the first position
of a segment the inclusive scan emits `values[i]`. `prev_key` is `keys[i-1]`,
`prev_out` is `out[i-1]`. -/
def inclusive_scan_by_key_loop (equal : K → K → Bool) (op : V → V → V) :
    K → V → List K → List V → List V
  | _, _, [], _ => []
  | _, _, _ :: _, [] => []
  | prev_key, prev_out, k :: ks, v :: vs =>
    let out := if equal prev_key k then op prev_out v else v
    out :: inclusive_scan_by_key_loop equal op k out ks vs

/-- Modelled from the spec: `thrust::inclusive_scan_by_key(keys, values, equal, op)`
(the implementation is not among the sources): index 0 starts a segment and emits
`values[0]`, the remaining positions are produced by `inclusive_scan_by_key_loop`. -/
def inclusive_scan_by_key (equal : K → K → Bool) (op : V → V → V) :
    List K → List V → List V
  | k :: ks, v :: vs => v :: inclusive_scan_by_key_loop equal op k v ks vs
  | _, _ => []

/-- Modelled from the spec: the loop of `exclusive_scan_by_key` after the first element
(the implementation is not among the sources). At the first position of a segment the
exclusive scan emits the initial value, elsewhere `op(out[i-1], values[i-1])`.
`prev_key` is `keys[i-1]`, `prev_out` is `out[i-1]`, `prev_value` is `values[i-1]`. -/
def exclusive_scan_by_key_loop (equal : K → K → Bool) (op : V → V → V) (init : V) :
    K → V → V → List K → List V → List V
  | _, _, _, [], _ => []
  | _, _, _, _ :: _, [] => []
  | prev_key, prev_out, prev_value, k :: ks, v :: vs =>
    let out := if equal prev_key k then op prev_out prev_value else init
    out :: exclusive_scan_by_key_loop equal op init k out v ks vs

/-- Modelled from the spec: `thrust::exclusive_scan_by_key(keys, values, init, equal, op)`
(the implementation is not among the sources): index 0 starts a segment and emits
`init`. -/
def exclusive_scan_by_key (equal : K → K → Bool) (op : V → V → V) (init : V) :
    List K → List V → List V
  | k :: ks, v :: vs => init :: exclusive_scan_by_key_loop equal op init k init v ks vs
  | _, _ => []

/-- Modelled from the spec: `inclusive_scan_by_key` on iterators into device memory,
positions `i, i+1, ...` (the implementation is not among the sources). `values` and
`result` are the addresses of the first input value and of the first output; they may
be the same address. The in-place rule of the spec: at each position the input is read
before the output is written. -/
def inclusive_scan_by_key_mem_loop (equal : K → K → Bool) (op : V → V → V)
    (values result : Nat) : K → V → Nat → List K → Memory V → Memory V
  | _, _, _, [], m => m
  | prev_key, prev_out, i, k :: ks, m =>
    let v := m (values + i)
    let out := if equal prev_key k then op prev_out v else v
    inclusive_scan_by_key_mem_loop equal op values result k out (i + 1) ks
      (m.write (result + i) out)

/-- Modelled from the spec: `inclusive_scan_by_key(keys, values, result, equal, op)` on
device memory (the implementation is not among the sources); position 0 starts a
segment. -/
def inclusive_scan_by_key_mem (equal : K → K → Bool) (op : V → V → V)
    (keys : List K) (values result : Nat) (m : Memory V) : Memory V :=
  match keys with
  | [] => m
  | k :: ks =>
    let v := m values
    inclusive_scan_by_key_mem_loop equal op values result k v 1 ks (m.write result v)

/-- Modelled from the spec: `exclusive_scan_by_key` on iterators into device memory,
positions `i, i+1, ...` (the implementation is not among the sources); the input at a
position is read into a temporary before the output of that position is written. -/
def exclusive_scan_by_key_mem_loop (equal : K → K → Bool) (op : V → V → V) (init : V)
    (values result : Nat) : K → V → V → Nat → List K → Memory V → Memory V
  | _, _, _, _, [], m => m
  | prev_key, prev_out, prev_value, i, k :: ks, m =>
    let v := m (values + i)
    let out := if equal prev_key k then op prev_out prev_value else init
    exclusive_scan_by_key_mem_loop equal op init values result k out v (i + 1) ks
      (m.write (result + i) out)

/-- Modelled from the spec: `exclusive_scan_by_key(keys, values, result, init, equal, op)`
on device memory (the implementation is not among the sources). -/
def exclusive_scan_by_key_mem (equal : K → K → Bool) (op : V → V → V) (init : V)
    (keys : List K) (values result : Nat) (m : Memory V) : Memory V :=
  match keys with
  | [] => m
  | k :: ks =>
    let v := m values
    exclusive_scan_by_key_mem_loop equal op init values result k init v 1 ks
      (m.write result init)

end thrust

namespace hipcub

/-- Status codes of the CUDA runtime, which `::cub::` returns: success, invalid value,
and every other code by its number. -/
inductive cudaError_t where
  | cudaSuccess
  | cudaErrorInvalidValue
  | cudaErrorOther (code : Nat)
  deriving DecidableEq, Repr

/-- Status codes of the HIP runtime: success, invalid value, and every other code by its
number. -/
inductive hipError_t where
  | hipSuccess
  | hipErrorInvalidValue
  | hipErrorOther (code : Nat)
  deriving DecidableEq, Repr

/-- A stream handle. -/
abbrev hipStream_t := Nat

/-- Modelled from the spec: `DoubleBuffer<T>` (its declaration is not among the sources):
a pair of buffers with a current-side selector. -/
structure DoubleBuffer (T : Type) where
  d_buffers : Fin 2 → Memory T
  selector : Fin 2

/-- The buffer the selector points to. -/
def DoubleBuffer.Current {T : Type} (d : DoubleBuffer T) : Memory T := d.d_buffers d.selector

/-- The buffer the selector does not point to. -/
def DoubleBuffer.Alternate {T : Type} (d : DoubleBuffer T) : Memory T :=
  d.d_buffers (1 - d.selector)

/-- The double buffer after `contents` was stored on the side the selector does not
point to and the selector was switched to that side. -/
def DoubleBuffer.flip {T : Type} (d : DoubleBuffer T) (contents : Memory T) :
    DoubleBuffer T :=
  ⟨fun side => if side = 1 - d.selector then contents else d.d_buffers side, 1 - d.selector⟩

/-- What a call leaves behind: the returned status, the value of the by-reference
parameter `temp_storage_bytes`, and the contents `out` of everything else the call may
write (output buffers, double buffers). -/
structure Outcome (E B : Type) where
  status : E
  temp_storage_bytes : Nat
  out : B

/-- Replace the status by its translation. -/
def Outcome.translate {E F B : Type} (f : E → F) (r : Outcome E B) : Outcome F B :=
  ⟨f r.status, r.temp_storage_bytes, r.out⟩

/-- What the wrappers of `backend/cub/device/device_segmented_radix_sort.hpp` use and the
repository does not define: the eight functions of `::cub::DeviceSegmentedRadixSort`,
the translation `hipCUDAErrorTohipError` of the HIP runtime, and the lines the logging
macro `HIPCUB_DETAIL_RUNTIME_LOG_DEBUG_SYNCHRONOUS()` prints for a value of
`debug_synchronous`. `d_temp_storage` is `none` for `nullptr`; offset iterators yield
the offset at an index. -/
structure CubBackend (KeyT ValueT : Type) where
  hipCUDAErrorTohipError : cudaError_t → hipError_t
  HIPCUB_DETAIL_RUNTIME_LOG_DEBUG_SYNCHRONOUS : Bool → List String
  SortPairs : Option Nat → Nat → Memory KeyT → Memory KeyT → Memory ValueT → Memory ValueT →
    Int → Int → (Nat → Int) → (Nat → Int) → Int → Int → hipStream_t →
    Outcome cudaError_t (Memory KeyT × Memory ValueT)
  SortPairs_DoubleBuffer : Option Nat → Nat → DoubleBuffer KeyT → DoubleBuffer ValueT →
    Int → Int → (Nat → Int) → (Nat → Int) → Int → Int → hipStream_t →
    Outcome cudaError_t (DoubleBuffer KeyT × DoubleBuffer ValueT)
  SortPairsDescending : Option Nat → Nat → Memory KeyT → Memory KeyT → Memory ValueT →
    Memory ValueT → Int → Int → (Nat → Int) → (Nat → Int) → Int → Int → hipStream_t →
    Outcome cudaError_t (Memory KeyT × Memory ValueT)
  SortPairsDescending_DoubleBuffer : Option Nat → Nat → DoubleBuffer KeyT →
    DoubleBuffer ValueT → Int → Int → (Nat → Int) → (Nat → Int) → Int → Int → hipStream_t →
    Outcome cudaError_t (DoubleBuffer KeyT × DoubleBuffer ValueT)
  SortKeys : Option Nat → Nat → Memory KeyT → Memory KeyT →
    Int → Int → (Nat → Int) → (Nat → Int) → Int → Int → hipStream_t →
    Outcome cudaError_t (Memory KeyT)
  SortKeys_DoubleBuffer : Option Nat → Nat → DoubleBuffer KeyT →
    Int → Int → (Nat → Int) → (Nat → Int) → Int → Int → hipStream_t →
    Outcome cudaError_t (DoubleBuffer KeyT)
  SortKeysDescending : Option Nat → Nat → Memory KeyT → Memory KeyT →
    Int → Int → (Nat → Int) → (Nat → Int) → Int → Int → hipStream_t →
    Outcome cudaError_t (Memory KeyT)
  SortKeysDescending_DoubleBuffer : Option Nat → Nat → DoubleBuffer KeyT →
    Int → Int → (Nat → Int) → (Nat → Int) → Int → Int → hipStream_t →
    Outcome cudaError_t (DoubleBuffer KeyT)

namespace DeviceSegmentedRadixSort

variable {KeyT ValueT : Type}

/-- `DeviceSegmentedRadixSort::SortPairs`, pointer form (lines 43-71). -/
def SortPairs (cub : CubBackend KeyT ValueT) (d_temp_storage : Option Nat)
    (temp_storage_bytes : Nat) (d_keys_in d_keys_out : Memory KeyT)
    (d_values_in d_values_out : Memory ValueT) (num_items num_segments : Int)
    (d_begin_offsets d_end_offsets : Nat → Int) (begin_bit end_bit : Int)
    (stream : hipStream_t) : Outcome hipError_t (Memory KeyT × Memory ValueT) :=
  (cub.SortPairs d_temp_storage temp_storage_bytes d_keys_in d_keys_out d_values_in
    d_values_out num_items num_segments d_begin_offsets d_end_offsets begin_bit end_bit
    stream).translate cub.hipCUDAErrorTohipError

/-- `DeviceSegmentedRadixSort::SortPairs`, pointer form with the trailing
`debug_synchronous` (lines 73-104): the logging macro, then the modern overload. The
second component is what the macro printed. -/
def SortPairs_debug_synchronous (cub : CubBackend KeyT ValueT) (d_temp_storage : Option Nat)
    (temp_storage_bytes : Nat) (d_keys_in d_keys_out : Memory KeyT)
    (d_values_in d_values_out : Memory ValueT) (num_items num_segments : Int)
    (d_begin_offsets d_end_offsets : Nat → Int) (begin_bit end_bit : Int)
    (stream : hipStream_t) (debug_synchronous : Bool) :
    Outcome hipError_t (Memory KeyT × Memory ValueT) × List String :=
  (SortPairs cub d_temp_storage temp_storage_bytes d_keys_in d_keys_out d_values_in
    d_values_out num_items num_segments d_begin_offsets d_end_offsets begin_bit end_bit
    stream, cub.HIPCUB_DETAIL_RUNTIME_LOG_DEBUG_SYNCHRONOUS debug_synchronous)

/-- `DeviceSegmentedRadixSort::SortPairs`, `DoubleBuffer` form (lines 106-130). -/
def SortPairs_DoubleBuffer (cub : CubBackend KeyT ValueT) (d_temp_storage : Option Nat)
    (temp_storage_bytes : Nat) (d_keys : DoubleBuffer KeyT) (d_values : DoubleBuffer ValueT)
    (num_items num_segments : Int) (d_begin_offsets d_end_offsets : Nat → Int)
    (begin_bit end_bit : Int) (stream : hipStream_t) :
    Outcome hipError_t (DoubleBuffer KeyT × DoubleBuffer ValueT) :=
  (cub.SortPairs_DoubleBuffer d_temp_storage temp_storage_bytes d_keys d_values num_items
    num_segments d_begin_offsets d_end_offsets begin_bit end_bit
    stream).translate cub.hipCUDAErrorTohipError

/-- `DeviceSegmentedRadixSort::SortPairs`, `DoubleBuffer` form with the trailing
`debug_synchronous` (lines 132-159). -/
def SortPairs_DoubleBuffer_debug_synchronous (cub : CubBackend KeyT ValueT)
    (d_temp_storage : Option Nat) (temp_storage_bytes : Nat) (d_keys : DoubleBuffer KeyT)
    (d_values : DoubleBuffer ValueT) (num_items num_segments : Int)
    (d_begin_offsets d_end_offsets : Nat → Int) (begin_bit end_bit : Int)
    (stream : hipStream_t) (debug_synchronous : Bool) :
    Outcome hipError_t (DoubleBuffer KeyT × DoubleBuffer ValueT) × List String :=
  (SortPairs_DoubleBuffer cub d_temp_storage temp_storage_bytes d_keys d_values num_items
    num_segments d_begin_offsets d_end_offsets begin_bit end_bit stream,
    cub.HIPCUB_DETAIL_RUNTIME_LOG_DEBUG_SYNCHRONOUS debug_synchronous)

/-- `DeviceSegmentedRadixSort::SortPairsDescending`, pointer form (lines 161-190). -/
def SortPairsDescending (cub : CubBackend KeyT ValueT) (d_temp_storage : Option Nat)
    (temp_storage_bytes : Nat) (d_keys_in d_keys_out : Memory KeyT)
    (d_values_in d_values_out : Memory ValueT) (num_items num_segments : Int)
    (d_begin_offsets d_end_offsets : Nat → Int) (begin_bit end_bit : Int)
    (stream : hipStream_t) : Outcome hipError_t (Memory KeyT × Memory ValueT) :=
  (cub.SortPairsDescending d_temp_storage temp_storage_bytes d_keys_in d_keys_out
    d_values_in d_values_out num_items num_segments d_begin_offsets d_end_offsets begin_bit
    end_bit stream).translate cub.hipCUDAErrorTohipError

/-- `DeviceSegmentedRadixSort::SortPairsDescending`, pointer form with the trailing
`debug_synchronous` (lines 192-223). -/
def SortPairsDescending_debug_synchronous (cub : CubBackend KeyT ValueT)
    (d_temp_storage : Option Nat) (temp_storage_bytes : Nat)
    (d_keys_in d_keys_out : Memory KeyT) (d_values_in d_values_out : Memory ValueT)
    (num_items num_segments : Int) (d_begin_offsets d_end_offsets : Nat → Int)
    (begin_bit end_bit : Int) (stream : hipStream_t) (debug_synchronous : Bool) :
    Outcome hipError_t (Memory KeyT × Memory ValueT) × List String :=
  (SortPairsDescending cub d_temp_storage temp_storage_bytes d_keys_in d_keys_out
    d_values_in d_values_out num_items num_segments d_begin_offsets d_end_offsets begin_bit
    end_bit stream, cub.HIPCUB_DETAIL_RUNTIME_LOG_DEBUG_SYNCHRONOUS debug_synchronous)

/-- `DeviceSegmentedRadixSort::SortPairsDescending`, `DoubleBuffer` form
(lines 225-250). -/
def SortPairsDescending_DoubleBuffer (cub : CubBackend KeyT ValueT)
    (d_temp_storage : Option Nat) (temp_storage_bytes : Nat) (d_keys : DoubleBuffer KeyT)
    (d_values : DoubleBuffer ValueT) (num_items num_segments : Int)
    (d_begin_offsets d_end_offsets : Nat → Int) (begin_bit end_bit : Int)
    (stream : hipStream_t) : Outcome hipError_t (DoubleBuffer KeyT × DoubleBuffer ValueT) :=
  (cub.SortPairsDescending_DoubleBuffer d_temp_storage temp_storage_bytes d_keys d_values
    num_items num_segments d_begin_offsets d_end_offsets begin_bit end_bit
    stream).translate cub.hipCUDAErrorTohipError

/-- `DeviceSegmentedRadixSort::SortPairsDescending`, `DoubleBuffer` form with the
trailing `debug_synchronous` (lines 252-279). -/
def SortPairsDescending_DoubleBuffer_debug_synchronous (cub : CubBackend KeyT ValueT)
    (d_temp_storage : Option Nat) (temp_storage_bytes : Nat) (d_keys : DoubleBuffer KeyT)
    (d_values : DoubleBuffer ValueT) (num_items num_segments : Int)
    (d_begin_offsets d_end_offsets : Nat → Int) (begin_bit end_bit : Int)
    (stream : hipStream_t) (debug_synchronous : Bool) :
    Outcome hipError_t (DoubleBuffer KeyT × DoubleBuffer ValueT) × List String :=
  (SortPairsDescending_DoubleBuffer cub d_temp_storage temp_storage_bytes d_keys d_values
    num_items num_segments d_begin_offsets d_end_offsets begin_bit end_bit stream,
    cub.HIPCUB_DETAIL_RUNTIME_LOG_DEBUG_SYNCHRONOUS debug_synchronous)

/-- `DeviceSegmentedRadixSort::SortKeys`, pointer form (lines 281-305). -/
def SortKeys (cub : CubBackend KeyT ValueT) (d_temp_storage : Option Nat)
    (temp_storage_bytes : Nat) (d_keys_in d_keys_out : Memory KeyT)
    (num_items num_segments : Int) (d_begin_offsets d_end_offsets : Nat → Int)
    (begin_bit end_bit : Int) (stream : hipStream_t) : Outcome hipError_t (Memory KeyT) :=
  (cub.SortKeys d_temp_storage temp_storage_bytes d_keys_in d_keys_out num_items
    num_segments d_begin_offsets d_end_offsets begin_bit end_bit
    stream).translate cub.hipCUDAErrorTohipError

/-- `DeviceSegmentedRadixSort::SortKeys`, pointer form with the trailing
`debug_synchronous` (lines 307-334). -/
def SortKeys_debug_synchronous (cub : CubBackend KeyT ValueT) (d_temp_storage : Option Nat)
    (temp_storage_bytes : Nat) (d_keys_in d_keys_out : Memory KeyT)
    (num_items num_segments : Int) (d_begin_offsets d_end_offsets : Nat → Int)
    (begin_bit end_bit : Int) (stream : hipStream_t) (debug_synchronous : Bool) :
    Outcome hipError_t (Memory KeyT) × List String :=
  (SortKeys cub d_temp_storage temp_storage_bytes d_keys_in d_keys_out num_items
    num_segments d_begin_offsets d_end_offsets begin_bit end_bit stream,
    cub.HIPCUB_DETAIL_RUNTIME_LOG_DEBUG_SYNCHRONOUS debug_synchronous)

/-- `DeviceSegmentedRadixSort::SortKeys`, `DoubleBuffer` form (lines 336-358). -/
def SortKeys_DoubleBuffer (cub : CubBackend KeyT ValueT) (d_temp_storage : Option Nat)
    (temp_storage_bytes : Nat) (d_keys : DoubleBuffer KeyT) (num_items num_segments : Int)
    (d_begin_offsets d_end_offsets : Nat → Int) (begin_bit end_bit : Int)
    (stream : hipStream_t) : Outcome hipError_t (DoubleBuffer KeyT) :=
  (cub.SortKeys_DoubleBuffer d_temp_storage temp_storage_bytes d_keys num_items
    num_segments d_begin_offsets d_end_offsets begin_bit end_bit
    stream).translate cub.hipCUDAErrorTohipError

/-- `DeviceSegmentedRadixSort::SortKeys`, `DoubleBuffer` form with the trailing
`debug_synchronous` (lines 360-385). -/
def SortKeys_DoubleBuffer_debug_synchronous (cub : CubBackend KeyT ValueT)
    (d_temp_storage : Option Nat) (temp_storage_bytes : Nat) (d_keys : DoubleBuffer KeyT)
    (num_items num_segments : Int) (d_begin_offsets d_end_offsets : Nat → Int)
    (begin_bit end_bit : Int) (stream : hipStream_t) (debug_synchronous : Bool) :
    Outcome hipError_t (DoubleBuffer KeyT) × List String :=
  (SortKeys_DoubleBuffer cub d_temp_storage temp_storage_bytes d_keys num_items
    num_segments d_begin_offsets d_end_offsets begin_bit end_bit stream,
    cub.HIPCUB_DETAIL_RUNTIME_LOG_DEBUG_SYNCHRONOUS debug_synchronous)

/-- `DeviceSegmentedRadixSort::SortKeysDescending`, pointer form (lines 387-412). -/
def SortKeysDescending (cub : CubBackend KeyT ValueT) (d_temp_storage : Option Nat)
    (temp_storage_bytes : Nat) (d_keys_in d_keys_out : Memory KeyT)
    (num_items num_segments : Int) (d_begin_offsets d_end_offsets : Nat → Int)
    (begin_bit end_bit : Int) (stream : hipStream_t) : Outcome hipError_t (Memory KeyT) :=
  (cub.SortKeysDescending d_temp_storage temp_storage_bytes d_keys_in d_keys_out num_items
    num_segments d_begin_offsets d_end_offsets begin_bit end_bit
    stream).translate cub.hipCUDAErrorTohipError

/-- `DeviceSegmentedRadixSort::SortKeysDescending`, pointer form with the trailing
`debug_synchronous` (lines 414-441). -/
def SortKeysDescending_debug_synchronous (cub : CubBackend KeyT ValueT)
    (d_temp_storage : Option Nat) (temp_storage_bytes : Nat)
    (d_keys_in d_keys_out : Memory KeyT) (num_items num_segments : Int)
    (d_begin_offsets d_end_offsets : Nat → Int) (begin_bit end_bit : Int)
    (stream : hipStream_t) (debug_synchronous : Bool) :
    Outcome hipError_t (Memory KeyT) × List String :=
  (SortKeysDescending cub d_temp_storage temp_storage_bytes d_keys_in d_keys_out num_items
    num_segments d_begin_offsets d_end_offsets begin_bit end_bit stream,
    cub.HIPCUB_DETAIL_RUNTIME_LOG_DEBUG_SYNCHRONOUS debug_synchronous)

/-- `DeviceSegmentedRadixSort::SortKeysDescending`, `DoubleBuffer` form
(lines 443-466). -/
def SortKeysDescending_DoubleBuffer (cub : CubBackend KeyT ValueT)
    (d_temp_storage : Option Nat) (temp_storage_bytes : Nat) (d_keys : DoubleBuffer KeyT)
    (num_items num_segments : Int) (d_begin_offsets d_end_offsets : Nat → Int)
    (begin_bit end_bit : Int) (stream : hipStream_t) :
    Outcome hipError_t (DoubleBuffer KeyT) :=
  (cub.SortKeysDescending_DoubleBuffer d_temp_storage temp_storage_bytes d_keys num_items
    num_segments d_begin_offsets d_end_offsets begin_bit end_bit
    stream).translate cub.hipCUDAErrorTohipError

/-- `DeviceSegmentedRadixSort::SortKeysDescending`, `DoubleBuffer` form with the trailing
`debug_synchronous` (lines 468-493). -/
def SortKeysDescending_DoubleBuffer_debug_synchronous (cub : CubBackend KeyT ValueT)
    (d_temp_storage : Option Nat) (temp_storage_bytes : Nat) (d_keys : DoubleBuffer KeyT)
    (num_items num_segments : Int) (d_begin_offsets d_end_offsets : Nat → Int)
    (begin_bit end_bit : Int) (stream : hipStream_t) (debug_synchronous : Bool) :
    Outcome hipError_t (DoubleBuffer KeyT) × List String :=
  (SortKeysDescending_DoubleBuffer cub d_temp_storage temp_storage_bytes d_keys num_items
    num_segments d_begin_offsets d_end_offsets begin_bit end_bit stream,
    cub.HIPCUB_DETAIL_RUNTIME_LOG_DEBUG_SYNCHRONOUS debug_synchronous)

/-- The eight overloads without `debug_synchronous`. -/
inductive Overload where
  | SortPairs
  | SortPairs_DoubleBuffer
  | SortPairsDescending
  | SortPairsDescending_DoubleBuffer
  | SortKeys
  | SortKeys_DoubleBuffer
  | SortKeysDescending
  | SortKeysDescending_DoubleBuffer
  deriving DecidableEq, Repr

/-- Values of the three trailing parameters `begin_bit`, `end_bit`, `stream`. -/
structure TrailingArguments where
  begin_bit : Int
  end_bit : Int
  stream : hipStream_t
  deriving DecidableEq, Repr

/-- The default arguments the declaration of an overload gives to `begin_bit`, `end_bit`
and `stream`: `= 0`, `= sizeof(KeyT) * 8`, `= 0` in seven declarations; the declaration
of `SortPairsDescending` on `DoubleBuffer` (lines 234-236) gives none. -/
def Overload.default_arguments (sizeof_KeyT : Nat) : Overload → Option TrailingArguments
  | .SortPairs => some ⟨0, sizeof_KeyT * 8, 0⟩
  | .SortPairs_DoubleBuffer => some ⟨0, sizeof_KeyT * 8, 0⟩
  | .SortPairsDescending => some ⟨0, sizeof_KeyT * 8, 0⟩
  | .SortPairsDescending_DoubleBuffer => none
  | .SortKeys => some ⟨0, sizeof_KeyT * 8, 0⟩
  | .SortKeys_DoubleBuffer => some ⟨0, sizeof_KeyT * 8, 0⟩
  | .SortKeysDescending => some ⟨0, sizeof_KeyT * 8, 0⟩
  | .SortKeysDescending_DoubleBuffer => some ⟨0, sizeof_KeyT * 8, 0⟩

/-- A call that passes the arguments up to `d_end_offsets` only. `f` is the overload
applied to those arguments. C++ completes the call with the declared default arguments;
when the declaration has none no function of that name accepts the call, which is then
ill-formed (`none`). -/
def Overload.call_without_bit_range {R : Type} (o : Overload) (sizeof_KeyT : Nat)
    (f : Int → Int → hipStream_t → R) : Option R :=
  (o.default_arguments sizeof_KeyT).map (fun t => f t.begin_bit t.end_bit t.stream)

end DeviceSegmentedRadixSort

namespace cub_model

variable {KeyT ValueT α : Type}

/-- Modelled from the spec: the digit of a key that the pass for bit `bit` looks at (the
sort, `::cub::DeviceSegmentedRadixSort`, is not among the sources). The spec: radix sort
operates bit-wise on the unsigned representation `canon key` to which each key is
mapped; a descending sort orders by the complemented bit. -/
def radix_digit (canon : KeyT → Nat) (descending : Bool) (bit : Nat) (key : KeyT) : Bool :=
  (canon key / 2 ^ bit % 2 == 1) != descending

/-- Modelled from the spec: one pass of the radix sort (not among the sources), a stable
split on one digit: the items whose digit is 0 in their order, then those whose digit
is 1 in their order. -/
def radix_pass (digit : α → Bool) (xs : List α) : List α :=
  xs.filter (fun x => !digit x) ++ xs.filter digit

/-- Modelled from the spec: `n` passes (not among the sources), for the bits `bit`,
`bit + 1`, ..., least significant first. The spec leaves the radix width to the
back-end; the model takes width 1. -/
def radix_passes (digit : Nat → α → Bool) : Nat → Nat → List α → List α
  | _, 0, xs => xs
  | bit, n + 1, xs => radix_passes digit (bit + 1) n (radix_pass (digit bit) xs)

/-- Modelled from the spec: the sort of one segment of key-value pairs on the bits
`[begin_bit, end_bit)` of the keys (not among the sources). -/
def sort_segment (canon : KeyT → Nat) (descending : Bool) (begin_bit end_bit : Int)
    (items : List (KeyT × ValueT)) : List (KeyT × ValueT) :=
  radix_passes (fun bit item => radix_digit canon descending bit item.1) begin_bit.toNat
    (end_bit - begin_bit).toNat items

/-- The key-value pairs that the buffers `keys` and `values` hold in segment `segment`,
which covers `[begin_offsets[segment], end_offsets[segment])` and is empty when
`end_offsets[segment] ≤ begin_offsets[segment]`. -/
def segment_items (keys : Memory KeyT) (values : Memory ValueT)
    (d_begin_offsets d_end_offsets : Nat → Int) (segment : Nat) : List (KeyT × ValueT) :=
  (keys.read_range (d_begin_offsets segment).toNat
      ((d_end_offsets segment).toNat - (d_begin_offsets segment).toNat)).zip
    (values.read_range (d_begin_offsets segment).toNat
      ((d_end_offsets segment).toNat - (d_begin_offsets segment).toNat))

/-- The keys that the buffer `keys` holds in segment `segment`. -/
def segment_keys (keys : Memory KeyT) (d_begin_offsets d_end_offsets : Nat → Int)
    (segment : Nat) : List KeyT :=
  keys.read_range (d_begin_offsets segment).toNat
    ((d_end_offsets segment).toNat - (d_begin_offsets segment).toNat)

/-- Modelled from the spec: the segments `segment`, `segment + 1`, ... (`n` of them) are
sorted one after the other (not among the sources): a segment is read from the input
buffers and its sorted items are written at the same offsets of the output buffers.
Output positions outside every segment keep their content. -/
def sort_segments (canon : KeyT → Nat) (descending : Bool) (begin_bit end_bit : Int)
    (d_keys_in : Memory KeyT) (d_values_in : Memory ValueT)
    (d_begin_offsets d_end_offsets : Nat → Int) :
    Nat → Nat → Memory KeyT × Memory ValueT → Memory KeyT × Memory ValueT
  | _, 0, out => out
  | segment, n + 1, out =>
    let sorted := sort_segment canon descending begin_bit end_bit
      (segment_items d_keys_in d_values_in d_begin_offsets d_end_offsets segment)
    sort_segments canon descending begin_bit end_bit d_keys_in d_values_in d_begin_offsets
      d_end_offsets (segment + 1) n
      (out.1.write_range (d_begin_offsets segment).toNat (sorted.map Prod.fst),
        out.2.write_range (d_begin_offsets segment).toNat (sorted.map Prod.snd))

/-- Modelled from the spec: `::cub::DeviceSegmentedRadixSort::SortPairs` and
`SortPairsDescending`, pointer form (not among the sources), with the two-phase
protocol: with `d_temp_storage == nullptr` the required size is written and nothing
else happens; otherwise, with at least that many bytes, the segments are sorted. The
size `required_bytes num_items num_segments` is not specified further, nor is the code
reported for a buffer that is too small (the model reports an error status). The bit
range is used as it is given: the spec counts a bad bit range among the argument errors
of the core and not among the failures of the back-end. -/
def sort_pairs (canon : KeyT → Nat) (required_bytes : Int → Int → Nat) (descending : Bool)
    (d_temp_storage : Option Nat) (temp_storage_bytes : Nat)
    (d_keys_in d_keys_out : Memory KeyT) (d_values_in d_values_out : Memory ValueT)
    (num_items num_segments : Int) (d_begin_offsets d_end_offsets : Nat → Int)
    (begin_bit end_bit : Int) (_stream : hipStream_t) :
    Outcome cudaError_t (Memory KeyT × Memory ValueT) :=
  match d_temp_storage with
  | none => ⟨.cudaSuccess, required_bytes num_items num_segments, (d_keys_out, d_values_out)⟩
  | some _ =>
    if temp_storage_bytes < required_bytes num_items num_segments then
      ⟨.cudaErrorInvalidValue, temp_storage_bytes, (d_keys_out, d_values_out)⟩
    else
      ⟨.cudaSuccess, temp_storage_bytes,
        sort_segments canon descending begin_bit end_bit d_keys_in d_values_in
          d_begin_offsets d_end_offsets 0 num_segments.toNat (d_keys_out, d_values_out)⟩

/-- Modelled from the spec: the pointer form of `SortKeys` and `SortKeysDescending` (not
among the sources): the sort of pairs whose values carry no information. -/
def sort_keys (canon : KeyT → Nat) (required_bytes : Int → Int → Nat) (descending : Bool)
    (d_temp_storage : Option Nat) (temp_storage_bytes : Nat)
    (d_keys_in d_keys_out : Memory KeyT) (num_items num_segments : Int)
    (d_begin_offsets d_end_offsets : Nat → Int) (begin_bit end_bit : Int)
    (stream : hipStream_t) : Outcome cudaError_t (Memory KeyT) :=
  let r := sort_pairs canon required_bytes descending d_temp_storage temp_storage_bytes
    d_keys_in d_keys_out (fun _ => ()) (fun _ => ()) num_items num_segments d_begin_offsets
    d_end_offsets begin_bit end_bit stream
  ⟨r.status, r.temp_storage_bytes, r.out.1⟩

/-- Modelled from the spec: the `DoubleBuffer` form of the sort of pairs (not among the
sources): the current buffers are the input, the result is written to the other side
and the selectors are left pointing to it. -/
def sort_pairs_double_buffer (canon : KeyT → Nat) (required_bytes : Int → Int → Nat)
    (descending : Bool) (d_temp_storage : Option Nat) (temp_storage_bytes : Nat)
    (d_keys : DoubleBuffer KeyT) (d_values : DoubleBuffer ValueT)
    (num_items num_segments : Int) (d_begin_offsets d_end_offsets : Nat → Int)
    (begin_bit end_bit : Int) (stream : hipStream_t) :
    Outcome cudaError_t (DoubleBuffer KeyT × DoubleBuffer ValueT) :=
  let r := sort_pairs canon required_bytes descending d_temp_storage temp_storage_bytes
    d_keys.Current d_keys.Alternate d_values.Current d_values.Alternate num_items
    num_segments d_begin_offsets d_end_offsets begin_bit end_bit stream
  match d_temp_storage, r.status with
  | some _, .cudaSuccess =>
    ⟨r.status, r.temp_storage_bytes, (d_keys.flip r.out.1, d_values.flip r.out.2)⟩
  | _, _ => ⟨r.status, r.temp_storage_bytes, (d_keys, d_values)⟩

/-- Modelled from the spec: the `DoubleBuffer` form of the sort of keys (not among the
sources). -/
def sort_keys_double_buffer (canon : KeyT → Nat) (required_bytes : Int → Int → Nat)
    (descending : Bool) (d_temp_storage : Option Nat) (temp_storage_bytes : Nat)
    (d_keys : DoubleBuffer KeyT) (num_items num_segments : Int)
    (d_begin_offsets d_end_offsets : Nat → Int) (begin_bit end_bit : Int)
    (stream : hipStream_t) : Outcome cudaError_t (DoubleBuffer KeyT) :=
  let r := sort_pairs_double_buffer canon required_bytes descending d_temp_storage
    temp_storage_bytes d_keys (⟨fun _ _ => (), 0⟩ : DoubleBuffer Unit) num_items
    num_segments d_begin_offsets d_end_offsets begin_bit end_bit stream
  ⟨r.status, r.temp_storage_bytes, r.out.1⟩

/-- The value of the `n` digits from bit `bit` on, the digit for bit `bit` being the least
significant: the number by which `n` passes from bit `bit` on order the items. -/
def radix_key (digit : Nat → α → Bool) (bit : Nat) : Nat → α → Nat
  | 0, _ => 0
  | n + 1, x => radix_key digit bit n x + 2 ^ n * (if digit (bit + n) x then 1 else 0)

/-- The key restricted to the bits `[begin_bit, end_bit)` of its unsigned
representation. -/
def masked_key (canon : KeyT → Nat) (begin_bit end_bit : Int) (key : KeyT) : Nat :=
  canon key / 2 ^ begin_bit.toNat % 2 ^ (end_bit - begin_bit).toNat

/-- The requested direction on the masked keys: `≤` for an ascending sort, `≥` for a
descending one. -/
def in_direction (descending : Bool) (a b : Nat) : Prop :=
  if descending then b ≤ a else a ≤ b

/-- The list `out` is a stably sorted permutation of `inp` on the bits
`[begin_bit, end_bit)` of the keys `key_of x`: a permutation of `inp`, ordered in the
requested direction on the masked keys, in which the items of each masked key `c` stand
in the order they have in `inp`. -/
def stably_sorted (canon : KeyT → Nat) (descending : Bool) (begin_bit end_bit : Int)
    (key_of : α → KeyT) (out inp : List α) : Prop :=
  out.Perm inp ∧
  out.Pairwise (fun a c => in_direction descending
    (masked_key canon begin_bit end_bit (key_of a))
    (masked_key canon begin_bit end_bit (key_of c))) ∧
  ∀ c : Nat,
    out.filter (fun x => masked_key canon begin_bit end_bit (key_of x) == c) =
      inp.filter (fun x => masked_key canon begin_bit end_bit (key_of x) == c)

/-- Modelled from the spec: `hipCUDAErrorTohipError` (HIP runtime, not among the
sources): back-end codes are mapped one-to-one, success to success. -/
def hipCUDAErrorTohipError : cudaError_t → hipError_t
  | .cudaSuccess => .hipSuccess
  | .cudaErrorInvalidValue => .hipErrorInvalidValue
  | .cudaErrorOther code => .hipErrorOther code

end cub_model

/-- Modelled from the spec: the back-end of the cub wrappers (not among the sources):
the radix sort of `cub_model` on the unsigned representation `canon` of the keys, with
required temporary size `required_bytes`; the deprecated flag is ignored and nothing is
logged. -/
def cub_model {KeyT ValueT : Type} (canon : KeyT → Nat) (required_bytes : Int → Int → Nat) :
    CubBackend KeyT ValueT where
  hipCUDAErrorTohipError := cub_model.hipCUDAErrorTohipError
  HIPCUB_DETAIL_RUNTIME_LOG_DEBUG_SYNCHRONOUS := fun _ => []
  SortPairs := cub_model.sort_pairs canon required_bytes false
  SortPairs_DoubleBuffer := cub_model.sort_pairs_double_buffer canon required_bytes false
  SortPairsDescending := cub_model.sort_pairs canon required_bytes true
  SortPairsDescending_DoubleBuffer :=
    cub_model.sort_pairs_double_buffer canon required_bytes true
  SortKeys := cub_model.sort_keys canon required_bytes false
  SortKeys_DoubleBuffer := cub_model.sort_keys_double_buffer canon required_bytes false
  SortKeysDescending := cub_model.sort_keys canon required_bytes true
  SortKeysDescending_DoubleBuffer :=
    cub_model.sort_keys_double_buffer canon required_bytes true

/-- The element types `T` of `device_reduce.hpp`: the integral types by signedness and
width in bits, the two 16-bit floating-point types, `float` and `double`. -/
inductive ScalarType where
  | integral (is_signed : Bool) (bits : Nat)
  | __half
  | hip_bfloat16
  | float
  | double
  deriving DecidableEq, Repr

/-- The object representation of a 16-bit floating-point value: its two bytes,
`char_representation[0]` and `char_representation[1]`. -/
structure half_object where
  byte0 : Nat
  byte1 : Nat
  deriving DecidableEq, Repr

/-- The values of a type: an integer for an integral type, the two bytes for a 16-bit
floating-point type, the IEEE-754 bit pattern for `float` and `double`. -/
@[reducible] def ScalarType.Val : ScalarType → Type
  | .integral _ _ => Int
  | .__half => half_object
  | .hip_bfloat16 => half_object
  | .float => Nat
  | .double => Nat

/-- `rocprim::is_floating_point<T>::value`. -/
def ScalarType.is_floating_point : ScalarType → Bool
  | .integral _ _ => false
  | _ => true

namespace detail

/-- `detail::set_half_bits<T>(uint16_t value)` (lines 53-61): a zero-initialised object
whose byte 0 is `value` converted to `unsigned char` and whose byte 1 is `value >> 8`. -/
def set_half_bits (value : Nat) : half_object :=
  ⟨value % 2 ^ 16 % 2 ^ 8, value % 2 ^ 16 / 2 ^ 8 % 2 ^ 8⟩

/-- `std::numeric_limits<T>::max()` of the C++ standard library for the integral types
and the IEEE-754 formats (for the 16-bit types the code does not use it). -/
def numeric_limits_max : (T : ScalarType) → T.Val
  | .integral true bits => 2 ^ (bits - 1) - 1
  | .integral false bits => 2 ^ bits - 1
  | .__half => ⟨0xff, 0x7b⟩
  | .hip_bfloat16 => ⟨0x7f, 0x7f⟩
  | .float => 0x7f7fffff
  | .double => 0x7fefffffffffffff

/-- `std::numeric_limits<T>::lowest()` of the C++ standard library. -/
def numeric_limits_lowest : (T : ScalarType) → T.Val
  | .integral true bits => -2 ^ (bits - 1)
  | .integral false _ => 0
  | .__half => ⟨0xff, 0xfb⟩
  | .hip_bfloat16 => ⟨0x7f, 0xff⟩
  | .float => 0xff7fffff
  | .double => 0xffefffffffffffff

/-- `std::numeric_limits<T>::infinity()` of the C++ standard library (0 for the integral
types, which have no infinity). -/
def numeric_limits_infinity : (T : ScalarType) → T.Val
  | .integral _ _ => 0
  | .__half => ⟨0x00, 0x7c⟩
  | .hip_bfloat16 => ⟨0x80, 0x7f⟩
  | .float => 0x7f800000
  | .double => 0x7ff0000000000000

/-- Unary minus of `T`: the sign bit is switched for a floating-point type. -/
def negate : (T : ScalarType) → T.Val → T.Val
  | .integral _ _, v => -v
  | .__half, v => ⟨v.byte0, (v.byte1 + 0x80) % 2 ^ 8⟩
  | .hip_bfloat16, v => ⟨v.byte0, (v.byte1 + 0x80) % 2 ^ 8⟩
  | .float, v => (v + 2 ^ 31) % 2 ^ 32
  | .double, v => (v + 2 ^ 63) % 2 ^ 64

/-- `detail::get_lowest_value<T>()` with its specialisations for `__half` and
`hip_bfloat16` (lines 63-81). -/
def get_lowest_value : (T : ScalarType) → T.Val
  | .__half => set_half_bits 0xfbff
  | .hip_bfloat16 => set_half_bits 0xff7f
  | .integral is_signed bits => numeric_limits_lowest (.integral is_signed bits)
  | .float => numeric_limits_lowest .float
  | .double => numeric_limits_lowest .double

/-- `detail::get_max_value<T>()` with its specialisations for `__half` and
`hip_bfloat16` (lines 83-101). -/
def get_max_value : (T : ScalarType) → T.Val
  | .__half => set_half_bits 0x7bff
  | .hip_bfloat16 => set_half_bits 0x7f7f
  | .integral is_signed bits => numeric_limits_max (.integral is_signed bits)
  | .float => numeric_limits_max .float
  | .double => numeric_limits_max .double

/-- `detail::get_lowest_special_value<T>()` (lines 103-131): the two overloads selected
by `rocprim::is_floating_point<T>` and the specialisations for `__half` and
`hip_bfloat16`. -/
def get_lowest_special_value : (T : ScalarType) → T.Val
  | .__half => set_half_bits 0xfc00
  | .hip_bfloat16 => set_half_bits 0xff80
  | .integral is_signed bits =>
    if (ScalarType.integral is_signed bits).is_floating_point then
      negate (.integral is_signed bits) (numeric_limits_infinity (.integral is_signed bits))
    else get_lowest_value (.integral is_signed bits)
  | .float =>
    if ScalarType.float.is_floating_point then negate .float (numeric_limits_infinity .float)
    else get_lowest_value .float
  | .double =>
    if ScalarType.double.is_floating_point then
      negate .double (numeric_limits_infinity .double)
    else get_lowest_value .double

/-- `detail::get_max_special_value<T>()` (lines 133-161): the two overloads selected by
`rocprim::is_floating_point<T>` and the specialisations for `__half` and
`hip_bfloat16`. -/
def get_max_special_value : (T : ScalarType) → T.Val
  | .__half => set_half_bits 0x7c00
  | .hip_bfloat16 => set_half_bits 0x7f80
  | .integral is_signed bits =>
    if (ScalarType.integral is_signed bits).is_floating_point then
      numeric_limits_infinity (.integral is_signed bits)
    else get_max_value (.integral is_signed bits)
  | .float =>
    if ScalarType.float.is_floating_point then numeric_limits_infinity .float
    else get_max_value .float
  | .double =>
    if ScalarType.double.is_floating_point then numeric_limits_infinity .double
    else get_max_value .double

end detail

/-- Modelled from the spec: `KeyValuePair<Key, Value>` (its declaration is not among the
sources): an index and a value stored as one record. -/
structure KeyValuePair (Key Value : Type) where
  key : Key
  value : Value
  deriving DecidableEq, Repr

/-- What `backend/rocprim/device/device_reduce.hpp` uses and does not define:
`::rocprim::reduce` (arguments in its order: temporary storage, `storage_size`, input,
the content of the output before the call, initial value, size, operator, stream,
debug flag), the adaptor `detail::convert_binary_result_type`, the value of the macro
`HIPCUB_DETAIL_DEBUG_SYNC_VALUE`, and the lines the logging macro
`HIPCUB_DETAIL_RUNTIME_LOG_DEBUG_SYNCHRONOUS()` prints for a value of
`debug_synchronous`. -/
structure RocprimBackend where
  reduce : (α : Type) → Option Nat → Nat → (Nat → α) → α → α → Int → (α → α → α) →
    hipStream_t → Bool → Outcome hipError_t α
  convert_binary_result_type : (α : Type) → (α → α → α) → α → α → α
  HIPCUB_DETAIL_DEBUG_SYNC_VALUE : Bool
  HIPCUB_DETAIL_RUNTIME_LOG_DEBUG_SYNCHRONOUS : Bool → List String

/-- The functors of `thread/thread_operators.hpp` (not among the sources) that
`DeviceReduce` passes to the reduction, on values of type `V`: `hipcub::Sum`,
`hipcub::Min`, `hipcub::Max`, `hipcub::ArgMin` and `hipcub::ArgMax`. -/
structure thread_operators (V : Type) where
  Sum : V → V → V
  Min : V → V → V
  Max : V → V → V
  ArgMin : KeyValuePair Int V → KeyValuePair Int V → KeyValuePair Int V
  ArgMax : KeyValuePair Int V → KeyValuePair Int V → KeyValuePair Int V

/-- `InitT(0)`: the value of `T` converted from the integer 0. -/
def ScalarType.zero : (T : ScalarType) → T.Val
  | .integral _ _ => 0
  | .__half => ⟨0, 0⟩
  | .hip_bfloat16 => ⟨0, 0⟩
  | .float => 0
  | .double => 0

namespace DeviceReduce

/-- `DeviceReduce::Reduce` (lines 168-193). -/
def Reduce (rocprim : RocprimBackend) {α : Type} (d_temp_storage : Option Nat)
    (temp_storage_bytes : Nat) (d_in : Nat → α) (d_out : α) (num_items : Int)
    (reduction_op : α → α → α) (init : α) (stream : hipStream_t) : Outcome hipError_t α :=
  rocprim.reduce α d_temp_storage temp_storage_bytes d_in d_out init num_items
    (rocprim.convert_binary_result_type α reduction_op) stream
    rocprim.HIPCUB_DETAIL_DEBUG_SYNC_VALUE

/-- `DeviceReduce::Reduce` with the trailing `debug_synchronous` (lines 195-220): the
logging macro, then the modern overload. The second component is what the macro
printed. -/
def Reduce_debug_synchronous (rocprim : RocprimBackend) {α : Type}
    (d_temp_storage : Option Nat) (temp_storage_bytes : Nat) (d_in : Nat → α) (d_out : α)
    (num_items : Int) (reduction_op : α → α → α) (init : α) (stream : hipStream_t)
    (debug_synchronous : Bool) : Outcome hipError_t α × List String :=
  (Reduce rocprim d_temp_storage temp_storage_bytes d_in d_out num_items reduction_op init
    stream, rocprim.HIPCUB_DETAIL_RUNTIME_LOG_DEBUG_SYNCHRONOUS debug_synchronous)

/-- `DeviceReduce::Sum` (lines 222-241). -/
def Sum (rocprim : RocprimBackend) (T : ScalarType) (ops : thread_operators T.Val)
    (d_temp_storage : Option Nat) (temp_storage_bytes : Nat) (d_in : Nat → T.Val)
    (d_out : T.Val) (num_items : Int) (stream : hipStream_t) : Outcome hipError_t T.Val :=
  Reduce rocprim d_temp_storage temp_storage_bytes d_in d_out num_items ops.Sum T.zero stream

/-- `DeviceReduce::Sum` with the trailing `debug_synchronous` (lines 243-255). -/
def Sum_debug_synchronous (rocprim : RocprimBackend) (T : ScalarType)
    (ops : thread_operators T.Val) (d_temp_storage : Option Nat) (temp_storage_bytes : Nat)
    (d_in : Nat → T.Val) (d_out : T.Val) (num_items : Int) (stream : hipStream_t)
    (debug_synchronous : Bool) : Outcome hipError_t T.Val × List String :=
  (Sum rocprim T ops d_temp_storage temp_storage_bytes d_in d_out num_items stream,
    rocprim.HIPCUB_DETAIL_RUNTIME_LOG_DEBUG_SYNCHRONOUS debug_synchronous)

/-- `DeviceReduce::Min` (lines 257-274). -/
def Min (rocprim : RocprimBackend) (T : ScalarType) (ops : thread_operators T.Val)
    (d_temp_storage : Option Nat) (temp_storage_bytes : Nat) (d_in : Nat → T.Val)
    (d_out : T.Val) (num_items : Int) (stream : hipStream_t) : Outcome hipError_t T.Val :=
  Reduce rocprim d_temp_storage temp_storage_bytes d_in d_out num_items ops.Min
    (detail.get_max_value T) stream

/-- `DeviceReduce::Min` with the trailing `debug_synchronous` (lines 276-288). -/
def Min_debug_synchronous (rocprim : RocprimBackend) (T : ScalarType)
    (ops : thread_operators T.Val) (d_temp_storage : Option Nat) (temp_storage_bytes : Nat)
    (d_in : Nat → T.Val) (d_out : T.Val) (num_items : Int) (stream : hipStream_t)
    (debug_synchronous : Bool) : Outcome hipError_t T.Val × List String :=
  (Min rocprim T ops d_temp_storage temp_storage_bytes d_in d_out num_items stream,
    rocprim.HIPCUB_DETAIL_RUNTIME_LOG_DEBUG_SYNCHRONOUS debug_synchronous)

/-- `DeviceReduce::ArgMin` (lines 290-321). `d_indexed_in` is the
`ArgIndexInputIterator` on `d_in`, which yields the pair of an index and the input at
that index. -/
def ArgMin (rocprim : RocprimBackend) (T : ScalarType) (ops : thread_operators T.Val)
    (d_temp_storage : Option Nat) (temp_storage_bytes : Nat) (d_in : Nat → T.Val)
    (d_out : KeyValuePair Int T.Val) (num_items : Int) (stream : hipStream_t) :
    Outcome hipError_t (KeyValuePair Int T.Val) :=
  let d_indexed_in : Nat → KeyValuePair Int T.Val := fun k => ⟨k, d_in k⟩
  let init : KeyValuePair Int T.Val :=
    ⟨1, if num_items > 0 then detail.get_max_special_value T else detail.get_max_value T⟩
  Reduce rocprim d_temp_storage temp_storage_bytes d_indexed_in d_out num_items ops.ArgMin
    init stream

/-- `DeviceReduce::ArgMin` with the trailing `debug_synchronous` (lines 323-335). -/
def ArgMin_debug_synchronous (rocprim : RocprimBackend) (T : ScalarType)
    (ops : thread_operators T.Val) (d_temp_storage : Option Nat) (temp_storage_bytes : Nat)
    (d_in : Nat → T.Val) (d_out : KeyValuePair Int T.Val) (num_items : Int)
    (stream : hipStream_t) (debug_synchronous : Bool) :
    Outcome hipError_t (KeyValuePair Int T.Val) × List String :=
  (ArgMin rocprim T ops d_temp_storage temp_storage_bytes d_in d_out num_items stream,
    rocprim.HIPCUB_DETAIL_RUNTIME_LOG_DEBUG_SYNCHRONOUS debug_synchronous)

/-- `DeviceReduce::Max` (lines 337-354). -/
def Max (rocprim : RocprimBackend) (T : ScalarType) (ops : thread_operators T.Val)
    (d_temp_storage : Option Nat) (temp_storage_bytes : Nat) (d_in : Nat → T.Val)
    (d_out : T.Val) (num_items : Int) (stream : hipStream_t) : Outcome hipError_t T.Val :=
  Reduce rocprim d_temp_storage temp_storage_bytes d_in d_out num_items ops.Max
    (detail.get_lowest_value T) stream

/-- `DeviceReduce::Max` with the trailing `debug_synchronous` (lines 356-368). -/
def Max_debug_synchronous (rocprim : RocprimBackend) (T : ScalarType)
    (ops : thread_operators T.Val) (d_temp_storage : Option Nat) (temp_storage_bytes : Nat)
    (d_in : Nat → T.Val) (d_out : T.Val) (num_items : Int) (stream : hipStream_t)
    (debug_synchronous : Bool) : Outcome hipError_t T.Val × List String :=
  (Max rocprim T ops d_temp_storage temp_storage_bytes d_in d_out num_items stream,
    rocprim.HIPCUB_DETAIL_RUNTIME_LOG_DEBUG_SYNCHRONOUS debug_synchronous)

/-- `DeviceReduce::ArgMax` (lines 370-401). -/
def ArgMax (rocprim : RocprimBackend) (T : ScalarType) (ops : thread_operators T.Val)
    (d_temp_storage : Option Nat) (temp_storage_bytes : Nat) (d_in : Nat → T.Val)
    (d_out : KeyValuePair Int T.Val) (num_items : Int) (stream : hipStream_t) :
    Outcome hipError_t (KeyValuePair Int T.Val) :=
  let d_indexed_in : Nat → KeyValuePair Int T.Val := fun k => ⟨k, d_in k⟩
  let init : KeyValuePair Int T.Val :=
    ⟨1, if num_items > 0 then detail.get_lowest_special_value T
      else detail.get_lowest_value T⟩
  Reduce rocprim d_temp_storage temp_storage_bytes d_indexed_in d_out num_items ops.ArgMax
    init stream

/-- `DeviceReduce::ArgMax` with the trailing `debug_synchronous` (lines 403-421): the
logging macro, then a call of `ArgMax` with the same seven arguments,
`debug_synchronous` included. The only overload of `ArgMax` with seven parameters is
this one (the modern one has six), so the call is a call of this function. Every call
uses one unit of `fuel`; the result is `none` when the fuel is used up before a call
has returned. The second component is what the macro printed. -/
def ArgMax_debug_synchronous (rocprim : RocprimBackend) (T : ScalarType)
    (ops : thread_operators T.Val) (fuel : Nat) (d_temp_storage : Option Nat)
    (temp_storage_bytes : Nat) (d_in : Nat → T.Val) (d_out : KeyValuePair Int T.Val)
    (num_items : Int) (stream : hipStream_t) (debug_synchronous : Bool) :
    Option (Outcome hipError_t (KeyValuePair Int T.Val) × List String) :=
  match fuel with
  | 0 => none
  | fuel + 1 =>
    (ArgMax_debug_synchronous rocprim T ops fuel d_temp_storage temp_storage_bytes d_in
      d_out num_items stream debug_synchronous).map
      (fun r => (r.1, rocprim.HIPCUB_DETAIL_RUNTIME_LOG_DEBUG_SYNCHRONOUS debug_synchronous
        ++ r.2))

end DeviceReduce

/-- Modelled from the spec: `::rocprim::reduce` (not among the sources), with the
two-phase protocol: with a null `temporary_storage` the required size is written and
nothing else happens; otherwise, with at least that many bytes, the output receives the
reduction of the initial value and the `size` inputs with `reduce_op`, from left to
right; for an empty input that is the initial value. The size `required_bytes size` is
not specified further, nor is the code reported for a buffer that is too small (the
model reports an error status). -/
def rocprim_model.reduce (required_bytes : Int → Nat) (α : Type)
    (temporary_storage : Option Nat) (storage_size : Nat) (input : Nat → α) (output : α)
    (initial_value : α) (size : Int) (reduce_op : α → α → α) (_stream : hipStream_t)
    (_debug_synchronous : Bool) : Outcome hipError_t α :=
  match temporary_storage with
  | none => ⟨.hipSuccess, required_bytes size, output⟩
  | some _ =>
    if storage_size < required_bytes size then ⟨.hipErrorInvalidValue, storage_size, output⟩
    else ⟨.hipSuccess, storage_size,
      (Memory.read_range input 0 size.toNat).foldl reduce_op initial_value⟩

/-- Modelled from the spec: the back-end of `device_reduce.hpp` (not among the sources):
the reduction of `rocprim_model.reduce`; the operator adaptor leaves the operator as it
is, the debug value is off and nothing is logged. -/
def rocprim_model (required_bytes : Int → Nat) : RocprimBackend where
  reduce := rocprim_model.reduce required_bytes
  convert_binary_result_type := fun _ op => op
  HIPCUB_DETAIL_DEBUG_SYNC_VALUE := false
  HIPCUB_DETAIL_RUNTIME_LOG_DEBUG_SYNCHRONOUS := fun _ => []

/-- The 16-bit pattern of a stored 16-bit value whose byte 0 holds the low 8 bits and
whose byte 1 holds the high 8 bits. -/
def half_object.bits (h : half_object) : Nat :=
  h.byte0 + 2 ^ 8 * h.byte1

/-- The sign bit of a 16-bit pattern. -/
def sign_bit (pattern : Nat) : Nat :=
  pattern / 2 ^ 15 % 2

/-- The exponent field of a 16-bit pattern in a format with `exponent_bits` exponent
bits above `mantissa_bits` mantissa bits. -/
def exponent_field (exponent_bits mantissa_bits pattern : Nat) : Nat :=
  pattern / 2 ^ mantissa_bits % 2 ^ exponent_bits

/-- The mantissa field of a 16-bit pattern in a format with `mantissa_bits` mantissa
bits. -/
def mantissa_field (mantissa_bits pattern : Nat) : Nat :=
  pattern % 2 ^ mantissa_bits

/-- The values of an integral type `T`: the integers from `numeric_limits<T>::lowest()`
to `numeric_limits<T>::max()`. -/
def in_range (is_signed : Bool) (bits : Nat) (x : Int) : Prop :=
  x ≥ detail.numeric_limits_lowest (.integral is_signed bits) ∧
    x ≤ detail.numeric_limits_max (.integral is_signed bits)

instance (is_signed : Bool) (bits : Nat) (x : Int) : Decidable (in_range is_signed bits x) :=
  inferInstanceAs (Decidable (_ ∧ _))

/-- Modelled from the spec: the functors of `thread/thread_operators.hpp` (not among the
sources) on the values of an integral type. `Min` and `Max` return the smaller and the
larger argument; `ArgMin` and `ArgMax` compare on the value and break a tie by the
smaller index; `Sum` adds (on the integers: overflow is outside the model). -/
def integral_operators : thread_operators Int where
  Sum := fun a b => a + b
  Min := fun a b => if b < a then b else a
  Max := fun a b => if a < b then b else a
  ArgMin := fun a b =>
    if b.value < a.value ∨ (a.value = b.value ∧ b.key < a.key) then b else a
  ArgMax := fun a b =>
    if a.value < b.value ∨ (a.value = b.value ∧ b.key < a.key) then b else a

end hipcub

namespace thrust

/-- A strict weak ordering: irreflexive, transitive, and with a transitive
incomparability relation. -/
def strict_weak_ordering {α : Type} (pred : α → α → Bool) : Prop :=
  (∀ a, pred a a = false) ∧
  (∀ a b c, pred a b = true → pred b c = true → pred a c = true) ∧
  (∀ a b c, pred a b = false → pred b a = false → pred b c = false → pred c b = false →
    pred a c = false ∧ pred c a = false)

namespace hip_rocprim

namespace __extrema

variable {InputType : Type}

/-- `arg_min_f::operator()` of `system/hip/detail/extrema.h` (lines 64-84) on pairs of a
value and an index. -/
def arg_min_f (predicate : InputType → InputType → Bool) (lhs rhs : InputType × Int) :
    InputType × Int :=
  let rhs_value := rhs.1
  let lhs_value := lhs.1
  let rhs_key := rhs.2
  let lhs_key := lhs.2
  if predicate lhs_value rhs_value then lhs
  else if predicate rhs_value lhs_value then rhs
  else if lhs_key < rhs_key then lhs
  else rhs

/-- `arg_max_f::operator()` (lines 99-119). -/
def arg_max_f (predicate : InputType → InputType → Bool) (lhs rhs : InputType × Int) :
    InputType × Int :=
  let rhs_value := rhs.1
  let lhs_value := lhs.1
  let rhs_key := rhs.2
  let lhs_key := lhs.2
  if predicate lhs_value rhs_value then rhs
  else if predicate rhs_value lhs_value then lhs
  else if lhs_key < rhs_key then lhs
  else rhs

/-- `arg_minmax_f::operator()` (lines 139-149) on pairs of pairs. -/
def arg_minmax_f (predicate : InputType → InputType → Bool)
    (lhs rhs : (InputType × Int) × (InputType × Int)) :
    (InputType × Int) × (InputType × Int) :=
  let rhs_min := rhs.1
  let lhs_min := lhs.1
  let rhs_max := rhs.2
  let lhs_max := lhs.2
  (arg_min_f predicate lhs_min rhs_min, arg_max_f predicate lhs_max rhs_max)

/-- `arg_minmax_f::duplicate_tuple::operator()` (lines 153-157). -/
def duplicate_tuple (t : InputType × Int) : (InputType × Int) × (InputType × Int) :=
  (t, t)

end __extrema

/-- The calls `__extrema::extrema` makes outside `extrema.h`, with the arguments that
concern the temporary storage. -/
inductive Call where
  | reduce (temporary_storage : Option Nat) (storage_size : Nat)
  | partition (ptr : Option Nat)
  | temporary_array (storage_size : Nat)
  | get_value (d_result : Nat)
  deriving DecidableEq, Repr

/-- What `__extrema::extrema` uses and `extrema.h` does not define, for results of type
`T`: the stream of the execution policy, the value of `THRUST_HIP_DEBUG_SYNC_FLAG`,
`rocprim::reduce` without an initial value (arguments in its order: temporary storage,
`storage_size`, input, output address, size, operator, stream, debug flag; `out` is the
value written to the output, if one was written), `partition` on the linear partition
built from `temp_storage_bytes` (arguments: `ptr`, `storage_size`, `temp_storage_bytes`;
result: status, `storage_size` and `d_result` after the call), the address of the
storage a `temporary_array` of a given size allocates, and the content of freshly
allocated storage read as a `T`. -/
structure Backend (T : Type) where
  stream : hipcub.hipStream_t
  THRUST_HIP_DEBUG_SYNC_FLAG : Bool
  reduce : Option Nat → Nat → (Nat → T) → Option Nat → Int → (T → T → T) →
    hipcub.hipStream_t → Bool → hipcub.Outcome hipcub.hipError_t (Option T)
  partition : Option Nat → Nat → Nat → hipcub.hipError_t × Nat × Nat
  temporary_array : Nat → Nat
  uninitialized : T

end hip_rocprim

end thrust

namespace thrust

namespace hip_rocprim

namespace __extrema

variable {InputType : Type}

/-- `__extrema::extrema` (lines 161-221). `first` gives the item at each offset from the
input iterator. `throw_on_error` throws when the status is not `hipSuccess`: the result
is then the error with the message passed; the first component lists the calls made
outside `extrema.h`, in order. -/
def extrema {T : Type} (policy : Backend T) (first : Nat → T) (num_items : Int)
    (binary_op : T → T → T) : List Call × Except (hipcub.hipError_t × String) T :=
  if num_items = 0 then
    ([], .error (.hipErrorInvalidValue, "extrema number of items is zero"))
  else
    let temp_storage_bytes := 0
    let stream := policy.stream
    let debug_sync := policy.THRUST_HIP_DEBUG_SYNC_FLAG
    let step1 := policy.reduce none temp_storage_bytes first none num_items binary_op stream
      debug_sync
    let calls := [Call.reduce none temp_storage_bytes]
    if step1.status ≠ .hipSuccess then
      (calls, .error (step1.status, "extrema failed on 1st step"))
    else
      let temp_storage_bytes := step1.temp_storage_bytes
      let ptr : Option Nat := none
      let sizes := policy.partition ptr 0 temp_storage_bytes
      let calls := calls ++ [Call.partition ptr]
      if sizes.1 ≠ .hipSuccess then (calls, .error (sizes.1, ""))
      else
        let storage_size := sizes.2.1
        let ptr := some (policy.temporary_array storage_size)
        let calls := calls ++ [Call.temporary_array storage_size]
        let pointers := policy.partition ptr storage_size temp_storage_bytes
        let calls := calls ++ [Call.partition ptr]
        if pointers.1 ≠ .hipSuccess then (calls, .error (pointers.1, ""))
        else
          let d_result := pointers.2.2
          let step2 := policy.reduce ptr temp_storage_bytes first (some d_result) num_items
            binary_op stream debug_sync
          let calls := calls ++ [Call.reduce ptr temp_storage_bytes]
          if step2.status ≠ .hipSuccess then
            (calls, .error (step2.status, "extrema failed on 2nd step"))
          else
            let return_value := step2.out.getD policy.uninitialized
            (calls ++ [Call.get_value d_result], .ok return_value)

/-- `__extrema::element` (lines 223-253). Iterators are positions (integers), `items`
gives the value at each position; `begin` is the zip iterator of `first` and a counting
iterator from 0. -/
def element
    (ArgFunctor : (InputType → InputType → Bool) → InputType × Int → InputType × Int →
      InputType × Int)
    (policy : Backend (InputType × Int)) (items : Int → InputType) (first last : Int)
    (binary_pred : InputType → InputType → Bool) :
    List Call × Except (hipcub.hipError_t × String) Int :=
  if first = last then ([], .ok last)
  else
    let num_items : Int := last - first
    let begin : Nat → InputType × Int := fun i => (items (first + i), (i : Int))
    match extrema policy begin num_items (ArgFunctor binary_pred) with
    | (calls, .error e) => (calls, .error e)
    | (calls, .ok result) => (calls, .ok (first + result.2))

end __extrema

variable {InputType : Type}

/-- `hip_rocprim::min_element` with a predicate (lines 258-276), in the configuration
`__THRUST_HAS_HIPRT__`. -/
def min_element (policy : Backend (InputType × Int)) (items : Int → InputType)
    (first last : Int) (binary_pred : InputType → InputType → Bool) :
    List Call × Except (hipcub.hipError_t × String) Int :=
  __extrema.element __extrema.arg_min_f policy items first last binary_pred

/-- `hip_rocprim::max_element` with a predicate (lines 289-307), in the configuration
`__THRUST_HAS_HIPRT__`. -/
def max_element (policy : Backend (InputType × Int)) (items : Int → InputType)
    (first last : Int) (binary_pred : InputType → InputType → Bool) :
    List Call × Except (hipcub.hipError_t × String) Int :=
  __extrema.element __extrema.arg_max_f policy items first last binary_pred

/-- `hip_rocprim::minmax_element` with a predicate (lines 320-364), in the configuration
`__THRUST_HAS_HIPRT__`. -/
def minmax_element (policy : Backend ((InputType × Int) × (InputType × Int)))
    (items : Int → InputType) (first last : Int)
    (binary_pred : InputType → InputType → Bool) :
    List Call × Except (hipcub.hipError_t × String) (Int × Int) :=
  if first = last then ([], .ok (last, last))
  else
    let num_items : Int := last - first
    let begin : Nat → InputType × Int := fun i => (items (first + i), (i : Int))
    match __extrema.extrema policy (fun i => __extrema.duplicate_tuple (begin i)) num_items
      (__extrema.arg_minmax_f binary_pred) with
    | (calls, .error e) => (calls, .error e)
    | (calls, .ok result) => (calls, .ok (first + result.1.2, first + result.2.2))

/-- The left fold of a non-empty list with `op`, starting from its first element. -/
def fold_left {T : Type} (op : T → T → T) : List T → Option T
  | [] => none
  | x :: xs => some (xs.foldl op x)

/-- Modelled from the spec: the back-end of `extrema.h` (`rocprim::reduce`, `partition`,
`temporary_array` and `get_value` are not among the sources). `rocprim::reduce` follows
the two-phase protocol: with a null temporary storage it reports the required size
`required_bytes size`; otherwise, with at least that many bytes, it writes to the output
the left fold of the `size` items with the operator. `partition` adds `result_bytes`
for the result to the size and places the result after the temporary storage; storage
is allocated at address `storage`. -/
def backend_model {T : Type} (required_bytes : Int → Nat) (result_bytes storage : Nat)
    (uninitialized : T) : Backend T where
  stream := 0
  THRUST_HIP_DEBUG_SYNC_FLAG := false
  reduce := fun temporary_storage storage_size input output size reduce_op _ _ =>
    match temporary_storage with
    | none => ⟨.hipSuccess, required_bytes size, none⟩
    | some _ =>
      if storage_size < required_bytes size then ⟨.hipErrorInvalidValue, storage_size, none⟩
      else ⟨.hipSuccess, storage_size,
        output.bind (fun _ => fold_left reduce_op (Memory.read_range input 0 size.toNat))⟩
  partition := fun ptr storage_size temp_storage_bytes =>
    match ptr with
    | none => (.hipSuccess, temp_storage_bytes + result_bytes, 0)
    | some p => (.hipSuccess, storage_size, p + temp_storage_bytes)
  temporary_array := fun _ => storage
  uninitialized := uninitialized

end hip_rocprim

end thrust

namespace thrust

/-- `discard_iterator<>` of `iterator/discard_iterator.h`. Modelled from the spec: its
base `detail::discard_iterator_base` (not among the sources), an adaptor of a counting
iterator: the iterator is its index in the range; the element `m_element` it
dereferences to swallows what is assigned to it. -/
structure discard_iterator where
  index : Int
  deriving DecidableEq, Repr

/-- The constructor `discard_iterator(incrementable const& i)`. -/
def discard_iterator.construct (i : Int) : discard_iterator :=
  ⟨i⟩

/-- `make_discard_iterator(i)` of `iterator/discard_iterator.h`. -/
def make_discard_iterator (i : Int) : discard_iterator :=
  discard_iterator.construct i

/-- `make_discard_iterator()`: the default argument is `difference_type(0)`. -/
def make_discard_iterator_default : discard_iterator :=
  make_discard_iterator 0

/-- What an algorithm does with an output iterator of type `It` for values of type `T`:
`*it = value` and `++it`. -/
structure OutputIterator (It T : Type) where
  assign : It → T → It
  increment : It → It

/-- A raw pointer as output iterator: the memory written so far and the address. -/
def pointer_output (T : Type) : OutputIterator (Memory T × Nat) T where
  assign := fun it value => (it.1.write it.2 value, it.2)
  increment := fun it => (it.1, it.2 + 1)

/-- A `discard_iterator` as output iterator: the assignment is swallowed, the increment
advances the index. -/
def discard_output (T : Type) : OutputIterator discard_iterator T where
  assign := fun it _ => it
  increment := fun it => ⟨it.index + 1⟩

/-- `thrust::placeholders::_1` used as a unary predicate on a flag: the flag itself. -/
def placeholders._1 (flag : Bool) : Bool :=
  flag

namespace system

namespace detail

namespace generic

variable {T It : Type}

/-- What `system/detail/generic/unique.inl` uses and does not define: the range
`thrust::detail::head_flags` of an input range and a predicate, `thrust::copy_if` with
a stencil (input, stencil, output, predicate) and `thrust::count_if` (range,
predicate), for the system of the execution policy. -/
structure Algorithms (T It : Type) where
  head_flags : List T → (T → T → Bool) → List Bool
  copy_if : List T → List Bool → It → (Bool → Bool) → It
  count_if : List Bool → (Bool → Bool) → Int

/-- `generic::unique_copy` with a predicate (lines 85-101). -/
def unique_copy (exec : Algorithms T It) (input : List T) (output : It)
    (binary_pred : T → T → Bool) : It :=
  let stencil := exec.head_flags input binary_pred
  exec.copy_if input stencil output placeholders._1

/-- `generic::unique_copy` without a predicate (lines 71-82): `equal_to<value_type>`. -/
def unique_copy_equal_to [DecidableEq T] (exec : Algorithms T It) (input : List T)
    (output : It) : It :=
  unique_copy exec input output (fun x y => decide (x = y))

/-- `generic::unique_count` with a predicate (lines 104-119). -/
def unique_count (exec : Algorithms T It) (input : List T) (binary_pred : T → T → Bool) :
    Int :=
  let stencil := exec.head_flags input binary_pred
  exec.count_if stencil placeholders._1

/-- `generic::unique_count` without a predicate (lines 122-132). -/
def unique_count_equal_to [DecidableEq T] (exec : Algorithms T It) (input : List T) : Int :=
  unique_count exec input (fun x y => decide (x = y))

/-- Modelled from the spec: the flags of `head_flags` after the first element
(`thrust/detail/range/head_flags.h` is not among the sources): the flag at index
`i > 0` is set when `pred(in[i-1], in[i])` is false. `previous` is `in[i-1]`. -/
def head_flags_loop (binary_pred : T → T → Bool) : T → List T → List Bool
  | _, [] => []
  | previous, x :: xs => (!binary_pred previous x) :: head_flags_loop binary_pred x xs

/-- Modelled from the spec: `head_flags` (not among the sources): the flag at index 0 is
set, the others are those of `head_flags_loop`. -/
def head_flags_model (input : List T) (binary_pred : T → T → Bool) : List Bool :=
  match input with
  | [] => []
  | x :: xs => true :: head_flags_loop binary_pred x xs

/-- Modelled from the spec: `copy_if` with a stencil (the one the policy dispatches to
is not fixed by `unique.inl`): in input order, every element whose flag satisfies the
predicate is assigned through the output iterator, which is then incremented; the
result is the output iterator after the last write. -/
def copy_if_model (out : OutputIterator It T) :
    List T → List Bool → It → (Bool → Bool) → It
  | x :: xs, flag :: flags, output, pred =>
    if pred flag then copy_if_model out xs flags (out.increment (out.assign output x)) pred
    else copy_if_model out xs flags output pred
  | [], _, output, _ => output
  | _ :: _, [], output, _ => output

/-- Modelled from the spec: `count_if` (not among the sources): the number of elements
of the range that satisfy the predicate. -/
def count_if_model (range : List Bool) (pred : Bool → Bool) : Int :=
  ((range.filter pred).length : Int)

/-- Modelled from the spec: the algorithms `unique.inl` calls, for an output iterator
`out`. -/
def algorithms_model (out : OutputIterator It T) : Algorithms T It where
  head_flags := head_flags_model
  copy_if := copy_if_model out
  count_if := count_if_model

/-- The indices `i` of the input with `i == 0` or `pred(in[i-1], in[i])` false, in
increasing order (`d` stands for the elements outside the input, which are not read). -/
def head_indices (d : T) (input : List T) (binary_pred : T → T → Bool) : List Nat :=
  (List.range input.length).filter
    (fun i => decide (i = 0) || !binary_pred (input.getD (i - 1) d) (input.getD i d))

end generic

end detail

end system

/-- The conversion `(int)x` of an integer value `x`: the value of the 32-bit signed
range that is congruent to `x` modulo `2^32`. -/
def static_cast_int (x : Int) : Int :=
  (x + 2 ^ 31) % 2 ^ 32 - 2 ^ 31

/-- The predicate `is_equal_div_10_unique` of `test/test_unique.cpp` (lines 105-112):
both arguments are converted to `int` and divided with the division of C (towards
zero). -/
def is_equal_div_10_unique (x y : Int) : Bool :=
  Int.tdiv (static_cast_int x) 10 == Int.tdiv (static_cast_int y) 10

end thrust

namespace thrust

/-- A raw pointer `Element*`: an address. -/
abbrev raw_pointer := Nat

/-- The null pointer: address 0. -/
def nullptr : raw_pointer := 0

/-- The conversion `bool(ptr)` of a raw pointer: true when it is not null. -/
def raw_pointer_to_bool (ptr : raw_pointer) : Bool :=
  decide (ptr ≠ nullptr)

/-- Modelled from the spec: `iterator_adaptor`, the base class of `thrust::pointer`
(`thrust/iterator/iterator_adaptor.h` is not among the sources): it stores the base
iterator it is constructed from, `base()` returns it and `base_reference()` is a
reference to it. -/
structure iterator_adaptor (Base : Type) where
  m_iterator : Base
  deriving DecidableEq, Repr

/-- The member `base()` of `iterator_adaptor`. -/
def iterator_adaptor.base {Base : Type} (it : iterator_adaptor Base) : Base :=
  it.m_iterator

/-- The assignment `base_reference() = value`. -/
def iterator_adaptor.assign_base_reference {Base : Type} (_it : iterator_adaptor Base)
    (value : Base) : iterator_adaptor Base :=
  ⟨value⟩

/-- `thrust::pointer<Element, Tag, Reference, Derived>` of `detail/pointer.h`: an
`iterator_adaptor` of `Element*`. -/
structure pointer where
  super_t : iterator_adaptor raw_pointer
  deriving DecidableEq, Repr

namespace pointer

/-- `pointer::pointer()` of `detail/pointer.inl` (lines 27-32). -/
def construct_default : pointer :=
  ⟨⟨nullptr⟩⟩

/-- `pointer::pointer(std::nullptr_t)` (lines 35-40). -/
def construct_nullptr : pointer :=
  ⟨⟨nullptr⟩⟩

/-- `pointer::pointer(OtherElement* other)` (lines 43-49). -/
def construct_other (other : raw_pointer) : pointer :=
  ⟨⟨other⟩⟩

/-- `pointer::pointer(Element* ptr)` (lines 52-57). -/
def construct (ptr : raw_pointer) : pointer :=
  ⟨⟨ptr⟩⟩

/-- `pointer::operator=(decltype(nullptr))` (lines 85-93): the pointer after the
assignment. -/
def assign_nullptr (p : pointer) : pointer :=
  ⟨p.super_t.assign_base_reference nullptr⟩

/-- `pointer::get()` (lines 153-159). -/
def get (p : pointer) : raw_pointer :=
  p.super_t.base

/-- `pointer::operator->()` (lines 162-168). -/
def operator_arrow (p : pointer) : raw_pointer :=
  p.super_t.base

/-- `pointer::operator bool()` (lines 171-177). -/
def operator_bool (p : pointer) : Bool :=
  raw_pointer_to_bool p.get

/-- `operator==(std::nullptr_t, pointer)` (lines 191-196). -/
def nullptr_eq (p : pointer) : Bool :=
  nullptr == p.get

/-- `operator==(pointer, std::nullptr_t)` (lines 198-203). -/
def eq_nullptr (p : pointer) : Bool :=
  nullptr == p.get

/-- `operator!=(std::nullptr_t, pointer)` (lines 205-210). -/
def nullptr_ne (p : pointer) : Bool :=
  !(nullptr_eq p)

/-- `operator!=(pointer, std::nullptr_t)` (lines 212-217). -/
def ne_nullptr (p : pointer) : Bool :=
  !(nullptr_eq p)

end pointer

end thrust

namespace thrust

namespace mr

/-- The value `(std::numeric_limits<std::size_t>::max)()` on the 64-bit targets of the
library. -/
def size_type_max : Nat :=
  2 ^ 64 - 1

/-- What `mr::allocator<T, MR>` uses of its memory resource `MR`: `do_allocate(bytes,
alignment)` and `do_deallocate(p, bytes, alignment)`, on the state `State` of the
resource. -/
structure memory_resource (State Pointer : Type) where
  do_allocate : State → Nat → Nat → State × Pointer
  do_deallocate : State → Pointer → Nat → Nat → State

/-- `mr::allocator<T, MR>` of `mr/allocator.h`: the element type by `sizeof(T)` and
`alignof(T)`, and the resource `mem_res`. -/
structure allocator (State Pointer : Type) where
  sizeof_T : Nat
  alignof_T : Nat
  mem_res : memory_resource State Pointer

variable {State Pointer : Type}

/-- `allocator::max_size()` (lines 97-100). -/
def allocator.max_size (a : allocator State Pointer) : Nat :=
  size_type_max / a.sizeof_T

/-- `allocator::allocate(n)` (lines 125-128), from the state `s` of the resource. -/
def allocator.allocate (a : allocator State Pointer) (s : State) (n : Nat) :
    State × Pointer :=
  a.mem_res.do_allocate s (n * a.sizeof_T % 2 ^ 64) a.alignof_T

/-- `allocator::deallocate(p, n)` (lines 136-139), from the state `s` of the
resource. -/
def allocator.deallocate (a : allocator State Pointer) (s : State) (p : Pointer) (n : Nat) :
    State :=
  a.mem_res.do_deallocate s p (n * a.sizeof_T % 2 ^ 64) a.alignof_T

/-- A resource that records the byte count and the alignment of every request, newest
first; the pointer it returns is the number of earlier requests. -/
def recording_resource : memory_resource (List (Nat × Nat)) Nat where
  do_allocate := fun s bytes alignment => ((bytes, alignment) :: s, s.length)
  do_deallocate := fun s _ bytes alignment => (bytes, alignment) :: s

end mr

namespace system

namespace cpp

/-- The pointer types that `system/cpp/memory_resource.h` names. -/
inductive pointer_type where
  | pointer_void
  | universal_pointer_void
  deriving DecidableEq, Repr

/-- The upstream resources that `system/cpp/memory_resource.h` names. -/
inductive upstream_type where
  | new_delete_resource
  deriving DecidableEq, Repr

/-- The type `thrust::mr::fancy_pointer_resource<Upstream, Pointer>`, by its two
template arguments; `pointer` is its member type `pointer`. -/
structure fancy_pointer_resource where
  upstream : upstream_type
  pointer : pointer_type
  deriving DecidableEq, Repr

namespace detail

/-- The alias `detail::native_resource` (line 36). -/
def native_resource : fancy_pointer_resource :=
  ⟨.new_delete_resource, .pointer_void⟩

/-- The alias `detail::universal_native_resource` (lines 38-39). -/
def universal_native_resource : fancy_pointer_resource :=
  ⟨.new_delete_resource, .universal_pointer_void⟩

end detail

/-- The alias `cpp::memory_resource` (line 51). -/
def memory_resource : fancy_pointer_resource :=
  detail.native_resource

/-- The alias `cpp::universal_memory_resource` (line 55). -/
def universal_memory_resource : fancy_pointer_resource :=
  detail.universal_native_resource

/-- The alias `cpp::universal_host_pinned_memory_resource` (line 57). -/
def universal_host_pinned_memory_resource : fancy_pointer_resource :=
  detail.native_resource

end cpp

end system

namespace hip_rocprim

/-- The systems of the execution policies `cross_system.h` distinguishes. -/
inductive system_tag where
  | hip
  | cpp
  deriving DecidableEq, Repr

/-- An execution policy: its system, and which object it is. -/
structure execution_policy where
  system : system_tag
  object : Nat
  deriving DecidableEq, Repr

/-- The enumeration `hipMemcpyKind` of the HIP runtime. -/
inductive hipMemcpyKind where
  | hipMemcpyHostToHost
  | hipMemcpyHostToDevice
  | hipMemcpyDeviceToHost
  | hipMemcpyDeviceToDevice
  | hipMemcpyDefault
  deriving DecidableEq, Repr

/-- `cross_system<Sys1, Sys2>` of `system/hip/detail/cross_system.h` (lines 40-57): the
references `sys1` and `sys2`. -/
structure cross_system where
  sys1 : execution_policy
  sys2 : execution_policy
  deriving DecidableEq, Repr

/-- `cross_system::rotate()` (lines 52-56). -/
def cross_system.rotate (systems : cross_system) : cross_system :=
  ⟨systems.sys2, systems.sys1⟩

/-- `direction_of_copy` of two policies (lines 59-96); there is no overload for two
policies of the `cpp` system. -/
def direction_of_copy : execution_policy → execution_policy → Option hipMemcpyKind
  | ⟨.hip, _⟩, ⟨.cpp, _⟩ => some .hipMemcpyDeviceToHost
  | ⟨.cpp, _⟩, ⟨.hip, _⟩ => some .hipMemcpyHostToDevice
  | ⟨.hip, _⟩, ⟨.hip, _⟩ => some .hipMemcpyDeviceToDevice
  | ⟨.cpp, _⟩, ⟨.cpp, _⟩ => none

/-- `direction_of_copy` of a single policy (lines 98-106): the overload takes a policy of
the `hip` system; for a policy of the `cpp` system there is no overload. -/
def direction_of_copy_single : execution_policy → Option hipMemcpyKind
  | ⟨.hip, _⟩ => some .hipMemcpyDeviceToDevice
  | ⟨.cpp, _⟩ => none

/-- `direction_of_copy` of a `cross_system` (lines 108-118): the direction of `sys1` and
`sys2`. When there is no overload for these two, this overload drops out of the overload
set and the one for a single policy (lines 98-106) applies, a `cross_system` being a
policy of the `hip` system. -/
def direction_of_copy_cross_system (systems : cross_system) : Option hipMemcpyKind :=
  match direction_of_copy systems.sys1 systems.sys2 with
  | some Direction => some Direction
  | none => some .hipMemcpyDeviceToDevice

/-- `is_device_to_host_copy` (lines 120-151), on the `Direction` computed by
`direction_of_copy`. -/
def is_device_to_host_copy (Direction : hipMemcpyKind) : Bool :=
  decide (hipMemcpyKind.hipMemcpyDeviceToHost = Direction)

/-- `is_host_to_device_copy` (lines 153-184). -/
def is_host_to_device_copy (Direction : hipMemcpyKind) : Bool :=
  decide (hipMemcpyKind.hipMemcpyHostToDevice = Direction)

/-- `is_device_to_device_copy` (lines 186-217). -/
def is_device_to_device_copy (Direction : hipMemcpyKind) : Bool :=
  decide (hipMemcpyKind.hipMemcpyDeviceToDevice = Direction)

end hip_rocprim

end thrust

namespace hipcub

namespace test

/-- The constant `size` of the test `LargeIndicesInclusiveScan` of
`test/hipcub/test_hipcub_device_scan.cpp` (line 913): `(1ul << 31) + 1ul`. -/
def LargeIndicesInclusiveScan.size : Nat :=
  (2 ^ 31 + 1) % 2 ^ 64

/-- The value `expected_output` of `LargeIndicesInclusiveScan` (lines 967-970) for a
start value `*input_begin`: `T` is `unsigned int` (32 bits), `size` is a `size_t`
(64 bits); `2 * (*input_begin)` is a product of `unsigned int`, the sum with `size` and
the difference are computed in `size_t` and converted to `T`. -/
def LargeIndicesInclusiveScan.expected_output (size input_begin : Nat) : Nat :=
  let multiplicand_1 := size % 2 ^ 32
  let multiplicand_2 := ((2 * input_begin % 2 ^ 32 + size) % 2 ^ 64 + (2 ^ 64 - 1)) % 2 ^ 64
    % 2 ^ 32
  if multiplicand_1 % 2 = 0 then multiplicand_1 / 2 * multiplicand_2 % 2 ^ 32
  else multiplicand_1 * (multiplicand_2 / 2) % 2 ^ 32

/-- Modelled from the spec: `hipcub::CountingInputIterator<unsigned int>` started at
`start` (its header is not among the sources): the element at offset `i` is
`start + i` in 32-bit unsigned arithmetic. -/
def CountingInputIterator (start i : Nat) : Nat :=
  (start + i) % 2 ^ 32

/-- Modelled from the spec: the element at index `i` of the inclusive scan with
`hipcub::Sum` on `unsigned int` (`DeviceScan::InclusiveScan` is not among the
sources): `out[0] = in[0]` and `out[i + 1] = out[i] + in[i + 1]`, in 32-bit unsigned
arithmetic. -/
def InclusiveScan_Sum (input : Nat → Nat) : Nat → Nat
  | 0 => input 0 % 2 ^ 32
  | i + 1 => (InclusiveScan_Sum input i + input (i + 1)) % 2 ^ 32

end test

end hipcub

namespace thrust

namespace hip_rocprim

/-- Modelled from the spec: `hip_rocprim::parallel_for(policy, f, num_items)` (its
header is not among the sources): `f(idx)` is executed once for every `idx` in
`[0, num_items)`; the executions are composed in increasing order of `idx`. -/
def parallel_for {State : Type} (f : Nat → State → State) (num_items : Nat) (m : State) :
    State :=
  (List.range num_items).foldl (fun m idx => f idx m) m

namespace __transform

variable {A S B : Type}

/-- `always_true_predicate::operator()` of `system/hip/detail/transform.h`
(lines 51-55). -/
def always_true_predicate {T : Type} (_x : T) : Bool :=
  true

/-- `unary_transform_f::operator()(idx)` with a stencil (lines 85-90), on the memory of
the output; `input` and `stencil` give the elements at each offset, `output` is the
address of the first output element. -/
def unary_transform_f (input : Nat → A) (output : Nat) (stencil : Nat → S) (op : A → B)
    (pred : S → Bool) (idx : Nat) (m : Memory B) : Memory B :=
  if pred (stencil idx) then m.write (output + idx) (op (input idx)) else m

/-- `unary_transform_f::operator()(idx)` of the specialisation for `no_stencil_tag`
(lines 111-116). -/
def unary_transform_f_no_stencil (input : Nat → A) (output : Nat) (op : A → B)
    (pred : A → Bool) (idx : Nat) (m : Memory B) : Memory B :=
  if pred (input idx) then m.write (output + idx) (op (input idx)) else m

/-- `__transform::unary` with a stencil (lines 208-230): the memory after the call and
the returned iterator. -/
def unary (items : Nat → A) (result : Nat) (num_items : Nat) (stencil : Nat → S)
    (transform_op : A → B) (predicate : S → Bool) (m : Memory B) : Memory B × Nat :=
  if num_items = 0 then (m, result)
  else
    (parallel_for (unary_transform_f items result stencil transform_op predicate) num_items m,
      result + num_items)

/-- `__transform::unary` instantiated with `no_stencil_tag` (lines 208-230). -/
def unary_no_stencil (items : Nat → A) (result : Nat) (num_items : Nat)
    (transform_op : A → B) (predicate : A → Bool) (m : Memory B) : Memory B × Nat :=
  if num_items = 0 then (m, result)
  else
    (parallel_for (unary_transform_f_no_stencil items result transform_op predicate)
      num_items m, result + num_items)

end __transform

variable {A S B : Type}

/-- `hip_rocprim::transform_if` with a stencil (lines 280-300); `first` gives the
elements of `[first, last)` by offset and `num_items` is `distance(first, last)`. -/
def transform_if (first : Nat → A) (num_items : Nat) (stencil : Nat → S) (result : Nat)
    (transform_op : A → B) (predicate : S → Bool) (m : Memory B) : Memory B × Nat :=
  __transform.unary first result num_items stencil transform_op predicate m

/-- `hip_rocprim::transform_if` without a stencil (lines 302-314). -/
def transform_if_no_stencil (first : Nat → A) (num_items : Nat) (result : Nat)
    (transform_op : A → B) (predicate : A → Bool) (m : Memory B) : Memory B × Nat :=
  __transform.unary_no_stencil first result num_items transform_op predicate m

/-- `hip_rocprim::transform` (lines 316-326). -/
def transform (first : Nat → A) (num_items : Nat) (result : Nat) (transform_op : A → B)
    (m : Memory B) : Memory B × Nat :=
  transform_if_no_stencil first num_items result transform_op
    __transform.always_true_predicate m

end hip_rocprim

end thrust

namespace thrust

/-- What happens to the storage of an element: an object is constructed at a location
(the constructor returned) or the object at a location is destroyed. -/
inductive lifetime_event where
  | construct (location : Nat)
  | destroy (location : Nat)
  deriving DecidableEq, Repr

/-- `destroy_at(location)` of `detail/memory_algorithms.h` (lines 29-34), on the list of
events so far. -/
def destroy_at (location : Nat) (log : List lifetime_event) : List lifetime_event :=
  log ++ [lifetime_event.destroy location]

/-- `destroy(first, last)` (lines 51-59): the events after the call and the returned
iterator. Every test of the loop condition uses one unit of `fuel`; the result is
`none` when the fuel is used up before the loop has ended. -/
def destroy : Nat → Nat → Nat → List lifetime_event → Option (List lifetime_event × Nat)
  | 0, _, _, _ => none
  | fuel + 1, first, last, log =>
    if first ≠ last then destroy fuel (first + 1) last (destroy_at first log)
    else some (log, first)

variable {E : Type}

/-- The loop of `uninitialized_construct` (lines 121-124): `T_args location` is what the
constructor `T(args...)` does at a location, `none` when it returns and `some e` when it
throws `e`. The result holds the events, the value of `current` and the exception that
ended the loop, if one did; it is `none` when the `fuel` is used up. -/
def uninitialized_construct_loop (T_args : Nat → Option E) :
    Nat → Nat → Nat → List lifetime_event → Option (List lifetime_event × Nat × Option E)
  | 0, _, _, _ => none
  | fuel + 1, current, last, log =>
    if current ≠ last then
      match T_args current with
      | none =>
        uninitialized_construct_loop T_args fuel (current + 1) last
          (log ++ [lifetime_event.construct current])
      | some e => some (log, current, some e)
    else some (log, current, none)

/-- `uninitialized_construct(first, last, args...)` (lines 109-135). On the host
(`NV_IS_HOST`) an exception of the loop is caught, `destroy(first, current)` runs and
the exception is thrown again; in the other branch there is no handler. The result is
the list of events and the exception that leaves the function, if one does. -/
def uninitialized_construct (NV_IS_HOST : Bool) (T_args : Nat → Option E) (fuel : Nat)
    (first last : Nat) (log : List lifetime_event) :
    Option (List lifetime_event × Except E Unit) :=
  match uninitialized_construct_loop T_args fuel first last log with
  | none => none
  | some (log, _, none) => some (log, .ok ())
  | some (log, current, some e) =>
    if NV_IS_HOST then
      match destroy fuel first current log with
      | none => none
      | some (log, _) => some (log, .error e)
    else some (log, .error e)

/-- The loop of `uninitialized_construct_n` (lines 182-185); `n` is the value of the
counter when it is positive and 0 otherwise. -/
def uninitialized_construct_n_loop (T_args : Nat → Option E) :
    Nat → Nat → List lifetime_event → List lifetime_event × Nat × Option E
  | 0, current, log => (log, current, none)
  | n + 1, current, log =>
    match T_args current with
    | none =>
      uninitialized_construct_n_loop T_args n (current + 1)
        (log ++ [lifetime_event.construct current])
    | some e => (log, current, some e)

/-- `uninitialized_construct_n(first, n, args...)` (lines 171-196), with the `fuel` of
the call of `destroy` in the handler. -/
def uninitialized_construct_n (NV_IS_HOST : Bool) (T_args : Nat → Option E) (fuel : Nat)
    (first : Nat) (n : Int) (log : List lifetime_event) :
    Option (List lifetime_event × Except E Unit) :=
  match uninitialized_construct_n_loop T_args n.toNat first log with
  | (log, _, none) => some (log, .ok ())
  | (log, current, some e) =>
    if NV_IS_HOST then
      match destroy fuel first current log with
      | none => none
      | some (log, _) => some (log, .error e)
    else some (log, .error e)

end thrust

namespace hipcub

namespace test

/-- The distribution `std::uniform_int_distribution<IntType>(a, b)` of the C++ standard
library applied to an engine: a value of `[a, b]`, here the one at the offset the
engine output `raw` selects. The constructor with the single argument `a` takes
`std::numeric_limits<IntType>::max()` for `b`. -/
def uniform_int_distribution (a b raw : Nat) : Nat :=
  a + raw % (b - a + 1)

/-- `std::fill(first, last, value)` on a vector, by indices. -/
def fill (keys : List Nat) (first last value : Nat) : List Nat :=
  List.zipWith (fun i x => if first ≤ i ∧ i < last then value else x)
    (List.range keys.length) keys

/-- The loop of `generate_segments` of `test/hipcub/test_hipcub_device_scan.cpp`
(lines 104-113). `T_max` is `std::numeric_limits<T>::max()`, `prng i` the `i`-th output
of the engine, `draws` the number of outputs used so far; `size_t` has 64 bits. Next to
the keys the result lists the index ranges `(keys_start_index, new_segment_end)` of the
fills. Every test of the loop condition uses one unit of fuel; the result is `none`
when the fuel is used up. -/
def generate_segments_loop (T_max : Nat) (prng : Nat → Nat) (size max_segment_length : Nat) :
    Nat → Nat → Nat → List Nat → List (Nat × Nat) → Option (List Nat × List (Nat × Nat))
  | 0, _, _, _, _ => none
  | fuel + 1, keys_start_index, draws, keys, fills =>
    if keys_start_index < size then
      let new_segment_length :=
        uniform_int_distribution max_segment_length (2 ^ 64 - 1) (prng draws)
      let new_segment_end := min size ((keys_start_index + new_segment_length) % 2 ^ 64)
      let key := uniform_int_distribution T_max T_max (prng (draws + 1))
      generate_segments_loop T_max prng size max_segment_length fuel
        ((keys_start_index + new_segment_length) % 2 ^ 64) (draws + 2)
        (fill keys keys_start_index new_segment_end key)
        (fills ++ [(keys_start_index, new_segment_end)])
    else some (keys, fills)

/-- `generate_segments<T>(size, max_segment_length, seed_value)` (lines 92-115);
`default_random_engine seed_value` is the sequence of outputs of
`std::default_random_engine` seeded with `seed_value`. -/
def generate_segments (T_max : Nat) (default_random_engine : Int → Nat → Nat) (fuel : Nat)
    (size max_segment_length : Nat) (seed_value : Int) :
    Option (List Nat × List (Nat × Nat)) :=
  generate_segments_loop T_max (default_random_engine seed_value) size max_segment_length
    fuel 0 0 (List.replicate size 0) []

end test

end hipcub

namespace thrust

namespace hip_rocprim

namespace __copy_if

variable {T P : Type}

/-- The conversion `static_cast<float>(n)` of a non-negative integer below `2^64`: the
nearest value with a 24-bit significand, a tie going to the even significand (the
rounding of IEEE-754 binary32). The result is an integer and is given as such; `e` is
the number of low bits that do not fit. -/
def static_cast_float (n : Nat) : Nat :=
  if n < 2 ^ 24 then n
  else
    match (List.range 41).find? (fun e => decide (n / 2 ^ e < 2 ^ 24)) with
    | none => n
    | some e =>
      let ulp := 2 ^ e
      let q := n / ulp
      let r := n % ulp
      if 2 * r < ulp then q * ulp
      else if ulp < 2 * r then (q + 1) * ulp
      else if q % 2 = 0 then q * ulp
      else (q + 1) * ulp

/-- The constant `items_per_thread` of `copy_if_common` (line 214). -/
def items_per_thread : Nat := 16

/-- The constant `threads_per_block` of `copy_if_common` (line 215). -/
def threads_per_block : Nat := 256

/-- The value `block_size` of `copy_if_common` (line 216):
`std::ceil(static_cast<float>(num_items) / items_per_thread / threads_per_block)`. The
two divisions are by powers of two and exact in binary32, so `std::ceil` gives the
least integer that is not below the converted count divided by 4096. -/
def block_size (num_items : Nat) : Nat :=
  (static_cast_float num_items + (items_per_thread * threads_per_block - 1)) /
    (items_per_thread * threads_per_block)

/-- The variable `baseIdx` of `copy_if_kernel` (line 83); the built-in coordinates and
`ItemsPerThread` are `unsigned int` (32 bits). -/
def baseIdx (ItemsPerThread blockIdx blockDim threadIdx : Nat) : Nat :=
  (blockIdx * blockDim + threadIdx) * ItemsPerThread % 2 ^ 32

/-- The body of the loop of `copy_if_kernel` for one `index` (lines 87-94), on the
memory of the output; `posFirst[index] - 1` is computed in `std::uint32_t`. -/
def copy_if_kernel_item (first : Nat → T) (flagsFirst posFirst : Nat → Nat) (size : Nat)
    (output : Nat) (index : Nat) (m : Memory T) : Memory T :=
  if index < size then
    if flagsFirst index ≠ 0 then
      m.write (output + (posFirst index + (2 ^ 32 - 1)) % 2 ^ 32) (first index)
    else m
  else m

/-- The kernel `copy_if_kernel<ItemsPerThread>` (lines 80-96) for the thread
`threadIdx` of the block `blockIdx`. -/
def copy_if_kernel (ItemsPerThread : Nat) (first : Nat → T) (flagsFirst posFirst : Nat → Nat)
    (size : Nat) (output : Nat) (blockIdx blockDim threadIdx : Nat) (m : Memory T) :
    Memory T :=
  (List.range ItemsPerThread).foldl
    (fun m i =>
      copy_if_kernel_item first flagsFirst posFirst size output
        (baseIdx ItemsPerThread blockIdx blockDim threadIdx + i) m) m

/-- Modelled from the spec: the launch `kernel<<<grid, block>>>(...)` of the HIP runtime
(not among the sources): the kernel runs once for every thread of every block; the
runs are composed in increasing order of block and thread. -/
def launch {State : Type} (grid block : Nat) (kernel : Nat → Nat → Nat → State → State)
    (m : State) : State :=
  (List.range grid).foldl
    (fun m blockIdx => (List.range block).foldl (fun m threadIdx =>
      kernel blockIdx block threadIdx m) m) m

/-- Modelled from the spec: `rocprim::transform` (not among the sources) into the
temporary array `flags`: element `i < size` is `op(input[i])` converted to
`std::uint8_t`; the other elements of the model are 0. -/
def rocprim_transform (input : Nat → P) (size : Nat) (op : P → Nat) (i : Nat) : Nat :=
  if i < size then op (input i) % 2 ^ 8 else 0

/-- Modelled from the spec: `rocprim::inclusive_scan` with `rocprim::plus<pos_type>`
and the accumulator `pos_type` (`std::uint32_t`) (not among the sources): the
inclusive prefix sums of the input in 32-bit unsigned arithmetic. -/
def rocprim_inclusive_scan (input : Nat → Nat) : Nat → Nat
  | 0 => input 0 % 2 ^ 32
  | i + 1 => (rocprim_inclusive_scan input i + input (i + 1)) % 2 ^ 32

/-- `__copy_if::copy_if_common` (lines 160-221): the memory of the output after the
call and the returned iterator. `first` and `predicate_input` give the elements by
offset, `num_items` is `distance(first, last)`; the temporary arrays are the functions
`flags` and `pos`, the error branches of `throw_on_error` are not modelled. -/
def copy_if_common (first : Nat → T) (num_items : Nat) (output : Nat)
    (predicate : P → Bool) (predicate_input : Nat → P) (m : Memory T) : Memory T × Nat :=
  if num_items = 0 then (m, output)
  else
    let flags := rocprim_transform predicate_input num_items
      (fun val => if predicate val then 1 else 0)
    let pos := rocprim_inclusive_scan flags
    (launch (block_size num_items) threads_per_block
        (copy_if_kernel items_per_thread first flags pos num_items output) m,
      output + pos (num_items - 1))

end __copy_if

end hip_rocprim

end thrust

/-! ## Properties -/

namespace thrust

variable {K V : Type}

theorem length_inclusive_scan_by_key_loop (equal : K → K → Bool) (op : V → V → V) :
    ∀ (ks : List K) (vs : List V) (pk : K) (po : V), ks.length = vs.length →
      (inclusive_scan_by_key_loop equal op pk po ks vs).length = vs.length
  | [], vs, _, _, h => by
    cases vs with
    | nil => simp [inclusive_scan_by_key_loop]
    | cons v vs => simp at h
  | k :: ks, [], _, _, h => by simp at h
  | k :: ks, v :: vs, _, _, h => by
    simp only [inclusive_scan_by_key_loop, List.length_cons]
    rw [length_inclusive_scan_by_key_loop equal op ks vs _ _ (by simpa using h)]

theorem length_inclusive_scan_by_key (equal : K → K → Bool) (op : V → V → V)
    (keys : List K) (values : List V) (h : keys.length = values.length) :
    (inclusive_scan_by_key equal op keys values).length = values.length := by
  cases keys with
  | nil =>
    cases values with
    | nil => simp [inclusive_scan_by_key]
    | cons v vs => simp at h
  | cons k ks =>
    cases values with
    | nil => simp at h
    | cons v vs =>
      simp only [inclusive_scan_by_key, List.length_cons]
      rw [length_inclusive_scan_by_key_loop equal op ks vs _ _ (by simpa using h)]

theorem getElem?_zero_inclusive_scan_by_key_loop (equal : K → K → Bool) (op : V → V → V)
    (pk : K) (po : V) (k : K) (ks : List K) (v : V) (vs : List V) :
    (inclusive_scan_by_key_loop equal op pk po (k :: ks) (v :: vs))[0]? =
      some (if equal pk k then op po v else v) := by
  simp [inclusive_scan_by_key_loop]

theorem getElem?_succ_inclusive_scan_by_key_loop (equal : K → K → Bool) (op : V → V → V) :
    ∀ (ks : List K) (vs : List V) (pk : K) (po : V) (i : Nat) (a b : K) (v o : V),
      ks[i]? = some a → ks[i + 1]? = some b → vs[i + 1]? = some v →
      (inclusive_scan_by_key_loop equal op pk po ks vs)[i]? = some o →
      (inclusive_scan_by_key_loop equal op pk po ks vs)[i + 1]? =
        some (if equal a b then op o v else v)
  | [], _, _, _, _, _, _, _, _, ha, _, _, _ => by simp at ha
  | _ :: _, [], _, _, _, _, _, _, _, _, _, hv, _ => by simp at hv
  | k :: ks, v0 :: vs, pk, po, 0, a, b, v, o, ha, hb, hv, ho => by
    cases ks with
    | nil => simp at hb
    | cons k1 ks =>
      cases vs with
      | nil => simp at hv
      | cons v1 vs =>
        simp only [inclusive_scan_by_key_loop, List.getElem?_cons_zero, List.getElem?_cons_succ,
          Option.some.injEq] at ha hb hv ho ⊢
        subst ha hb hv ho
        rfl
  | k :: ks, v0 :: vs, pk, po, j + 1, a, b, v, o, ha, hb, hv, ho => by
    simp only [inclusive_scan_by_key_loop, List.getElem?_cons_succ] at ha hb hv ho ⊢
    exact getElem?_succ_inclusive_scan_by_key_loop equal op ks vs _ _ j a b v o ha hb hv ho

theorem getElem?_zero_inclusive_scan_by_key (equal : K → K → Bool) (op : V → V → V)
    (keys : List K) (values : List V) (h : keys.length = values.length) :
    (inclusive_scan_by_key equal op keys values)[0]? = values[0]? := by
  cases keys with
  | nil =>
    cases values with
    | nil => rfl
    | cons v vs => simp at h
  | cons k ks =>
    cases values with
    | nil => simp at h
    | cons v vs => simp [inclusive_scan_by_key]

theorem getElem?_succ_inclusive_scan_by_key (equal : K → K → Bool) (op : V → V → V)
    (keys : List K) (values : List V) (i : Nat) (a b : K) (v o : V)
    (ha : keys[i]? = some a) (hb : keys[i + 1]? = some b) (hv : values[i + 1]? = some v)
    (ho : (inclusive_scan_by_key equal op keys values)[i]? = some o) :
    (inclusive_scan_by_key equal op keys values)[i + 1]? =
      some (if equal a b then op o v else v) := by
  cases keys with
  | nil => simp at ha
  | cons k ks =>
    cases values with
    | nil => simp at hv
    | cons v0 vs =>
      cases i with
      | zero =>
        cases ks with
        | nil => simp at hb
        | cons k1 ks =>
          cases vs with
          | nil => simp at hv
          | cons v1 vs =>
            simp only [inclusive_scan_by_key, inclusive_scan_by_key_loop,
              List.getElem?_cons_zero, List.getElem?_cons_succ, Option.some.injEq]
              at ha hb hv ho ⊢
            subst ha hb hv ho
            rfl
      | succ j =>
        simp only [inclusive_scan_by_key, List.getElem?_cons_succ] at ha hb hv ho ⊢
        exact getElem?_succ_inclusive_scan_by_key_loop equal op ks vs _ _ j a b v o ha hb hv ho

/-- C1. Inclusive scan-by-key: for keys and values of the same length `n`, every binary
predicate `equal` and every `op` (associative or not), the output has length `n`,
`out[i] = values[i]` when `i = 0` or `equal(keys[i-1], keys[i])` is false, and
`out[i] = op(out[i-1], values[i])` otherwise. -/
theorem inclusive_scan_by_key_recurrence (equal : K → K → Bool) (op : V → V → V)
    (keys : List K) (values : List V) (h : keys.length = values.length) :
    (inclusive_scan_by_key equal op keys values).length = values.length ∧
    ∀ (i : Nat) (hi : i < values.length),
      have ho : i < (inclusive_scan_by_key equal op keys values).length :=
        (length_inclusive_scan_by_key equal op keys values h).symm ▸ hi
      have hk : i < keys.length := h.symm ▸ hi
      ((i = 0 ∨ equal keys[i - 1] keys[i] = false) →
        (inclusive_scan_by_key equal op keys values)[i] = values[i]) ∧
      (¬(i = 0 ∨ equal keys[i - 1] keys[i] = false) →
        (inclusive_scan_by_key equal op keys values)[i] =
          op (inclusive_scan_by_key equal op keys values)[i - 1] values[i]) := by
  refine ⟨length_inclusive_scan_by_key equal op keys values h, ?_⟩
  intro i hi ho hk
  cases i with
  | zero =>
    have h0 := getElem?_zero_inclusive_scan_by_key equal op keys values h
    rw [List.getElem?_eq_getElem ho, List.getElem?_eq_getElem hi, Option.some.injEq] at h0
    simp [h0]
  | succ j =>
    have hj : j < keys.length := by omega
    have hjo : j < (inclusive_scan_by_key equal op keys values).length := by omega
    have hs := getElem?_succ_inclusive_scan_by_key equal op keys values j keys[j] keys[j + 1]
      values[j + 1] (inclusive_scan_by_key equal op keys values)[j]
      (List.getElem?_eq_getElem hj) (List.getElem?_eq_getElem hk)
      (List.getElem?_eq_getElem hi) (List.getElem?_eq_getElem hjo)
    rw [List.getElem?_eq_getElem ho, Option.some.injEq] at hs
    simp only [Nat.add_sub_cancel, Nat.succ_ne_zero, false_or]
    constructor
    · intro hf
      rw [hs, hf]; rfl
    · intro hf
      rw [hs]
      simp only [Bool.not_eq_false] at hf
      rw [hf]; rfl

/-- Witness of C1: the recurrence applied to the data of `TestInclusiveScanByKeySimple`,
with the outputs the test asserts for `plus` and `multiplies`, and the head-flag
predicate of `TestScanByKeyHeadFlags` (not an equivalence). -/
theorem inclusive_scan_by_key_recurrence_witness :
    inclusive_scan_by_key (fun a b : Int => a == b) (fun a b : Int => a + b)
      [0, 1, 1, 1, 2, 3, 3] [1, 2, 3, 4, 5, 6, 7] = [1, 2, 5, 9, 5, 6, 13] ∧
    inclusive_scan_by_key (fun a b : Int => a == b) (fun a b : Int => a * b)
      [0, 1, 1, 1, 2, 3, 3] [1, 2, 3, 4, 5, 6, 7] = [1, 2, 6, 24, 5, 6, 42] ∧
    inclusive_scan_by_key (fun _ b : Int => if b != 0 then false else true)
      (fun a b : Int => a + b)
      [0, 1, 0, 0, 1, 1, 0] [1, 2, 3, 4, 5, 6, 7] = [1, 2, 5, 9, 5, 6, 13] ∧
    (inclusive_scan_by_key (fun a b : Int => a == b) (fun a b : Int => a + b)
      [0, 1, 1, 1, 2, 3, 3] [1, 2, 3, 4, 5, 6, 7]).length = 7 :=
  ⟨by decide, by decide, by decide,
    (inclusive_scan_by_key_recurrence (fun a b : Int => a == b) (fun a b : Int => a + b)
      [0, 1, 1, 1, 2, 3, 3] [1, 2, 3, 4, 5, 6, 7] (by decide)).1⟩

theorem length_exclusive_scan_by_key_loop (equal : K → K → Bool) (op : V → V → V)
    (init : V) :
    ∀ (ks : List K) (vs : List V) (pk : K) (po pv : V), ks.length = vs.length →
      (exclusive_scan_by_key_loop equal op init pk po pv ks vs).length = vs.length
  | [], vs, _, _, _, h => by
    cases vs with
    | nil => simp [exclusive_scan_by_key_loop]
    | cons v vs => simp at h
  | k :: ks, [], _, _, _, h => by simp at h
  | k :: ks, v :: vs, _, _, _, h => by
    simp only [exclusive_scan_by_key_loop, List.length_cons]
    rw [length_exclusive_scan_by_key_loop equal op init ks vs _ _ _ (by simpa using h)]

theorem length_exclusive_scan_by_key (equal : K → K → Bool) (op : V → V → V) (init : V)
    (keys : List K) (values : List V) (h : keys.length = values.length) :
    (exclusive_scan_by_key equal op init keys values).length = values.length := by
  cases keys with
  | nil =>
    cases values with
    | nil => simp [exclusive_scan_by_key]
    | cons v vs => simp at h
  | cons k ks =>
    cases values with
    | nil => simp at h
    | cons v vs =>
      simp only [exclusive_scan_by_key, List.length_cons]
      rw [length_exclusive_scan_by_key_loop equal op init ks vs _ _ _ (by simpa using h)]

theorem getElem?_succ_exclusive_scan_by_key_loop (equal : K → K → Bool) (op : V → V → V)
    (init : V) :
    ∀ (ks : List K) (vs : List V) (pk : K) (po pv : V) (i : Nat) (a b : K) (v o : V),
      ks[i]? = some a → ks[i + 1]? = some b → vs[i]? = some v → i + 1 < vs.length →
      (exclusive_scan_by_key_loop equal op init pk po pv ks vs)[i]? = some o →
      (exclusive_scan_by_key_loop equal op init pk po pv ks vs)[i + 1]? =
        some (if equal a b then op o v else init)
  | [], _, _, _, _, _, _, _, _, _, ha, _, _, _, _ => by simp at ha
  | _ :: _, [], _, _, _, _, _, _, _, _, _, _, hv, _, _ => by simp at hv
  | k :: ks, v0 :: vs, pk, po, pv, 0, a, b, v, o, ha, hb, hv, hl, ho => by
    cases ks with
    | nil => simp at hb
    | cons k1 ks =>
      cases vs with
      | nil => simp at hl
      | cons v1 vs =>
        simp only [exclusive_scan_by_key_loop, List.getElem?_cons_zero, List.getElem?_cons_succ,
          Option.some.injEq] at ha hb hv ho ⊢
        subst ha hb hv ho
        rfl
  | k :: ks, v0 :: vs, pk, po, pv, j + 1, a, b, v, o, ha, hb, hv, hl, ho => by
    simp only [exclusive_scan_by_key_loop, List.getElem?_cons_succ] at ha hb hv ho ⊢
    exact getElem?_succ_exclusive_scan_by_key_loop equal op init ks vs _ _ _ j a b v o ha hb hv
      (by simpa using hl) ho

theorem getElem?_zero_exclusive_scan_by_key (equal : K → K → Bool) (op : V → V → V)
    (init : V) (keys : List K) (values : List V) (h : keys.length = values.length)
    (hn : 0 < values.length) :
    (exclusive_scan_by_key equal op init keys values)[0]? = some init := by
  cases keys with
  | nil =>
    cases values with
    | nil => simp at hn
    | cons v vs => simp at h
  | cons k ks =>
    cases values with
    | nil => simp at h
    | cons v vs => simp [exclusive_scan_by_key]

theorem getElem?_succ_exclusive_scan_by_key (equal : K → K → Bool) (op : V → V → V)
    (init : V) (keys : List K) (values : List V) (i : Nat) (a b : K) (v o : V)
    (ha : keys[i]? = some a) (hb : keys[i + 1]? = some b) (hv : values[i]? = some v)
    (hl : i + 1 < values.length)
    (ho : (exclusive_scan_by_key equal op init keys values)[i]? = some o) :
    (exclusive_scan_by_key equal op init keys values)[i + 1]? =
      some (if equal a b then op o v else init) := by
  cases keys with
  | nil => simp at ha
  | cons k ks =>
    cases values with
    | nil => simp at hv
    | cons v0 vs =>
      cases i with
      | zero =>
        cases ks with
        | nil => simp at hb
        | cons k1 ks =>
          cases vs with
          | nil => simp at hl
          | cons v1 vs =>
            simp only [exclusive_scan_by_key, exclusive_scan_by_key_loop,
              List.getElem?_cons_zero, List.getElem?_cons_succ, Option.some.injEq]
              at ha hb hv ho ⊢
            subst ha hb hv ho
            rfl
      | succ j =>
        simp only [exclusive_scan_by_key, List.getElem?_cons_succ] at ha hb hv ho ⊢
        exact getElem?_succ_exclusive_scan_by_key_loop equal op init ks vs _ _ _ j a b v o
          ha hb hv (by simpa using hl) ho

/-- C2. Exclusive scan-by-key: for keys and values of the same length `n`, every binary
predicate `equal`, every `op` and every initial value `init`, the output has length `n`,
`out[i] = init` when `i = 0` or `equal(keys[i-1], keys[i])` is false, and
`out[i] = op(out[i-1], values[i-1])` otherwise. -/
theorem exclusive_scan_by_key_recurrence (equal : K → K → Bool) (op : V → V → V) (init : V)
    (keys : List K) (values : List V) (h : keys.length = values.length) :
    (exclusive_scan_by_key equal op init keys values).length = values.length ∧
    ∀ (i : Nat) (hi : i < values.length),
      have ho : i < (exclusive_scan_by_key equal op init keys values).length :=
        (length_exclusive_scan_by_key equal op init keys values h).symm ▸ hi
      have hk : i < keys.length := h.symm ▸ hi
      ((i = 0 ∨ equal keys[i - 1] keys[i] = false) →
        (exclusive_scan_by_key equal op init keys values)[i] = init) ∧
      (¬(i = 0 ∨ equal keys[i - 1] keys[i] = false) →
        (exclusive_scan_by_key equal op init keys values)[i] =
          op (exclusive_scan_by_key equal op init keys values)[i - 1] values[i - 1]) := by
  refine ⟨length_exclusive_scan_by_key equal op init keys values h, ?_⟩
  intro i hi ho hk
  cases i with
  | zero =>
    have h0 := getElem?_zero_exclusive_scan_by_key equal op init keys values h hi
    rw [List.getElem?_eq_getElem ho, Option.some.injEq] at h0
    simp [h0]
  | succ j =>
    have hj : j < keys.length := by omega
    have hjv : j < values.length := by omega
    have hjo : j < (exclusive_scan_by_key equal op init keys values).length := by omega
    have hs := getElem?_succ_exclusive_scan_by_key equal op init keys values j keys[j]
      keys[j + 1] values[j] (exclusive_scan_by_key equal op init keys values)[j]
      (List.getElem?_eq_getElem hj) (List.getElem?_eq_getElem hk)
      (List.getElem?_eq_getElem hjv) hi (List.getElem?_eq_getElem hjo)
    rw [List.getElem?_eq_getElem ho, Option.some.injEq] at hs
    simp only [Nat.add_sub_cancel, Nat.succ_ne_zero, false_or]
    constructor
    · intro hf
      rw [hs, hf]; rfl
    · intro hf
      rw [hs]
      simp only [Bool.not_eq_false] at hf
      rw [hf]; rfl

/-- Witness of C2: the recurrence applied to the data of `TestExclusiveScanByKeySimple`,
with the outputs the test asserts for init 10 with `plus` and `multiplies` and for the
overload without init (init 0), and the head-flag predicate of `TestScanByKeyHeadFlags`. -/
theorem exclusive_scan_by_key_recurrence_witness :
    exclusive_scan_by_key (fun a b : Int => a == b) (fun a b : Int => a + b) 10
      [0, 1, 1, 1, 2, 3, 3] [1, 2, 3, 4, 5, 6, 7] = [10, 10, 12, 15, 10, 10, 16] ∧
    exclusive_scan_by_key (fun a b : Int => a == b) (fun a b : Int => a * b) 10
      [0, 1, 1, 1, 2, 3, 3] [1, 2, 3, 4, 5, 6, 7] = [10, 10, 20, 60, 10, 10, 60] ∧
    exclusive_scan_by_key (fun a b : Int => a == b) (fun a b : Int => a + b) 0
      [0, 1, 1, 1, 2, 3, 3] [1, 2, 3, 4, 5, 6, 7] = [0, 0, 2, 5, 0, 0, 6] ∧
    exclusive_scan_by_key (fun _ b : Int => if b != 0 then false else true)
      (fun a b : Int => a + b) 10
      [0, 1, 0, 0, 1, 1, 0] [1, 2, 3, 4, 5, 6, 7] = [10, 10, 12, 15, 10, 10, 16] ∧
    (exclusive_scan_by_key (fun a b : Int => a == b) (fun a b : Int => a + b) 10
      [0, 1, 1, 1, 2, 3, 3] [1, 2, 3, 4, 5, 6, 7]).length = 7 :=
  ⟨by decide, by decide, by decide, by decide,
    (exclusive_scan_by_key_recurrence (fun a b : Int => a == b) (fun a b : Int => a + b) 10
      [0, 1, 1, 1, 2, 3, 3] [1, 2, 3, 4, 5, 6, 7] (by decide)).1⟩

end thrust

namespace thrust

variable {K V : Type}

theorem read_range_write (m : Memory V) (a : Nat) (v : V) :
    ∀ (n base : Nat), (∀ j, j < n → base + j ≠ a) →
      Memory.read_range (m.write a v) base n = Memory.read_range m base n
  | 0, _, _ => rfl
  | n + 1, base, h => by
    have h0 : base ≠ a := by simpa using h 0 (Nat.succ_pos n)
    have ih := read_range_write m a v n (base + 1) (fun j hj => by
      have := h (j + 1) (Nat.succ_lt_succ hj)
      omega)
    simp only [Memory.read_range, ih]
    simp [Memory.write, h0]

/-- Frame of the inclusive loop: only the addresses `result + i + j`, `j < |ks|`, are
written. -/
theorem inclusive_scan_by_key_mem_loop_frame (equal : K → K → Bool) (op : V → V → V)
    (values result : Nat) :
    ∀ (ks : List K) (pk : K) (po : V) (i : Nat) (m : Memory V) (a : Nat),
      (∀ j, j < ks.length → a ≠ result + i + j) →
      inclusive_scan_by_key_mem_loop equal op values result pk po i ks m a = m a
  | [], _, _, _, _, _, _ => rfl
  | k :: ks, pk, po, i, m, a, h => by
    have h0 : a ≠ result + i := by simpa using h 0 (by simp)
    simp only [inclusive_scan_by_key_mem_loop]
    rw [inclusive_scan_by_key_mem_loop_frame equal op values result ks _ _ (i + 1) _ a
      (fun j hj => by
        have := h (j + 1) (by simpa using hj)
        omega)]
    simp [Memory.write, h0]

/-- The loop on memory computes the loop on lists, when an output position never
overwrites an input position still to be read. -/
theorem read_range_inclusive_scan_by_key_mem_loop (equal : K → K → Bool) (op : V → V → V)
    (values result : Nat) :
    ∀ (ks : List K) (pk : K) (po : V) (i : Nat) (m : Memory V),
      (∀ a b, a < i + ks.length → b < i + ks.length → result + a = values + b → b ≤ a) →
      Memory.read_range (inclusive_scan_by_key_mem_loop equal op values result pk po i ks m)
          (result + i) ks.length =
        inclusive_scan_by_key_loop equal op pk po ks
          (Memory.read_range m (values + i) ks.length)
  | [], _, _, _, _, _ => rfl
  | k :: ks, pk, po, i, m, h => by
    have hlen : i + (k :: ks).length = (i + 1) + ks.length := by simp; omega
    have ih := read_range_inclusive_scan_by_key_mem_loop equal op values result ks k
      (if equal pk k then op po (m (values + i)) else m (values + i)) (i + 1)
      (m.write (result + i) (if equal pk k then op po (m (values + i)) else m (values + i)))
      (fun a b ha hb hab => h a b (by omega) (by omega) hab)
    have hin := read_range_write m (result + i)
      (if equal pk k then op po (m (values + i)) else m (values + i)) ks.length
      (values + (i + 1)) (fun j hj hEq => by
        have := h i (i + 1 + j) (by simp) (by simp; omega) (by omega)
        omega)
    have hfr := inclusive_scan_by_key_mem_loop_frame equal op values result ks k
      (if equal pk k then op po (m (values + i)) else m (values + i)) (i + 1)
      (m.write (result + i) (if equal pk k then op po (m (values + i)) else m (values + i)))
      (result + i) (fun j _ => by omega)
    rw [hin] at ih
    simp only [List.length_cons, Memory.read_range, inclusive_scan_by_key_mem_loop,
      inclusive_scan_by_key_loop]
    rw [hfr]
    have e1 : result + i + 1 = result + (i + 1) := by omega
    have e2 : values + i + 1 = values + (i + 1) := by omega
    rw [e1, e2, ih]
    simp [Memory.write]

/-- The scan on memory computes the scan on lists of the values initially stored. -/
theorem read_range_inclusive_scan_by_key_mem (equal : K → K → Bool) (op : V → V → V)
    (keys : List K) (values result : Nat) (m : Memory V)
    (h : ∀ a b, a < keys.length → b < keys.length → result + a = values + b → b ≤ a) :
    Memory.read_range (inclusive_scan_by_key_mem equal op keys values result m)
        result keys.length =
      inclusive_scan_by_key equal op keys (Memory.read_range m values keys.length) := by
  cases keys with
  | nil => rfl
  | cons k ks =>
    have hl := read_range_inclusive_scan_by_key_mem_loop equal op values result ks k
      (m values) 1 (m.write result (m values))
      (fun a b ha hb hab => h a b (by simp; omega) (by simp; omega) hab)
    have hin := read_range_write m result (m values) ks.length (values + 1)
      (fun j hj hEq => by
        have := h 0 (1 + j) (by simp) (by simp; omega) (by omega)
        omega)
    have hfr := inclusive_scan_by_key_mem_loop_frame equal op values result ks k
      (m values) 1 (m.write result (m values)) result (fun j _ => by omega)
    rw [hin] at hl
    simp only [List.length_cons, Memory.read_range, inclusive_scan_by_key_mem,
      inclusive_scan_by_key]
    rw [hfr, hl]
    simp [Memory.write]

theorem exclusive_scan_by_key_mem_loop_frame (equal : K → K → Bool) (op : V → V → V)
    (init : V) (values result : Nat) :
    ∀ (ks : List K) (pk : K) (po pv : V) (i : Nat) (m : Memory V) (a : Nat),
      (∀ j, j < ks.length → a ≠ result + i + j) →
      exclusive_scan_by_key_mem_loop equal op init values result pk po pv i ks m a = m a
  | [], _, _, _, _, _, _, _ => rfl
  | k :: ks, pk, po, pv, i, m, a, h => by
    have h0 : a ≠ result + i := by simpa using h 0 (by simp)
    simp only [exclusive_scan_by_key_mem_loop]
    rw [exclusive_scan_by_key_mem_loop_frame equal op init values result ks _ _ _ (i + 1) _ a
      (fun j hj => by
        have := h (j + 1) (by simpa using hj)
        omega)]
    simp [Memory.write, h0]

theorem read_range_exclusive_scan_by_key_mem_loop (equal : K → K → Bool) (op : V → V → V)
    (init : V) (values result : Nat) :
    ∀ (ks : List K) (pk : K) (po pv : V) (i : Nat) (m : Memory V),
      (∀ a b, a < i + ks.length → b < i + ks.length → result + a = values + b → b ≤ a) →
      Memory.read_range
          (exclusive_scan_by_key_mem_loop equal op init values result pk po pv i ks m)
          (result + i) ks.length =
        exclusive_scan_by_key_loop equal op init pk po pv ks
          (Memory.read_range m (values + i) ks.length)
  | [], _, _, _, _, _, _ => rfl
  | k :: ks, pk, po, pv, i, m, h => by
    have ih := read_range_exclusive_scan_by_key_mem_loop equal op init values result ks k
      (if equal pk k then op po pv else init) (m (values + i)) (i + 1)
      (m.write (result + i) (if equal pk k then op po pv else init))
      (fun a b ha hb hab => h a b (by simp; omega) (by simp; omega) hab)
    have hin := read_range_write m (result + i)
      (if equal pk k then op po pv else init) ks.length
      (values + (i + 1)) (fun j hj hEq => by
        have := h i (i + 1 + j) (by simp) (by simp; omega) (by omega)
        omega)
    have hfr := exclusive_scan_by_key_mem_loop_frame equal op init values result ks k
      (if equal pk k then op po pv else init) (m (values + i)) (i + 1)
      (m.write (result + i) (if equal pk k then op po pv else init))
      (result + i) (fun j _ => by omega)
    rw [hin] at ih
    simp only [List.length_cons, Memory.read_range, exclusive_scan_by_key_mem_loop,
      exclusive_scan_by_key_loop]
    rw [hfr]
    have e1 : result + i + 1 = result + (i + 1) := by omega
    have e2 : values + i + 1 = values + (i + 1) := by omega
    rw [e1, e2, ih]
    simp [Memory.write]

theorem read_range_exclusive_scan_by_key_mem (equal : K → K → Bool) (op : V → V → V)
    (init : V) (keys : List K) (values result : Nat) (m : Memory V)
    (h : ∀ a b, a < keys.length → b < keys.length → result + a = values + b → b ≤ a) :
    Memory.read_range (exclusive_scan_by_key_mem equal op init keys values result m)
        result keys.length =
      exclusive_scan_by_key equal op init keys (Memory.read_range m values keys.length) := by
  cases keys with
  | nil => rfl
  | cons k ks =>
    have hl := read_range_exclusive_scan_by_key_mem_loop equal op init values result ks k
      init (m values) 1 (m.write result init)
      (fun a b ha hb hab => h a b (by simp; omega) (by simp; omega) hab)
    have hin := read_range_write m result init ks.length (values + 1)
      (fun j hj hEq => by
        have := h 0 (1 + j) (by simp) (by simp; omega) (by omega)
        omega)
    have hfr := exclusive_scan_by_key_mem_loop_frame equal op init values result ks k
      init (m values) 1 (m.write result init) result (fun j _ => by omega)
    rw [hin] at hl
    simp only [List.length_cons, Memory.read_range, exclusive_scan_by_key_mem,
      exclusive_scan_by_key]
    rw [hfr, hl]
    simp [Memory.write]

/-- C8. In-place equivalence of scan-by-key: for every key sequence, every memory holding
the values at `values`, every `equal`, `op` and `init`, and every output range
`[result, result + n)` disjoint from the value range, the inclusive (resp. exclusive)
scan-by-key run with the output range identical to the value range leaves in that range
the same sequence as the run with the disjoint output range leaves in `[result, result + n)`. -/
theorem scan_by_key_in_place_equivalence (equal : K → K → Bool) (op : V → V → V) (init : V)
    (keys : List K) (values result : Nat) (m : Memory V)
    (hdisjoint : result + keys.length ≤ values ∨ values + keys.length ≤ result) :
    Memory.read_range (inclusive_scan_by_key_mem equal op keys values values m)
        values keys.length =
      Memory.read_range (inclusive_scan_by_key_mem equal op keys values result m)
        result keys.length ∧
    Memory.read_range (exclusive_scan_by_key_mem equal op init keys values values m)
        values keys.length =
      Memory.read_range (exclusive_scan_by_key_mem equal op init keys values result m)
        result keys.length := by
  have halias : ∀ a b, a < keys.length → b < keys.length → values + a = values + b → b ≤ a :=
    fun a b _ _ hab => by omega
  have hdis : ∀ a b, a < keys.length → b < keys.length → result + a = values + b → b ≤ a :=
    fun a b ha hb hab => by omega
  rw [read_range_inclusive_scan_by_key_mem equal op keys values values m halias,
    read_range_inclusive_scan_by_key_mem equal op keys values result m hdis,
    read_range_exclusive_scan_by_key_mem equal op init keys values values m halias,
    read_range_exclusive_scan_by_key_mem equal op init keys values result m hdis]
  exact ⟨rfl, rfl⟩

/-- Witness of C8: seven values stored at address 0, output to address 0 (in place) and
to address 100 (disjoint). -/
theorem scan_by_key_in_place_equivalence_witness :
    Memory.read_range (inclusive_scan_by_key_mem (fun a b : Int => a == b)
        (fun a b : Int => a + b) [0, 1, 1, 1, 2, 3, 3] 0 0 (fun a => (a : Int) + 1)) 0 7 =
      [1, 2, 5, 9, 5, 6, 13] ∧
    Memory.read_range (exclusive_scan_by_key_mem (fun a b : Int => a == b)
        (fun a b : Int => a + b) 10 [0, 1, 1, 1, 2, 3, 3] 0 0 (fun a => (a : Int) + 1)) 0 7 =
      [10, 10, 12, 15, 10, 10, 16] ∧
    Memory.read_range (inclusive_scan_by_key_mem (fun a b : Int => a == b)
        (fun a b : Int => a + b) [0, 1, 1, 1, 2, 3, 3] 0 0 (fun a => (a : Int) + 1)) 0
        [0, 1, 1, 1, 2, 3, 3].length =
      Memory.read_range (inclusive_scan_by_key_mem (fun a b : Int => a == b)
        (fun a b : Int => a + b) [0, 1, 1, 1, 2, 3, 3] 0 100 (fun a => (a : Int) + 1)) 100
        [0, 1, 1, 1, 2, 3, 3].length :=
  ⟨by decide, by decide,
    (scan_by_key_in_place_equivalence (fun a b : Int => a == b) (fun a b : Int => a + b) 10
      [0, 1, 1, 1, 2, 3, 3] 0 100 (fun a => (a : Int) + 1) (by decide)).1⟩

end thrust

namespace hipcub

namespace DeviceSegmentedRadixSort

variable {KeyT ValueT : Type}

/-- C5. Each of the eight overloads of `DeviceSegmentedRadixSort` with the trailing
`debug_synchronous` leaves, for every argument list and both values of the flag, the
status, `temp_storage_bytes` and outputs of the overload of the same name without the
flag, called with the same arguments. -/
theorem debug_synchronous_overloads_forward (cub : CubBackend KeyT ValueT)
    (d_temp_storage : Option Nat) (temp_storage_bytes : Nat)
    (d_keys_in d_keys_out : Memory KeyT) (d_values_in d_values_out : Memory ValueT)
    (d_keys : DoubleBuffer KeyT) (d_values : DoubleBuffer ValueT)
    (num_items num_segments : Int) (d_begin_offsets d_end_offsets : Nat → Int)
    (begin_bit end_bit : Int) (stream : hipStream_t) (debug_synchronous : Bool) :
    (SortPairs_debug_synchronous cub d_temp_storage temp_storage_bytes d_keys_in d_keys_out
        d_values_in d_values_out num_items num_segments d_begin_offsets d_end_offsets
        begin_bit end_bit stream debug_synchronous).1 =
      SortPairs cub d_temp_storage temp_storage_bytes d_keys_in d_keys_out d_values_in
        d_values_out num_items num_segments d_begin_offsets d_end_offsets begin_bit end_bit
        stream ∧
    (SortPairs_DoubleBuffer_debug_synchronous cub d_temp_storage temp_storage_bytes d_keys
        d_values num_items num_segments d_begin_offsets d_end_offsets begin_bit end_bit
        stream debug_synchronous).1 =
      SortPairs_DoubleBuffer cub d_temp_storage temp_storage_bytes d_keys d_values num_items
        num_segments d_begin_offsets d_end_offsets begin_bit end_bit stream ∧
    (SortPairsDescending_debug_synchronous cub d_temp_storage temp_storage_bytes d_keys_in
        d_keys_out d_values_in d_values_out num_items num_segments d_begin_offsets
        d_end_offsets begin_bit end_bit stream debug_synchronous).1 =
      SortPairsDescending cub d_temp_storage temp_storage_bytes d_keys_in d_keys_out
        d_values_in d_values_out num_items num_segments d_begin_offsets d_end_offsets
        begin_bit end_bit stream ∧
    (SortPairsDescending_DoubleBuffer_debug_synchronous cub d_temp_storage
        temp_storage_bytes d_keys d_values num_items num_segments d_begin_offsets
        d_end_offsets begin_bit end_bit stream debug_synchronous).1 =
      SortPairsDescending_DoubleBuffer cub d_temp_storage temp_storage_bytes d_keys d_values
        num_items num_segments d_begin_offsets d_end_offsets begin_bit end_bit stream ∧
    (SortKeys_debug_synchronous cub d_temp_storage temp_storage_bytes d_keys_in d_keys_out
        num_items num_segments d_begin_offsets d_end_offsets begin_bit end_bit stream
        debug_synchronous).1 =
      SortKeys cub d_temp_storage temp_storage_bytes d_keys_in d_keys_out num_items
        num_segments d_begin_offsets d_end_offsets begin_bit end_bit stream ∧
    (SortKeys_DoubleBuffer_debug_synchronous cub d_temp_storage temp_storage_bytes d_keys
        num_items num_segments d_begin_offsets d_end_offsets begin_bit end_bit stream
        debug_synchronous).1 =
      SortKeys_DoubleBuffer cub d_temp_storage temp_storage_bytes d_keys num_items
        num_segments d_begin_offsets d_end_offsets begin_bit end_bit stream ∧
    (SortKeysDescending_debug_synchronous cub d_temp_storage temp_storage_bytes d_keys_in
        d_keys_out num_items num_segments d_begin_offsets d_end_offsets begin_bit end_bit
        stream debug_synchronous).1 =
      SortKeysDescending cub d_temp_storage temp_storage_bytes d_keys_in d_keys_out
        num_items num_segments d_begin_offsets d_end_offsets begin_bit end_bit stream ∧
    (SortKeysDescending_DoubleBuffer_debug_synchronous cub d_temp_storage
        temp_storage_bytes d_keys num_items num_segments d_begin_offsets d_end_offsets
        begin_bit end_bit stream debug_synchronous).1 =
      SortKeysDescending_DoubleBuffer cub d_temp_storage temp_storage_bytes d_keys
        num_items num_segments d_begin_offsets d_end_offsets begin_bit end_bit stream :=
  ⟨rfl, rfl, rfl, rfl, rfl, rfl, rfl, rfl⟩

/-- C7 (divergence). A call of `SortPairsDescending` on `DoubleBuffer` that leaves out
`begin_bit` and `end_bit` is ill-formed, for every key size and every argument list,
whereas the same call of each of the seven other overloads is the call with
`begin_bit = 0`, `end_bit = sizeof(KeyT) * 8` and `stream = 0`. -/
theorem SortPairsDescending_DoubleBuffer_without_bit_range {R : Type} (sizeof_KeyT : Nat)
    (f : Int → Int → hipStream_t → R) :
    Overload.call_without_bit_range .SortPairsDescending_DoubleBuffer sizeof_KeyT f = none ∧
    ∀ o : Overload, o ≠ .SortPairsDescending_DoubleBuffer →
      o.call_without_bit_range sizeof_KeyT f = some (f 0 (sizeof_KeyT * 8) 0) := by
  refine ⟨rfl, ?_⟩
  intro o ho
  cases o <;> first | rfl | exact absurd rfl ho

end DeviceSegmentedRadixSort

end hipcub

namespace hipcub

namespace cub_model

variable {KeyT ValueT α : Type}

theorem radix_pass_perm (digit : α → Bool) (xs : List α) : (radix_pass digit xs).Perm xs := by
  unfold radix_pass
  have h := List.filter_append_perm digit xs
  exact (List.perm_append_comm).trans (by simpa using h)

theorem radix_passes_perm (digit : Nat → α → Bool) :
    ∀ (n bit : Nat) (xs : List α), (radix_passes digit bit n xs).Perm xs
  | 0, _, _ => List.Perm.refl _
  | n + 1, bit, xs =>
    (radix_passes_perm digit n (bit + 1) _).trans (radix_pass_perm (digit bit) xs)

/-- The passes in the other order: the last pass is the one for the highest bit. -/
theorem radix_passes_succ (digit : Nat → α → Bool) :
    ∀ (n bit : Nat) (xs : List α),
      radix_passes digit bit (n + 1) xs =
        radix_pass (digit (bit + n)) (radix_passes digit bit n xs)
  | 0, bit, xs => by simp [radix_passes]
  | n + 1, bit, xs => by
    have ih := radix_passes_succ digit n (bit + 1) (radix_pass (digit bit) xs)
    have e : bit + 1 + n = bit + (n + 1) := by omega
    rw [e] at ih
    rw [radix_passes, ih, radix_passes]

theorem radix_key_lt (digit : Nat → α → Bool) (bit : Nat) (x : α) :
    ∀ n : Nat, radix_key digit bit n x < 2 ^ n
  | 0 => by simp [radix_key]
  | n + 1 => by
    have ih := radix_key_lt digit bit x n
    simp only [radix_key, pow_succ]
    split <;> omega

/-- Two lists with the same items of every class of `f`, in the same order, have the
same items satisfying `p`, in the same order, when `p` holds inside one class only. -/
theorem filter_eq_of_class_eq (f : α → Nat) (p : α → Bool) (c0 : Nat)
    (hp : ∀ x, p x = true → f x = c0) (out xs : List α)
    (h : out.filter (fun x => f x == c0) = xs.filter (fun x => f x == c0)) :
    out.filter p = xs.filter p := by
  have key : ∀ l : List α, l.filter p = (l.filter (fun x => f x == c0)).filter p := by
    intro l
    rw [List.filter_filter]
    apply List.filter_congr
    intro x _
    cases hpx : p x with
    | false => simp
    | true => simp [hp x hpx]
  rw [key out, key xs, h]

/-- A pass on a digit keeps, for every predicate that fixes the digit, the items
satisfying it in their order. -/
theorem filter_radix_pass (digit : α → Bool) (p : α → Bool)
    (hp : ∀ x y, p x = true → p y = true → digit x = digit y) (xs : List α) :
    (radix_pass digit xs).filter p = xs.filter p := by
  unfold radix_pass
  rw [List.filter_append, List.filter_filter, List.filter_filter]
  by_cases hex : ∃ y ∈ xs, p y = true
  · obtain ⟨y, _, hy⟩ := hex
    cases hd : digit y with
    | false =>
      have h1 : xs.filter (fun a => p a && !digit a) = xs.filter p := by
        apply List.filter_congr
        intro x _
        cases hpx : p x with
        | false => simp
        | true => simp [hp x y hpx hy, hd]
      have h2 : xs.filter (fun a => p a && digit a) = [] := by
        rw [List.filter_eq_nil_iff]
        intro x _
        cases hpx : p x with
        | false => simp
        | true => simp [hp x y hpx hy, hd]
      rw [h1, h2, List.append_nil]
    | true =>
      have h1 : xs.filter (fun a => p a && !digit a) = [] := by
        rw [List.filter_eq_nil_iff]
        intro x _
        cases hpx : p x with
        | false => simp
        | true => simp [hp x y hpx hy, hd]
      have h2 : xs.filter (fun a => p a && digit a) = xs.filter p := by
        apply List.filter_congr
        intro x _
        cases hpx : p x with
        | false => simp
        | true => simp [hp x y hpx hy, hd]
      rw [h1, h2, List.nil_append]
  · have h0 : ∀ q : α → Bool, xs.filter (fun a => p a && q a) = [] := by
      intro q
      rw [List.filter_eq_nil_iff]
      intro x hx
      have : p x ≠ true := fun h => hex ⟨x, hx, h⟩
      simp [this]
    have h3 : xs.filter p = [] := by
      rw [List.filter_eq_nil_iff]
      intro x hx h
      exact hex ⟨x, hx, h⟩
    rw [h0, h0, h3]; rfl

theorem radix_passes_stable (digit : Nat → α → Bool) (bit : Nat) (xs : List α) :
    ∀ (n c : Nat),
      (radix_passes digit bit n xs).filter (fun x => radix_key digit bit n x == c) =
        xs.filter (fun x => radix_key digit bit n x == c)
  | 0, _ => rfl
  | n + 1, c => by
    rw [radix_passes_succ]
    have hlt := fun x => radix_key_lt digit bit x n
    rw [filter_radix_pass (digit (bit + n)) (fun x => radix_key digit bit (n + 1) x == c)]
    · apply filter_eq_of_class_eq (radix_key digit bit n)
        (fun x => radix_key digit bit (n + 1) x == c) (c % 2 ^ n)
      · intro x hx
        have hx1 : radix_key digit bit (n + 1) x = c := by simpa using hx
        rw [← hx1]
        simp only [radix_key]
        rw [Nat.add_mul_mod_self_left, Nat.mod_eq_of_lt (hlt x)]
      · exact radix_passes_stable digit bit xs n (c % 2 ^ n)
    · intro x y hx hy
      have hx1 : radix_key digit bit (n + 1) x = c := by simpa using hx
      have hy1 : radix_key digit bit (n + 1) y = c := by simpa using hy
      simp only [radix_key] at hx1 hy1
      have hxl := hlt x
      have hyl := hlt y
      cases hdx : digit (bit + n) x <;> cases hdy : digit (bit + n) y <;>
        simp only [hdx, hdy, if_true, if_false, Bool.false_eq_true] at hx1 hy1 ⊢ <;> omega

theorem radix_passes_sorted (digit : Nat → α → Bool) (bit : Nat) (xs : List α) :
    ∀ n : Nat, (radix_passes digit bit n xs).Pairwise
      (fun a c => radix_key digit bit n a ≤ radix_key digit bit n c)
  | 0 => List.pairwise_of_forall (fun _ _ => Nat.le_refl _)
  | n + 1 => by
    rw [radix_passes_succ]
    have ih := radix_passes_sorted digit bit xs n
    have hlt := fun x => radix_key_lt digit bit x n
    unfold radix_pass
    rw [List.pairwise_append]
    refine ⟨?_, ?_, ?_⟩
    · refine List.Pairwise.imp_of_mem ?_ (ih.filter _)
      intro a c ha hc hac
      have hda := (List.mem_filter.mp ha).2
      have hdc := (List.mem_filter.mp hc).2
      simp only [Bool.not_eq_true', Bool.not_eq_eq_eq_not, Bool.not_true] at hda hdc
      simp only [radix_key, hda, hdc, Bool.false_eq_true, if_false]
      omega
    · refine List.Pairwise.imp_of_mem ?_ (ih.filter _)
      intro a c ha hc hac
      have hda := (List.mem_filter.mp ha).2
      have hdc := (List.mem_filter.mp hc).2
      simp only [radix_key, hda, hdc, if_true]
      omega
    · intro a ha c hc
      have hda := (List.mem_filter.mp ha).2
      have hdc := (List.mem_filter.mp hc).2
      simp only [Bool.not_eq_true', Bool.not_eq_eq_eq_not, Bool.not_true] at hda
      simp only [radix_key, hda, hdc, Bool.false_eq_true, if_false, if_true]
      have := hlt a
      omega

/-- The number by which the passes order the items is the masked key for an ascending
sort and its complement for a descending sort. -/
theorem radix_key_radix_digit (canon : KeyT → Nat) (descending : Bool) (bit : Nat)
    (item : KeyT × ValueT) :
    ∀ n : Nat,
      radix_key (fun b (x : KeyT × ValueT) => radix_digit canon descending b x.1) bit n item =
        if descending then 2 ^ n - 1 - canon item.1 / 2 ^ bit % 2 ^ n
        else canon item.1 / 2 ^ bit % 2 ^ n
  | 0 => by cases descending <;> simp [radix_key, Nat.mod_one]
  | n + 1 => by
    have ih := radix_key_radix_digit canon descending bit item n
    have hdiv : canon item.1 / 2 ^ (bit + n) = canon item.1 / 2 ^ bit / 2 ^ n := by
      rw [Nat.div_div_eq_div_mul, pow_add]
    have hmod := Nat.mod_pow_succ (x := canon item.1 / 2 ^ bit) (b := 2) (k := n)
    have ht : canon item.1 / 2 ^ bit / 2 ^ n % 2 < 2 := Nat.mod_lt _ (by decide)
    have hm : canon item.1 / 2 ^ bit % 2 ^ n < 2 ^ n := Nat.mod_lt _ (by positivity)
    have h2 : 2 ^ (n + 1) = 2 * 2 ^ n := by rw [pow_succ]; omega
    show radix_key (fun b (x : KeyT × ValueT) => radix_digit canon descending b x.1) bit n item
        + 2 ^ n * (if radix_digit canon descending (bit + n) item.1 = true then 1 else 0) = _
    rw [ih, hmod, h2]
    unfold radix_digit
    rw [hdiv]
    have ht' : canon item.1 / 2 ^ bit / 2 ^ n % 2 = 0 ∨
        canon item.1 / 2 ^ bit / 2 ^ n % 2 = 1 := by omega
    cases descending <;> rcases ht' with h | h <;> rw [h] <;> simp <;> omega

/-- The sort of a segment: a permutation of the segment, ordered in the requested
direction on the masked keys, keeping the input order of the items of equal masked
key. -/
theorem sort_segment_spec (canon : KeyT → Nat) (descending : Bool) (begin_bit end_bit : Int)
    (items : List (KeyT × ValueT)) :
    (sort_segment canon descending begin_bit end_bit items).Perm items ∧
    (sort_segment canon descending begin_bit end_bit items).Pairwise
      (fun a c => in_direction descending (masked_key canon begin_bit end_bit a.1)
        (masked_key canon begin_bit end_bit c.1)) ∧
    ∀ c : Nat,
      (sort_segment canon descending begin_bit end_bit items).filter
          (fun x => masked_key canon begin_bit end_bit x.1 == c) =
        items.filter (fun x => masked_key canon begin_bit end_bit x.1 == c) := by
  refine ⟨radix_passes_perm _ _ _ _, ?_, ?_⟩
  · have h := radix_passes_sorted
      (fun b (x : KeyT × ValueT) => radix_digit canon descending b x.1) begin_bit.toNat items
      (end_bit - begin_bit).toNat
    refine h.imp ?_
    intro a c hac
    rw [radix_key_radix_digit, radix_key_radix_digit] at hac
    have ha : canon a.1 / 2 ^ begin_bit.toNat % 2 ^ (end_bit - begin_bit).toNat <
        2 ^ (end_bit - begin_bit).toNat := Nat.mod_lt _ (by positivity)
    have hc : canon c.1 / 2 ^ begin_bit.toNat % 2 ^ (end_bit - begin_bit).toNat <
        2 ^ (end_bit - begin_bit).toNat := Nat.mod_lt _ (by positivity)
    unfold in_direction masked_key
    cases descending
    · simpa using hac
    · simp only [if_true] at hac ⊢
      omega
  · intro c
    have hlt : ∀ x : KeyT × ValueT, masked_key canon begin_bit end_bit x.1 <
        2 ^ (end_bit - begin_bit).toNat := fun x => Nat.mod_lt _ (by positivity)
    apply filter_eq_of_class_eq
      (radix_key (fun b (x : KeyT × ValueT) => radix_digit canon descending b x.1)
        begin_bit.toNat (end_bit - begin_bit).toNat)
      (fun x => masked_key canon begin_bit end_bit x.1 == c)
      (if descending then 2 ^ (end_bit - begin_bit).toNat - 1 - c else c)
    · intro x hx
      have hx1 : masked_key canon begin_bit end_bit x.1 = c := by simpa using hx
      rw [radix_key_radix_digit, ← hx1]
      rfl
    · exact radix_passes_stable _ _ _ _ _

end cub_model

end hipcub

theorem Memory.length_read_range {α : Type} (m : Memory α) : ∀ (n base : Nat),
    (m.read_range base n).length = n
  | 0, _ => rfl
  | n + 1, base => by simp [Memory.read_range, Memory.length_read_range m n (base + 1)]

theorem Memory.read_range_congr {α : Type} (m m' : Memory α) : ∀ (n base : Nat),
    (∀ j, j < n → m (base + j) = m' (base + j)) → m.read_range base n = m'.read_range base n
  | 0, _, _ => rfl
  | n + 1, base, h => by
    have h0 : m base = m' base := by simpa using h 0 (Nat.succ_pos n)
    have ih := Memory.read_range_congr m m' n (base + 1) (fun j hj => by
      have := h (j + 1) (Nat.succ_lt_succ hj)
      have e : base + 1 + j = base + (j + 1) := by omega
      rw [e]; exact this)
    simp only [Memory.read_range, h0, ih]

theorem Memory.write_range_of_not_mem {α : Type} : ∀ (xs : List α) (m : Memory α)
    (base a : Nat), (a < base ∨ base + xs.length ≤ a) → (m.write_range base xs) a = m a
  | [], _, _, _, _ => rfl
  | x :: xs, m, base, a, h => by
    have hlen : (x :: xs).length = xs.length + 1 := rfl
    rw [hlen] at h
    simp only [Memory.write_range]
    rw [Memory.write_range_of_not_mem xs (m.write base x) (base + 1) a (by omega)]
    have hne : a ≠ base := by omega
    simp [Memory.write, hne]

theorem Memory.read_range_write_range {α : Type} : ∀ (xs : List α) (m : Memory α)
    (base : Nat), (m.write_range base xs).read_range base xs.length = xs
  | [], _, _ => rfl
  | x :: xs, m, base => by
    simp only [Memory.write_range, List.length_cons, Memory.read_range]
    rw [Memory.read_range_write_range xs (m.write base x) (base + 1),
      Memory.write_range_of_not_mem xs (m.write base x) (base + 1) base (by omega)]
    simp [Memory.write]

theorem List.zip_map_fst_map_snd {α β : Type} : ∀ (l : List (α × β)),
    (l.map Prod.fst).zip (l.map Prod.snd) = l
  | [] => rfl
  | x :: l => by simp [List.zip_map_fst_map_snd l]

namespace hipcub

namespace cub_model

variable {KeyT ValueT : Type}

theorem length_segment_items (keys : Memory KeyT) (values : Memory ValueT)
    (d_begin_offsets d_end_offsets : Nat → Int) (segment : Nat) :
    (segment_items keys values d_begin_offsets d_end_offsets segment).length =
      (d_end_offsets segment).toNat - (d_begin_offsets segment).toNat := by
  simp [segment_items, Memory.length_read_range]

theorem length_sort_segment (canon : KeyT → Nat) (descending : Bool) (begin_bit end_bit : Int)
    (items : List (KeyT × ValueT)) :
    (sort_segment canon descending begin_bit end_bit items).length = items.length :=
  (radix_passes_perm _ _ _ _).length_eq

/-- Frame of the segment loop: an address outside the segments still to be sorted keeps
its content in both output buffers. -/
theorem sort_segments_frame (canon : KeyT → Nat) (descending : Bool) (begin_bit end_bit : Int)
    (d_keys_in : Memory KeyT) (d_values_in : Memory ValueT)
    (d_begin_offsets d_end_offsets : Nat → Int) :
    ∀ (n s : Nat) (out : Memory KeyT × Memory ValueT) (a : Nat),
      (∀ j, s ≤ j → j < s + n →
        a < (d_begin_offsets j).toNat ∨ (d_begin_offsets j).toNat +
          ((d_end_offsets j).toNat - (d_begin_offsets j).toNat) ≤ a) →
      (sort_segments canon descending begin_bit end_bit d_keys_in d_values_in
          d_begin_offsets d_end_offsets s n out).1 a = out.1 a ∧
      (sort_segments canon descending begin_bit end_bit d_keys_in d_values_in
          d_begin_offsets d_end_offsets s n out).2 a = out.2 a
  | 0, _, _, _, _ => ⟨rfl, rfl⟩
  | n + 1, s, out, a, h => by
    have ih := sort_segments_frame canon descending begin_bit end_bit d_keys_in d_values_in
      d_begin_offsets d_end_offsets n (s + 1)
      (out.1.write_range (d_begin_offsets s).toNat
        ((sort_segment canon descending begin_bit end_bit
          (segment_items d_keys_in d_values_in d_begin_offsets d_end_offsets s)).map Prod.fst),
       out.2.write_range (d_begin_offsets s).toNat
        ((sort_segment canon descending begin_bit end_bit
          (segment_items d_keys_in d_values_in d_begin_offsets d_end_offsets s)).map Prod.snd))
      a (fun j hj1 hj2 => h j (by omega) (by omega))
    have hs := h s (Nat.le_refl s) (by omega)
    have hl : (sort_segment canon descending begin_bit end_bit
        (segment_items d_keys_in d_values_in d_begin_offsets d_end_offsets s)).length =
        (d_end_offsets s).toNat - (d_begin_offsets s).toNat := by
      rw [length_sort_segment, length_segment_items]
    simp only [sort_segments]
    rw [ih.1, ih.2]
    constructor
    · apply Memory.write_range_of_not_mem
      rw [List.length_map, hl]; exact hs
    · apply Memory.write_range_of_not_mem
      rw [List.length_map, hl]; exact hs

theorem segment_items_congr (keys keys' : Memory KeyT) (values values' : Memory ValueT)
    (d_begin_offsets d_end_offsets : Nat → Int) (i : Nat)
    (h : ∀ a, (d_begin_offsets i).toNat ≤ a →
      a < (d_begin_offsets i).toNat + ((d_end_offsets i).toNat - (d_begin_offsets i).toNat) →
      keys a = keys' a ∧ values a = values' a) :
    segment_items keys values d_begin_offsets d_end_offsets i =
      segment_items keys' values' d_begin_offsets d_end_offsets i := by
  unfold segment_items
  rw [Memory.read_range_congr keys keys' _ _ (fun j hj => (h _ (by omega) (by omega)).1),
    Memory.read_range_congr values values' _ _ (fun j hj => (h _ (by omega) (by omega)).2)]

theorem segment_items_write_range (keys : Memory KeyT) (values : Memory ValueT)
    (d_begin_offsets d_end_offsets : Nat → Int) (i : Nat) (items : List (KeyT × ValueT))
    (hl : items.length = (d_end_offsets i).toNat - (d_begin_offsets i).toNat) :
    segment_items (keys.write_range (d_begin_offsets i).toNat (items.map Prod.fst))
        (values.write_range (d_begin_offsets i).toNat (items.map Prod.snd))
        d_begin_offsets d_end_offsets i = items := by
  have e1 := Memory.read_range_write_range (items.map Prod.fst) keys (d_begin_offsets i).toNat
  have e2 := Memory.read_range_write_range (items.map Prod.snd) values
    (d_begin_offsets i).toNat
  rw [List.length_map, hl] at e1 e2
  unfold segment_items
  rw [e1, e2, List.zip_map_fst_map_snd]

/-- After the segment loop every segment of the output buffers holds the sorted items of
the same segment of the input buffers, when the segments do not overlap. -/
theorem segment_items_sort_segments (canon : KeyT → Nat) (descending : Bool)
    (begin_bit end_bit : Int) (d_keys_in : Memory KeyT) (d_values_in : Memory ValueT)
    (d_begin_offsets d_end_offsets : Nat → Int) :
    ∀ (n s : Nat) (out : Memory KeyT × Memory ValueT) (i : Nat), s ≤ i → i < s + n →
      (∀ j k, s ≤ j → j < k → k < s + n →
        (d_end_offsets j).toNat ≤ (d_begin_offsets k).toNat ∨
        (d_end_offsets k).toNat ≤ (d_begin_offsets j).toNat) →
      segment_items
          (sort_segments canon descending begin_bit end_bit d_keys_in d_values_in
            d_begin_offsets d_end_offsets s n out).1
          (sort_segments canon descending begin_bit end_bit d_keys_in d_values_in
            d_begin_offsets d_end_offsets s n out).2
          d_begin_offsets d_end_offsets i =
        sort_segment canon descending begin_bit end_bit
          (segment_items d_keys_in d_values_in d_begin_offsets d_end_offsets i)
  | 0, s, _, i, h1, h2, _ => by omega
  | n + 1, s, out, i, h1, h2, hd => by
    have hl : (sort_segment canon descending begin_bit end_bit
        (segment_items d_keys_in d_values_in d_begin_offsets d_end_offsets s)).length =
        (d_end_offsets s).toNat - (d_begin_offsets s).toNat := by
      rw [length_sort_segment, length_segment_items]
    rcases Nat.eq_or_lt_of_le h1 with heq | hlt
    · subst heq
      simp only [sort_segments]
      rw [segment_items_congr _ _ _ _ d_begin_offsets d_end_offsets s
        (fun a ha1 ha2 => sort_segments_frame canon descending begin_bit end_bit d_keys_in
          d_values_in d_begin_offsets d_end_offsets n (s + 1) _ a (fun j hj1 hj2 => by
            have := hd s j (Nat.le_refl s) (by omega) (by omega)
            omega))]
      exact segment_items_write_range _ _ _ _ _ _ hl
    · simp only [sort_segments]
      exact segment_items_sort_segments canon descending begin_bit end_bit d_keys_in
        d_values_in d_begin_offsets d_end_offsets n (s + 1) _ i (by omega) (by omega)
        (fun j k hj hjk hk => hd j k (by omega) hjk (by omega))

end cub_model

end hipcub

namespace hipcub

namespace DeviceSegmentedRadixSort

variable {KeyT ValueT : Type}

/-- The output of the sort of pairs on the modelled back-end. -/
theorem sort_pairs_output (canon : KeyT → Nat) (required_bytes : Int → Int → Nat)
    (descending : Bool) (temp : Nat) (temp_storage_bytes : Nat)
    (d_keys_in d_keys_out : Memory KeyT) (d_values_in d_values_out : Memory ValueT)
    (num_items num_segments : Int) (d_begin_offsets d_end_offsets : Nat → Int)
    (begin_bit end_bit : Int) (stream : hipStream_t)
    (r : Outcome hipError_t (Memory KeyT × Memory ValueT))
    (hr : r = if descending then
        SortPairsDescending (cub_model canon required_bytes) (some temp) temp_storage_bytes
          d_keys_in d_keys_out d_values_in d_values_out num_items num_segments
          d_begin_offsets d_end_offsets begin_bit end_bit stream
      else
        SortPairs (cub_model canon required_bytes) (some temp) temp_storage_bytes
          d_keys_in d_keys_out d_values_in d_values_out num_items num_segments
          d_begin_offsets d_end_offsets begin_bit end_bit stream)
    (hdisjoint : ∀ i j : Nat, i < j → (j : Int) < num_segments →
      d_end_offsets i ≤ d_begin_offsets j ∨ d_end_offsets j ≤ d_begin_offsets i)
    (hsuccess : r.status = hipError_t.hipSuccess) :
    ∀ i : Nat, (i : Int) < num_segments →
      (cub_model.segment_items r.out.1 r.out.2 d_begin_offsets d_end_offsets i).Perm
        (cub_model.segment_items d_keys_in d_values_in d_begin_offsets d_end_offsets i) ∧
      (cub_model.segment_items r.out.1 r.out.2 d_begin_offsets d_end_offsets i).Pairwise
        (fun a c => cub_model.in_direction descending
          (cub_model.masked_key canon begin_bit end_bit a.1)
          (cub_model.masked_key canon begin_bit end_bit c.1)) ∧
      ∀ c : Nat,
        (cub_model.segment_items r.out.1 r.out.2 d_begin_offsets d_end_offsets i).filter
            (fun x => cub_model.masked_key canon begin_bit end_bit x.1 == c) =
          (cub_model.segment_items d_keys_in d_values_in d_begin_offsets d_end_offsets
            i).filter (fun x => cub_model.masked_key canon begin_bit end_bit x.1 == c) := by
  intro i hi
  have hout : r.out = cub_model.sort_segments canon descending begin_bit end_bit d_keys_in
      d_values_in d_begin_offsets d_end_offsets 0 num_segments.toNat
      (d_keys_out, d_values_out) := by
    subst hr
    cases descending <;>
      simp only [SortPairs, SortPairsDescending, cub_model, cub_model.sort_pairs,
        Outcome.translate, Bool.false_eq_true, if_false, if_true] at hsuccess ⊢ <;>
      split at hsuccess <;>
      first
        | (simp [cub_model.hipCUDAErrorTohipError] at hsuccess; done)
        | (rename_i h; simp only [h, if_false])
  have hseg := cub_model.segment_items_sort_segments canon descending begin_bit end_bit
    d_keys_in d_values_in d_begin_offsets d_end_offsets num_segments.toNat 0
    (d_keys_out, d_values_out) i (Nat.zero_le i) (by omega)
    (fun j k _ hjk hk => by
      have := hdisjoint j k hjk (by omega)
      omega)
  rw [hout, hseg]
  exact cub_model.sort_segment_spec canon descending begin_bit end_bit _

theorem map_fst_segment_items (keys : Memory KeyT) (values : Memory ValueT)
    (d_begin_offsets d_end_offsets : Nat → Int) (i : Nat) :
    (cub_model.segment_items keys values d_begin_offsets d_end_offsets i).map Prod.fst =
      cub_model.segment_keys keys d_begin_offsets d_end_offsets i := by
  unfold cub_model.segment_items cub_model.segment_keys
  apply List.map_fst_zip
  rw [Memory.length_read_range, Memory.length_read_range]

/-- The output of the sort of keys on the modelled back-end. -/
theorem sort_keys_output (canon : KeyT → Nat) (required_bytes : Int → Int → Nat)
    (descending : Bool) (temp : Nat) (temp_storage_bytes : Nat)
    (d_keys_in d_keys_out : Memory KeyT)
    (num_items num_segments : Int) (d_begin_offsets d_end_offsets : Nat → Int)
    (begin_bit end_bit : Int) (stream : hipStream_t)
    (r : Outcome hipError_t (Memory KeyT))
    (hr : r = if descending then
        SortKeysDescending (cub_model canon required_bytes : CubBackend KeyT ValueT)
          (some temp) temp_storage_bytes d_keys_in d_keys_out num_items num_segments
          d_begin_offsets d_end_offsets begin_bit end_bit stream
      else
        SortKeys (cub_model canon required_bytes : CubBackend KeyT ValueT)
          (some temp) temp_storage_bytes d_keys_in d_keys_out num_items num_segments
          d_begin_offsets d_end_offsets begin_bit end_bit stream)
    (hdisjoint : ∀ i j : Nat, i < j → (j : Int) < num_segments →
      d_end_offsets i ≤ d_begin_offsets j ∨ d_end_offsets j ≤ d_begin_offsets i)
    (hsuccess : r.status = hipError_t.hipSuccess) :
    ∀ i : Nat, (i : Int) < num_segments →
      (cub_model.segment_keys r.out d_begin_offsets d_end_offsets i).Perm
        (cub_model.segment_keys d_keys_in d_begin_offsets d_end_offsets i) ∧
      (cub_model.segment_keys r.out d_begin_offsets d_end_offsets i).Pairwise
        (fun a c => cub_model.in_direction descending
          (cub_model.masked_key canon begin_bit end_bit a)
          (cub_model.masked_key canon begin_bit end_bit c)) ∧
      ∀ c : Nat,
        (cub_model.segment_keys r.out d_begin_offsets d_end_offsets i).filter
            (fun x => cub_model.masked_key canon begin_bit end_bit x == c) =
          (cub_model.segment_keys d_keys_in d_begin_offsets d_end_offsets i).filter
            (fun x => cub_model.masked_key canon begin_bit end_bit x == c) := by
  intro i hi
  have hp := sort_pairs_output canon required_bytes descending temp temp_storage_bytes
    d_keys_in d_keys_out (fun _ => ()) (fun _ => ()) num_items num_segments d_begin_offsets
    d_end_offsets begin_bit end_bit stream _ rfl hdisjoint
  have hst : r.status = (if descending then
        SortPairsDescending (cub_model canon required_bytes) (some temp) temp_storage_bytes
          d_keys_in d_keys_out (fun _ => ()) (fun _ => ()) num_items num_segments
          d_begin_offsets d_end_offsets begin_bit end_bit stream
      else
        SortPairs (cub_model canon required_bytes) (some temp) temp_storage_bytes
          d_keys_in d_keys_out (fun _ => ()) (fun _ => ()) num_items num_segments
          d_begin_offsets d_end_offsets begin_bit end_bit stream).status := by
    subst hr; cases descending <;> rfl
  have hout : r.out = (if descending then
        SortPairsDescending (cub_model canon required_bytes) (some temp) temp_storage_bytes
          d_keys_in d_keys_out (fun _ => ()) (fun _ => ()) num_items num_segments
          d_begin_offsets d_end_offsets begin_bit end_bit stream
      else
        SortPairs (cub_model canon required_bytes) (some temp) temp_storage_bytes
          d_keys_in d_keys_out (fun _ => ()) (fun _ => ()) num_items num_segments
          d_begin_offsets d_end_offsets begin_bit end_bit stream).out.1 := by
    subst hr; cases descending <;> rfl
  obtain ⟨h1, h2, h3⟩ := hp (hst ▸ hsuccess) i hi
  rw [hout, ← map_fst_segment_items _ (fun _ => ()) , ← map_fst_segment_items d_keys_in
    (fun _ => ())]
  refine ⟨?_, ?_, ?_⟩
  · exact (h1.map Prod.fst)
  · rw [List.pairwise_map]; exact h2
  · intro c
    rw [List.filter_map, List.filter_map]
    exact congrArg (List.map Prod.fst) (h3 c)

/-- C3. Segmented radix sort output, on the modelled back-end: when the segments
`[begin_offsets[i], end_offsets[i])` lie inside `[0, num_items)` and do not overlap,
after a successful executing call of `SortPairs` or `SortKeys` (ascending) or of
`SortPairsDescending` or `SortKeysDescending` (descending) every output segment is a
permutation of the same input segment, ordered in the requested direction on the bits
`[begin_bit, end_bit)` of the keys, in which keys equal on those bits keep their input
order; for the sorts of pairs this holds of the segment as key-value pairs, so every
output value is the input value that accompanied the output key. -/
theorem segmented_radix_sort_output (canon : KeyT → Nat) (required_bytes : Int → Int → Nat)
    (descending : Bool) (temp : Nat) (temp_storage_bytes : Nat)
    (d_keys_in d_keys_out : Memory KeyT) (d_values_in d_values_out : Memory ValueT)
    (num_items num_segments : Int) (d_begin_offsets d_end_offsets : Nat → Int)
    (begin_bit end_bit : Int) (stream : hipStream_t)
    (_hinside : ∀ i : Nat, (i : Int) < num_segments →
      0 ≤ d_begin_offsets i ∧ d_begin_offsets i ≤ d_end_offsets i ∧
        d_end_offsets i ≤ num_items)
    (hdisjoint : ∀ i j : Nat, i < j → (j : Int) < num_segments →
      d_end_offsets i ≤ d_begin_offsets j ∨ d_end_offsets j ≤ d_begin_offsets i) :
    (∀ r : Outcome hipError_t (Memory KeyT × Memory ValueT),
      r = (if descending then
          SortPairsDescending (cub_model canon required_bytes) (some temp)
            temp_storage_bytes d_keys_in d_keys_out d_values_in d_values_out num_items
            num_segments d_begin_offsets d_end_offsets begin_bit end_bit stream
        else
          SortPairs (cub_model canon required_bytes) (some temp) temp_storage_bytes
            d_keys_in d_keys_out d_values_in d_values_out num_items num_segments
            d_begin_offsets d_end_offsets begin_bit end_bit stream) →
      r.status = hipError_t.hipSuccess →
      ∀ i : Nat, (i : Int) < num_segments →
        cub_model.stably_sorted canon descending begin_bit end_bit Prod.fst
          (cub_model.segment_items r.out.1 r.out.2 d_begin_offsets d_end_offsets i)
          (cub_model.segment_items d_keys_in d_values_in d_begin_offsets d_end_offsets i)) ∧
    (∀ r : Outcome hipError_t (Memory KeyT),
      r = (if descending then
          SortKeysDescending (cub_model canon required_bytes : CubBackend KeyT ValueT)
            (some temp) temp_storage_bytes d_keys_in d_keys_out num_items num_segments
            d_begin_offsets d_end_offsets begin_bit end_bit stream
        else
          SortKeys (cub_model canon required_bytes : CubBackend KeyT ValueT)
            (some temp) temp_storage_bytes d_keys_in d_keys_out num_items num_segments
            d_begin_offsets d_end_offsets begin_bit end_bit stream) →
      r.status = hipError_t.hipSuccess →
      ∀ i : Nat, (i : Int) < num_segments →
        cub_model.stably_sorted canon descending begin_bit end_bit id
          (cub_model.segment_keys r.out d_begin_offsets d_end_offsets i)
          (cub_model.segment_keys d_keys_in d_begin_offsets d_end_offsets i)) :=
  ⟨fun r hr hs i hi => sort_pairs_output canon required_bytes descending temp
      temp_storage_bytes d_keys_in d_keys_out d_values_in d_values_out num_items
      num_segments d_begin_offsets d_end_offsets begin_bit end_bit stream r hr hdisjoint hs
      i hi,
    fun r hr hs i hi => sort_keys_output canon required_bytes descending temp
      temp_storage_bytes d_keys_in d_keys_out num_items num_segments d_begin_offsets
      d_end_offsets begin_bit end_bit stream r hr hdisjoint hs i hi⟩

/-- Witness of C3: the descending key-value scenario of the spec, keys
`[5,2,8,1,1,1,9,4]`, values `[a,b,c,d,e,f,g,h]`, segments `[0,3)`, `[3,6)`, `[6,8)`. -/
theorem segmented_radix_sort_output_witness :
    (SortPairsDescending (cub_model (fun k : Nat => k) (fun _ _ => 1)) (some 0) 1
        (fun i => [5, 2, 8, 1, 1, 1, 9, 4].getD i 0) (fun _ => 0)
        (fun i => ['a', 'b', 'c', 'd', 'e', 'f', 'g', 'h'].getD i ' ') (fun _ => ' ')
        8 3 (fun i => ([0, 3, 6] : List Int).getD i 0)
        (fun i => ([3, 6, 8] : List Int).getD i 0) 0 32 0).status = hipError_t.hipSuccess ∧
    (SortPairsDescending (cub_model (fun k : Nat => k) (fun _ _ => 1)) (some 0) 1
        (fun i => [5, 2, 8, 1, 1, 1, 9, 4].getD i 0) (fun _ => 0)
        (fun i => ['a', 'b', 'c', 'd', 'e', 'f', 'g', 'h'].getD i ' ') (fun _ => ' ')
        8 3 (fun i => ([0, 3, 6] : List Int).getD i 0)
        (fun i => ([3, 6, 8] : List Int).getD i 0) 0 32 0).out.1.read_range 0 8 =
      [8, 5, 2, 1, 1, 1, 9, 4] ∧
    (SortPairsDescending (cub_model (fun k : Nat => k) (fun _ _ => 1)) (some 0) 1
        (fun i => [5, 2, 8, 1, 1, 1, 9, 4].getD i 0) (fun _ => 0)
        (fun i => ['a', 'b', 'c', 'd', 'e', 'f', 'g', 'h'].getD i ' ') (fun _ => ' ')
        8 3 (fun i => ([0, 3, 6] : List Int).getD i 0)
        (fun i => ([3, 6, 8] : List Int).getD i 0) 0 32 0).out.2.read_range 0 8 =
      ['c', 'a', 'b', 'd', 'e', 'f', 'g', 'h'] ∧
    cub_model.stably_sorted (fun k : Nat => k) true 0 32 Prod.fst
      (cub_model.segment_items
        (SortPairsDescending (cub_model (fun k : Nat => k) (fun _ _ => 1)) (some 0) 1
          (fun i => [5, 2, 8, 1, 1, 1, 9, 4].getD i 0) (fun _ => 0)
          (fun i => ['a', 'b', 'c', 'd', 'e', 'f', 'g', 'h'].getD i ' ') (fun _ => ' ')
          8 3 (fun i => ([0, 3, 6] : List Int).getD i 0)
          (fun i => ([3, 6, 8] : List Int).getD i 0) 0 32 0).out.1
        (SortPairsDescending (cub_model (fun k : Nat => k) (fun _ _ => 1)) (some 0) 1
          (fun i => [5, 2, 8, 1, 1, 1, 9, 4].getD i 0) (fun _ => 0)
          (fun i => ['a', 'b', 'c', 'd', 'e', 'f', 'g', 'h'].getD i ' ') (fun _ => ' ')
          8 3 (fun i => ([0, 3, 6] : List Int).getD i 0)
          (fun i => ([3, 6, 8] : List Int).getD i 0) 0 32 0).out.2
        (fun i => ([0, 3, 6] : List Int).getD i 0)
        (fun i => ([3, 6, 8] : List Int).getD i 0) 0)
      (cub_model.segment_items (fun i => [5, 2, 8, 1, 1, 1, 9, 4].getD i 0)
        (fun i => ['a', 'b', 'c', 'd', 'e', 'f', 'g', 'h'].getD i ' ')
        (fun i => ([0, 3, 6] : List Int).getD i 0)
        (fun i => ([3, 6, 8] : List Int).getD i 0) 0) :=
  ⟨by decide, by decide, by decide,
    (segmented_radix_sort_output (fun k : Nat => k) (fun _ _ => 1) true 0 1
      (fun i => [5, 2, 8, 1, 1, 1, 9, 4].getD i 0) (fun _ => 0)
      (fun i => ['a', 'b', 'c', 'd', 'e', 'f', 'g', 'h'].getD i ' ') (fun _ => ' ')
      8 3 (fun i => ([0, 3, 6] : List Int).getD i 0)
      (fun i => ([3, 6, 8] : List Int).getD i 0) 0 32 0
      (fun i hi => by
        have h3 : i < 3 := by omega
        interval_cases i <;> decide)
      (fun i j hij hj => by
        have h3 : j < 3 := by omega
        interval_cases j <;> interval_cases i <;> decide)).1 _ rfl (by decide) 0
      (by decide)⟩

end DeviceSegmentedRadixSort

end hipcub

namespace hipcub

namespace DeviceSegmentedRadixSort

variable {KeyT ValueT : Type}

/-- Forwarding of the bit range. No entry point of `DeviceSegmentedRadixSort` checks the
bit range itself: for every back-end and every argument list, whatever `begin_bit` and
`end_bit` are, each of the eight entry points returns the translation of the status of
the back-end function of the same name called with the same `begin_bit` and `end_bit`,
and leaves `temp_storage_bytes` and the outputs as that function left them. Whether a
bit range outside `0 ≤ begin_bit ≤ end_bit ≤ 8 * sizeof(KeyT)` is refused is therefore
decided by the back-end alone. -/
theorem bit_range_forwarded (cub : CubBackend KeyT ValueT)
    (d_temp_storage : Option Nat) (temp_storage_bytes : Nat)
    (d_keys_in d_keys_out : Memory KeyT) (d_values_in d_values_out : Memory ValueT)
    (d_keys : DoubleBuffer KeyT) (d_values : DoubleBuffer ValueT)
    (num_items num_segments : Int) (d_begin_offsets d_end_offsets : Nat → Int)
    (begin_bit end_bit : Int) (stream : hipStream_t) :
    SortPairs cub d_temp_storage temp_storage_bytes d_keys_in d_keys_out d_values_in
        d_values_out num_items num_segments d_begin_offsets d_end_offsets begin_bit end_bit
        stream =
      (cub.SortPairs d_temp_storage temp_storage_bytes d_keys_in d_keys_out d_values_in
        d_values_out num_items num_segments d_begin_offsets d_end_offsets begin_bit end_bit
        stream).translate cub.hipCUDAErrorTohipError ∧
    SortPairs_DoubleBuffer cub d_temp_storage temp_storage_bytes d_keys d_values num_items
        num_segments d_begin_offsets d_end_offsets begin_bit end_bit stream =
      (cub.SortPairs_DoubleBuffer d_temp_storage temp_storage_bytes d_keys d_values
        num_items num_segments d_begin_offsets d_end_offsets begin_bit end_bit
        stream).translate cub.hipCUDAErrorTohipError ∧
    SortPairsDescending cub d_temp_storage temp_storage_bytes d_keys_in d_keys_out
        d_values_in d_values_out num_items num_segments d_begin_offsets d_end_offsets
        begin_bit end_bit stream =
      (cub.SortPairsDescending d_temp_storage temp_storage_bytes d_keys_in d_keys_out
        d_values_in d_values_out num_items num_segments d_begin_offsets d_end_offsets
        begin_bit end_bit stream).translate cub.hipCUDAErrorTohipError ∧
    SortPairsDescending_DoubleBuffer cub d_temp_storage temp_storage_bytes d_keys d_values
        num_items num_segments d_begin_offsets d_end_offsets begin_bit end_bit stream =
      (cub.SortPairsDescending_DoubleBuffer d_temp_storage temp_storage_bytes d_keys
        d_values num_items num_segments d_begin_offsets d_end_offsets begin_bit end_bit
        stream).translate cub.hipCUDAErrorTohipError ∧
    SortKeys cub d_temp_storage temp_storage_bytes d_keys_in d_keys_out num_items
        num_segments d_begin_offsets d_end_offsets begin_bit end_bit stream =
      (cub.SortKeys d_temp_storage temp_storage_bytes d_keys_in d_keys_out num_items
        num_segments d_begin_offsets d_end_offsets begin_bit end_bit
        stream).translate cub.hipCUDAErrorTohipError ∧
    SortKeys_DoubleBuffer cub d_temp_storage temp_storage_bytes d_keys num_items
        num_segments d_begin_offsets d_end_offsets begin_bit end_bit stream =
      (cub.SortKeys_DoubleBuffer d_temp_storage temp_storage_bytes d_keys num_items
        num_segments d_begin_offsets d_end_offsets begin_bit end_bit
        stream).translate cub.hipCUDAErrorTohipError ∧
    SortKeysDescending cub d_temp_storage temp_storage_bytes d_keys_in d_keys_out num_items
        num_segments d_begin_offsets d_end_offsets begin_bit end_bit stream =
      (cub.SortKeysDescending d_temp_storage temp_storage_bytes d_keys_in d_keys_out
        num_items num_segments d_begin_offsets d_end_offsets begin_bit end_bit
        stream).translate cub.hipCUDAErrorTohipError ∧
    SortKeysDescending_DoubleBuffer cub d_temp_storage temp_storage_bytes d_keys num_items
        num_segments d_begin_offsets d_end_offsets begin_bit end_bit stream =
      (cub.SortKeysDescending_DoubleBuffer d_temp_storage temp_storage_bytes d_keys
        num_items num_segments d_begin_offsets d_end_offsets begin_bit end_bit
        stream).translate cub.hipCUDAErrorTohipError :=
  ⟨rfl, rfl, rfl, rfl, rfl, rfl, rfl, rfl⟩

end DeviceSegmentedRadixSort

end hipcub

namespace hipcub

namespace DeviceReduce

/-- C6 (divergence). The overload of `DeviceReduce::ArgMax` with the trailing
`debug_synchronous` never returns: for every back-end, every input, both values of the
flag and every amount of fuel the call runs out of fuel, because it calls itself with
the flag instead of the modern `ArgMax`. The overloads of `ArgMin`, `Min`, `Max`, `Sum`
and `Reduce` with the flag return what their modern overloads return. -/
theorem ArgMax_debug_synchronous_never_returns (rocprim : RocprimBackend) (T : ScalarType)
    (ops : thread_operators T.Val) (d_temp_storage : Option Nat) (temp_storage_bytes : Nat)
    (d_in : Nat → T.Val) (d_out : KeyValuePair Int T.Val) (d_out_value : T.Val)
    (num_items : Int) (reduction_op : T.Val → T.Val → T.Val) (init : T.Val)
    (stream : hipStream_t) (debug_synchronous : Bool) :
    (∀ fuel : Nat, ArgMax_debug_synchronous rocprim T ops fuel d_temp_storage
      temp_storage_bytes d_in d_out num_items stream debug_synchronous = none) ∧
    (ArgMin_debug_synchronous rocprim T ops d_temp_storage temp_storage_bytes d_in d_out
        num_items stream debug_synchronous).1 =
      ArgMin rocprim T ops d_temp_storage temp_storage_bytes d_in d_out num_items stream ∧
    (Min_debug_synchronous rocprim T ops d_temp_storage temp_storage_bytes d_in d_out_value
        num_items stream debug_synchronous).1 =
      Min rocprim T ops d_temp_storage temp_storage_bytes d_in d_out_value num_items
        stream ∧
    (Max_debug_synchronous rocprim T ops d_temp_storage temp_storage_bytes d_in d_out_value
        num_items stream debug_synchronous).1 =
      Max rocprim T ops d_temp_storage temp_storage_bytes d_in d_out_value num_items
        stream ∧
    (Sum_debug_synchronous rocprim T ops d_temp_storage temp_storage_bytes d_in d_out_value
        num_items stream debug_synchronous).1 =
      Sum rocprim T ops d_temp_storage temp_storage_bytes d_in d_out_value num_items
        stream ∧
    (Reduce_debug_synchronous rocprim d_temp_storage temp_storage_bytes d_in d_out_value
        num_items reduction_op init stream debug_synchronous).1 =
      Reduce rocprim d_temp_storage temp_storage_bytes d_in d_out_value num_items
        reduction_op init stream := by
  refine ⟨?_, rfl, rfl, rfl, rfl, rfl⟩
  intro fuel
  induction fuel with
  | zero => rfl
  | succ n ih => simp only [ArgMax_debug_synchronous, ih, Option.map_none']

/-- C10. Empty-input sentinel: for `num_items == 0` and every element type `T`,
`ArgMin` hands the reduction the initial pair `(1, get_max_value<T>())` and `ArgMax` the
pair `(1, get_lowest_value<T>())`, whatever the back-end is; on the modelled back-end
an executing call with enough temporary storage succeeds and leaves exactly that pair
in the output. -/
theorem ArgMin_ArgMax_empty_input (rocprim : RocprimBackend) (T : ScalarType)
    (ops : thread_operators T.Val) (d_temp_storage : Option Nat) (temp : Nat)
    (temp_storage_bytes : Nat) (d_in : Nat → T.Val) (d_out : KeyValuePair Int T.Val)
    (stream : hipStream_t) (required_bytes : Int → Nat)
    (hbytes : required_bytes 0 ≤ temp_storage_bytes) :
    ArgMin rocprim T ops d_temp_storage temp_storage_bytes d_in d_out 0 stream =
      Reduce rocprim d_temp_storage temp_storage_bytes
        (fun k => (⟨k, d_in k⟩ : KeyValuePair Int T.Val)) d_out 0 ops.ArgMin
        ⟨1, detail.get_max_value T⟩ stream ∧
    ArgMax rocprim T ops d_temp_storage temp_storage_bytes d_in d_out 0 stream =
      Reduce rocprim d_temp_storage temp_storage_bytes
        (fun k => (⟨k, d_in k⟩ : KeyValuePair Int T.Val)) d_out 0 ops.ArgMax
        ⟨1, detail.get_lowest_value T⟩ stream ∧
    ArgMin (rocprim_model required_bytes) T ops (some temp) temp_storage_bytes d_in d_out 0
        stream =
      ⟨hipError_t.hipSuccess, temp_storage_bytes, ⟨1, detail.get_max_value T⟩⟩ ∧
    ArgMax (rocprim_model required_bytes) T ops (some temp) temp_storage_bytes d_in d_out 0
        stream =
      ⟨hipError_t.hipSuccess, temp_storage_bytes, ⟨1, detail.get_lowest_value T⟩⟩ := by
  refine ⟨?_, ?_, ?_, ?_⟩
  · simp [ArgMin]
  · simp [ArgMax]
  · simp [ArgMin, Reduce, rocprim_model, rocprim_model.reduce, Nat.not_lt.mpr hbytes,
      Memory.read_range]
  · simp [ArgMax, Reduce, rocprim_model, rocprim_model.reduce, Nat.not_lt.mpr hbytes,
      Memory.read_range]

/-- Witness of C10: 32-bit signed integers, an empty input, one byte of temporary
storage required and given; the output, which held `(7, 7)`, holds `(1, 2147483647)`
after `ArgMin` and `(1, -2147483648)` after `ArgMax`. -/
theorem ArgMin_ArgMax_empty_input_witness :
    (ArgMin (rocprim_model (fun _ => 1)) (.integral true 32)
        ⟨fun a _ => a, fun a _ => a, fun a _ => a, fun a _ => a, fun a _ => a⟩ (some 0) 1
        (fun _ => 0) ⟨7, 7⟩ 0 0).out = ⟨1, 2147483647⟩ ∧
    (ArgMax (rocprim_model (fun _ => 1)) (.integral true 32)
        ⟨fun a _ => a, fun a _ => a, fun a _ => a, fun a _ => a, fun a _ => a⟩ (some 0) 1
        (fun _ => 0) ⟨7, 7⟩ 0 0).out = ⟨1, -2147483648⟩ ∧
    ArgMin (rocprim_model (fun _ => 1)) (.integral true 32)
        ⟨fun a _ => a, fun a _ => a, fun a _ => a, fun a _ => a, fun a _ => a⟩ (some 0) 1
        (fun _ => 0) ⟨7, 7⟩ 0 0 =
      ⟨hipError_t.hipSuccess, 1, ⟨1, detail.get_max_value (.integral true 32)⟩⟩ :=
  ⟨by decide, by decide,
    (ArgMin_ArgMax_empty_input (rocprim_model (fun _ => 1)) (.integral true 32)
      ⟨fun a _ => a, fun a _ => a, fun a _ => a, fun a _ => a, fun a _ => a⟩ (some 0) 0 1
      (fun _ => 0) ⟨7, 7⟩ 0 (fun _ => 1) (by decide)).2.2.1⟩

end DeviceReduce

end hipcub

namespace hipcub

namespace detail

/-- C12. 16-bit extremes: `get_max_value<__half>()` and `get_max_value<hip_bfloat16>()`
have the bit patterns `0x7bff` and `0x7f7f`: sign bit 0, exponent field all ones minus
one, mantissa all ones, in the 1-5-10 and the 1-8-7 format; `get_lowest_value` of each
format is the same pattern with the sign bit set (`0xfbff`, `0xff7f`); and
`set_half_bits` stores every 16-bit pattern with its low 8 bits in byte 0 and its high
8 bits in byte 1. -/
theorem half_extremes (value : Nat) (hv : value < 2 ^ 16) :
    (get_max_value .__half).bits = 0x7bff ∧
    sign_bit (get_max_value .__half).bits = 0 ∧
    exponent_field 5 10 (get_max_value .__half).bits = 2 ^ 5 - 1 - 1 ∧
    mantissa_field 10 (get_max_value .__half).bits = 2 ^ 10 - 1 ∧
    (get_max_value .hip_bfloat16).bits = 0x7f7f ∧
    sign_bit (get_max_value .hip_bfloat16).bits = 0 ∧
    exponent_field 8 7 (get_max_value .hip_bfloat16).bits = 2 ^ 8 - 1 - 1 ∧
    mantissa_field 7 (get_max_value .hip_bfloat16).bits = 2 ^ 7 - 1 ∧
    (get_lowest_value .__half).bits = 0xfbff ∧
    (get_lowest_value .__half).bits = (get_max_value .__half).bits + 2 ^ 15 ∧
    (get_lowest_value .hip_bfloat16).bits = 0xff7f ∧
    (get_lowest_value .hip_bfloat16).bits = (get_max_value .hip_bfloat16).bits + 2 ^ 15 ∧
    (set_half_bits value).byte0 = value % 2 ^ 8 ∧
    (set_half_bits value).byte1 = value / 2 ^ 8 ∧
    (set_half_bits value).bits = value := by
  have h1 : value % 2 ^ 16 = value := Nat.mod_eq_of_lt hv
  have h2 : value / 2 ^ 8 % 2 ^ 8 = value / 2 ^ 8 := by
    apply Nat.mod_eq_of_lt
    omega
  have hstore : (set_half_bits value).byte0 = value % 2 ^ 8 ∧
      (set_half_bits value).byte1 = value / 2 ^ 8 ∧ (set_half_bits value).bits = value := by
    simp only [set_half_bits, half_object.bits, h1, h2, true_and]
    omega
  repeat' first
    | exact hstore
    | apply And.intro
  all_goals decide

/-- Witness of C12: the pattern `0x7bff` is stored as the bytes `0xff`, `0x7b`. -/
theorem half_extremes_witness :
    0x7bff < 2 ^ 16 ∧ (set_half_bits 0x7bff).byte0 = 0xff ∧
      (set_half_bits 0x7bff).byte1 = 0x7b ∧ (set_half_bits 0x7bff).bits = 0x7bff :=
  ⟨by decide, (half_extremes 0x7bff (by decide)).2.2.2.2.2.2.2.2.2.2.2.2⟩

/-- C13. Special extremes: for `__half` and `hip_bfloat16`, `get_max_special_value` and
`get_lowest_special_value` are the patterns of positive and negative infinity
(`0x7c00` / `0xfc00` and `0x7f80` / `0xff80`: exponent field all ones, mantissa zero);
for every type that is not floating-point they are `get_max_value<T>()` and
`get_lowest_value<T>()`. -/
theorem special_extremes (T : ScalarType) (hT : T.is_floating_point = false) :
    (get_max_special_value .__half).bits = 0x7c00 ∧
    (get_lowest_special_value .__half).bits = 0xfc00 ∧
    (get_max_special_value .hip_bfloat16).bits = 0x7f80 ∧
    (get_lowest_special_value .hip_bfloat16).bits = 0xff80 ∧
    exponent_field 5 10 (get_max_special_value .__half).bits = 2 ^ 5 - 1 ∧
    mantissa_field 10 (get_max_special_value .__half).bits = 0 ∧
    sign_bit (get_max_special_value .__half).bits = 0 ∧
    exponent_field 5 10 (get_lowest_special_value .__half).bits = 2 ^ 5 - 1 ∧
    mantissa_field 10 (get_lowest_special_value .__half).bits = 0 ∧
    sign_bit (get_lowest_special_value .__half).bits = 1 ∧
    exponent_field 8 7 (get_max_special_value .hip_bfloat16).bits = 2 ^ 8 - 1 ∧
    mantissa_field 7 (get_max_special_value .hip_bfloat16).bits = 0 ∧
    sign_bit (get_max_special_value .hip_bfloat16).bits = 0 ∧
    exponent_field 8 7 (get_lowest_special_value .hip_bfloat16).bits = 2 ^ 8 - 1 ∧
    mantissa_field 7 (get_lowest_special_value .hip_bfloat16).bits = 0 ∧
    sign_bit (get_lowest_special_value .hip_bfloat16).bits = 1 ∧
    get_max_special_value T = get_max_value T ∧
    get_lowest_special_value T = get_lowest_value T := by
  have hintegral : get_max_special_value T = get_max_value T ∧
      get_lowest_special_value T = get_lowest_value T := by
    cases T with
    | integral is_signed bits =>
      simp [get_max_special_value, get_lowest_special_value, ScalarType.is_floating_point]
    | __half => simp [ScalarType.is_floating_point] at hT
    | hip_bfloat16 => simp [ScalarType.is_floating_point] at hT
    | float => simp [ScalarType.is_floating_point] at hT
    | double => simp [ScalarType.is_floating_point] at hT
  repeat' first
    | exact hintegral
    | apply And.intro
  all_goals decide

/-- Witness of C13: for the 32-bit signed integers the special extremes are
`2147483647` and `-2147483648`. -/
theorem special_extremes_witness :
    (ScalarType.integral true 32).is_floating_point = false ∧
      get_max_special_value (.integral true 32) = (2147483647 : Int) ∧
      get_lowest_special_value (.integral true 32) = (-2147483648 : Int) := by
  have h := (special_extremes (.integral true 32) rfl).2.2.2.2.2.2.2.2.2.2.2.2.2.2.2.2
  refine ⟨rfl, ?_, ?_⟩
  · rw [h.1]; decide
  · rw [h.2]; decide

end detail

end hipcub

theorem Memory.read_range_eq_map {α : Type} (m : Memory α) (n : Nat) :
    ∀ base : Nat, Memory.read_range m base n = (List.range n).map (fun i => m (base + i)) := by
  induction n with
  | zero => intro base; rfl
  | succ n ih =>
    intro base
    rw [Memory.read_range, ih (base + 1), List.range_succ_eq_map, List.map_cons, List.map_map]
    congr 1
    apply List.map_congr_left
    intro i _
    show m (base + 1 + i) = m (base + (i + 1))
    congr 1
    omega

theorem Memory.mem_read_range {α : Type} (m : Memory α) (n : Nat) (x : α) :
    x ∈ Memory.read_range m 0 n ↔ ∃ i, i < n ∧ m i = x := by
  rw [Memory.read_range_eq_map]
  simp [List.mem_map, List.mem_range]

theorem Memory.read_range_succ {α : Type} (m : Memory α) (n : Nat) :
    Memory.read_range m 0 (n + 1) = Memory.read_range m 0 n ++ [m n] := by
  rw [Memory.read_range_eq_map, Memory.read_range_eq_map, List.range_succ, List.map_append]
  simp

namespace hipcub

theorem foldl_Min (l : List Int) :
    ∀ a : Int, l.foldl integral_operators.Min a ≤ a ∧
      (∀ x ∈ l, l.foldl integral_operators.Min a ≤ x) ∧
      (l.foldl integral_operators.Min a = a ∨ l.foldl integral_operators.Min a ∈ l) := by
  induction l with
  | nil => intro a; simp
  | cons y ys ih =>
    intro a
    obtain ⟨h1, h2, h3⟩ := ih (integral_operators.Min a y)
    have hy : integral_operators.Min a y ≤ a ∧ integral_operators.Min a y ≤ y ∧
        (integral_operators.Min a y = a ∨ integral_operators.Min a y = y) := by
      show (if y < a then y else a) ≤ a ∧ (if y < a then y else a) ≤ y ∧
        ((if y < a then y else a) = a ∨ (if y < a then y else a) = y)
      split <;> omega
    rw [List.foldl_cons]
    refine ⟨le_trans h1 hy.1, ?_, ?_⟩
    · intro x hx
      rcases List.mem_cons.mp hx with rfl | hx
      · exact le_trans h1 hy.2.1
      · exact h2 x hx
    · rcases h3 with h | h
      · rcases hy.2.2 with h4 | h4
        · left; rw [h, h4]
        · right; rw [h, h4]; exact List.mem_cons_self _ _
      · right; exact List.mem_cons_of_mem _ h

theorem foldl_Max (l : List Int) :
    ∀ a : Int, a ≤ l.foldl integral_operators.Max a ∧
      (∀ x ∈ l, x ≤ l.foldl integral_operators.Max a) ∧
      (l.foldl integral_operators.Max a = a ∨ l.foldl integral_operators.Max a ∈ l) := by
  induction l with
  | nil => intro a; simp
  | cons y ys ih =>
    intro a
    obtain ⟨h1, h2, h3⟩ := ih (integral_operators.Max a y)
    have hy : a ≤ integral_operators.Max a y ∧ y ≤ integral_operators.Max a y ∧
        (integral_operators.Max a y = a ∨ integral_operators.Max a y = y) := by
      show a ≤ (if a < y then y else a) ∧ y ≤ (if a < y then y else a) ∧
        ((if a < y then y else a) = a ∨ (if a < y then y else a) = y)
      split <;> omega
    rw [List.foldl_cons]
    refine ⟨le_trans hy.1 h1, ?_, ?_⟩
    · intro x hx
      rcases List.mem_cons.mp hx with rfl | hx
      · exact le_trans hy.2.1 h1
      · exact h2 x hx
    · rcases h3 with h | h
      · rcases hy.2.2 with h4 | h4
        · left; rw [h, h4]
        · right; rw [h, h4]; exact List.mem_cons_self _ _
      · right; exact List.mem_cons_of_mem _ h

end hipcub

namespace hipcub

namespace DeviceReduce

/-- C14. Integer Min/Max identities: for every integer type `T` and every `x` of `T`,
`Min()(get_max_value<T>(), x) = x` and `Max()(get_lowest_value<T>(), x) = x`; an
executing `DeviceReduce::Min` (`Max`) on `n` values of `T` succeeds and leaves in the
output `max(T)` (`lowest(T)`) when `n = 0`, and otherwise an element of the input that
is less (greater) than or equal to every element of the input. -/
theorem Min_Max_integer (is_signed : Bool) (bits : Nat) (x : Int)
    (hx : in_range is_signed bits x) (required_bytes : Int → Nat) (temp : Nat)
    (temp_storage_bytes : Nat) (d_in : Nat → Int) (d_out : Int) (n : Nat)
    (stream : hipStream_t) (hin : ∀ i, i < n → in_range is_signed bits (d_in i))
    (hbytes : required_bytes n ≤ temp_storage_bytes) :
    integral_operators.Min (detail.get_max_value (.integral is_signed bits)) x = x ∧
    integral_operators.Max (detail.get_lowest_value (.integral is_signed bits)) x = x ∧
    (∃ r : Int,
      Min (rocprim_model required_bytes) (.integral is_signed bits) integral_operators
          (some temp) temp_storage_bytes d_in d_out n stream =
        ⟨hipError_t.hipSuccess, temp_storage_bytes, r⟩ ∧
      (n = 0 → r = detail.numeric_limits_max (.integral is_signed bits)) ∧
      (0 < n → (∃ k, k < n ∧ r = d_in k) ∧ ∀ j, j < n → r ≤ d_in j)) ∧
    (∃ r : Int,
      Max (rocprim_model required_bytes) (.integral is_signed bits) integral_operators
          (some temp) temp_storage_bytes d_in d_out n stream =
        ⟨hipError_t.hipSuccess, temp_storage_bytes, r⟩ ∧
      (n = 0 → r = detail.numeric_limits_lowest (.integral is_signed bits)) ∧
      (0 < n → (∃ k, k < n ∧ r = d_in k) ∧ ∀ j, j < n → d_in j ≤ r)) := by
  have hmax : detail.get_max_value (.integral is_signed bits) =
      detail.numeric_limits_max (.integral is_signed bits) := rfl
  have hlow : detail.get_lowest_value (.integral is_signed bits) =
      detail.numeric_limits_lowest (.integral is_signed bits) := rfl
  refine ⟨?_, ?_, ?_, ?_⟩
  · rw [hmax]
    show (if x < _ then x else _) = x
    have := hx.2
    split <;> omega
  · rw [hlow]
    show (if _ < x then x else _) = x
    have := hx.1
    split <;> omega
  · refine ⟨(Memory.read_range d_in 0 n).foldl integral_operators.Min
      (detail.numeric_limits_max (.integral is_signed bits)), ?_, ?_, ?_⟩
    · simp [Min, Reduce, rocprim_model, rocprim_model.reduce, Nat.not_lt.mpr hbytes, hmax]
    · rintro rfl; rfl
    · intro hn
      obtain ⟨h1, h2, h3⟩ := foldl_Min (Memory.read_range d_in 0 n)
        (detail.numeric_limits_max (.integral is_signed bits))
      have hall : ∀ j, j < n → (Memory.read_range d_in 0 n).foldl integral_operators.Min
          (detail.numeric_limits_max (.integral is_signed bits)) ≤ d_in j :=
        fun j hj => h2 _ ((Memory.mem_read_range d_in n _).mpr ⟨j, hj, rfl⟩)
      refine ⟨?_, hall⟩
      rcases h3 with h | h
      · refine ⟨0, hn, ?_⟩
        have ha := hall 0 hn
        have hb := (hin 0 hn).2
        rw [h] at ha ⊢
        omega
      · obtain ⟨k, hk, hke⟩ := (Memory.mem_read_range d_in n _).mp h
        exact ⟨k, hk, hke.symm⟩
  · refine ⟨(Memory.read_range d_in 0 n).foldl integral_operators.Max
      (detail.numeric_limits_lowest (.integral is_signed bits)), ?_, ?_, ?_⟩
    · simp [Max, Reduce, rocprim_model, rocprim_model.reduce, Nat.not_lt.mpr hbytes, hlow]
    · rintro rfl; rfl
    · intro hn
      obtain ⟨h1, h2, h3⟩ := foldl_Max (Memory.read_range d_in 0 n)
        (detail.numeric_limits_lowest (.integral is_signed bits))
      have hall : ∀ j, j < n → d_in j ≤
          (Memory.read_range d_in 0 n).foldl integral_operators.Max
            (detail.numeric_limits_lowest (.integral is_signed bits)) :=
        fun j hj => h2 _ ((Memory.mem_read_range d_in n _).mpr ⟨j, hj, rfl⟩)
      refine ⟨?_, hall⟩
      rcases h3 with h | h
      · refine ⟨0, hn, ?_⟩
        have ha := hall 0 hn
        have hb := (hin 0 hn).1
        rw [h] at ha ⊢
        omega
      · obtain ⟨k, hk, hke⟩ := (Memory.mem_read_range d_in n _).mp h
        exact ⟨k, hk, hke.symm⟩

end DeviceReduce

end hipcub

namespace hipcub

namespace DeviceReduce

/-- Witness of C14: 32-bit signed integers, the input `[3, -7, 9]`, one byte of
temporary storage required and given: `Min` leaves `-7` and `Max` leaves `9`. -/
theorem Min_Max_integer_witness :
    in_range true 32 5 ∧
    integral_operators.Min (detail.get_max_value (.integral true 32)) 5 = 5 ∧
    (Min (rocprim_model (fun _ => 1)) (.integral true 32) integral_operators (some 0) 1
        (fun i => if i = 0 then 3 else if i = 1 then -7 else 9) 0 3 0).out = -7 ∧
    (Max (rocprim_model (fun _ => 1)) (.integral true 32) integral_operators (some 0) 1
        (fun i => if i = 0 then 3 else if i = 1 then -7 else 9) 0 3 0).out = 9 := by
  have hx : in_range true 32 5 := by unfold in_range; decide
  have h := Min_Max_integer true 32 5 hx (fun _ => 1) 0 1
    (fun i => if i = 0 then 3 else if i = 1 then -7 else 9) 0 3 0
    (by
      intro i hi
      unfold in_range
      interval_cases i <;> decide)
    (by decide)
  exact ⟨hx, h.1, by decide, by decide⟩

end DeviceReduce

theorem foldl_ArgMin (d_in : Nat → Int) (M : Int) (n : Nat) :
    (∀ i, i < n + 1 → d_in i ≤ M) →
    ∃ k, k < n + 1 ∧
      (Memory.read_range (fun k => (⟨(k : Int), d_in k⟩ : KeyValuePair Int Int)) 0
        (n + 1)).foldl integral_operators.ArgMin ⟨1, M⟩ = ⟨(k : Int), d_in k⟩ ∧
      (∀ j, j < n + 1 → d_in k ≤ d_in j) ∧ ∀ j, j < k → d_in k < d_in j := by
  induction n with
  | zero =>
    intro h
    refine ⟨0, by omega, ?_, ?_, ?_⟩
    · have h0 := h 0 (by omega)
      simp only [Memory.read_range, List.foldl_cons, List.foldl_nil, integral_operators]
      have hc : d_in 0 < M ∨ M = d_in 0 ∧ ((0 : Nat) : Int) < 1 := by
        rcases lt_or_eq_of_le h0 with h1 | h1
        · exact Or.inl h1
        · exact Or.inr ⟨h1.symm, by decide⟩
      rw [if_pos hc]
    · intro j hj
      have : j = 0 := by omega
      rw [this]
    · intro j hj
      omega
  | succ n ih =>
    intro h
    obtain ⟨k, hk, hfold, hall, hfirst⟩ := ih (fun i hi => h i (by omega))
    rw [Memory.read_range_succ, List.foldl_append, hfold]
    simp only [List.foldl_cons, List.foldl_nil, integral_operators]
    by_cases hlt : d_in (n + 1) < d_in k
    · refine ⟨n + 1, by omega, ?_, ?_, ?_⟩
      · rw [if_pos (Or.inl hlt)]
      · intro j hj
        rcases Nat.lt_succ_iff_lt_or_eq.mp hj with h1 | h1
        · exact le_of_lt (lt_of_lt_of_le hlt (hall j h1))
        · rw [h1]
      · intro j hj
        exact lt_of_lt_of_le hlt (hall j hj)
    · refine ⟨k, by omega, ?_, ?_, ?_⟩
      · rw [if_neg]
        rintro (h1 | ⟨_, h2⟩)
        · exact hlt h1
        · have h3 : ((n + 1 : Nat) : Int) < (k : Int) := h2
          omega
      · intro j hj
        rcases Nat.lt_succ_iff_lt_or_eq.mp hj with h1 | h1
        · exact hall j h1
        · rw [h1]; exact not_lt.mp hlt
      · exact hfirst

theorem foldl_ArgMax (d_in : Nat → Int) (M : Int) (n : Nat) :
    (∀ i, i < n + 1 → M ≤ d_in i) →
    ∃ k, k < n + 1 ∧
      (Memory.read_range (fun k => (⟨(k : Int), d_in k⟩ : KeyValuePair Int Int)) 0
        (n + 1)).foldl integral_operators.ArgMax ⟨1, M⟩ = ⟨(k : Int), d_in k⟩ ∧
      (∀ j, j < n + 1 → d_in j ≤ d_in k) ∧ ∀ j, j < k → d_in j < d_in k := by
  induction n with
  | zero =>
    intro h
    refine ⟨0, by omega, ?_, ?_, ?_⟩
    · have h0 := h 0 (by omega)
      simp only [Memory.read_range, List.foldl_cons, List.foldl_nil, integral_operators]
      have hc : M < d_in 0 ∨ M = d_in 0 ∧ ((0 : Nat) : Int) < 1 := by
        rcases lt_or_eq_of_le h0 with h1 | h1
        · exact Or.inl h1
        · exact Or.inr ⟨h1, by decide⟩
      rw [if_pos hc]
    · intro j hj
      have : j = 0 := by omega
      rw [this]
    · intro j hj
      omega
  | succ n ih =>
    intro h
    obtain ⟨k, hk, hfold, hall, hfirst⟩ := ih (fun i hi => h i (by omega))
    rw [Memory.read_range_succ, List.foldl_append, hfold]
    simp only [List.foldl_cons, List.foldl_nil, integral_operators]
    by_cases hlt : d_in k < d_in (n + 1)
    · refine ⟨n + 1, by omega, ?_, ?_, ?_⟩
      · rw [if_pos (Or.inl hlt)]
      · intro j hj
        rcases Nat.lt_succ_iff_lt_or_eq.mp hj with h1 | h1
        · exact le_of_lt (lt_of_le_of_lt (hall j h1) hlt)
        · rw [h1]
      · intro j hj
        exact lt_of_le_of_lt (hall j hj) hlt
    · refine ⟨k, by omega, ?_, ?_, ?_⟩
      · rw [if_neg]
        rintro (h1 | ⟨_, h2⟩)
        · exact hlt h1
        · have h3 : ((n + 1 : Nat) : Int) < (k : Int) := h2
          omega
      · intro j hj
        rcases Nat.lt_succ_iff_lt_or_eq.mp hj with h1 | h1
        · exact hall j h1
        · rw [h1]; exact not_lt.mp hlt
      · exact hfirst

end hipcub

namespace hipcub

namespace DeviceReduce

/-- C11. Non-empty arg-min/arg-max: for every non-empty input of an integer type `T`, an
executing `DeviceReduce::ArgMin` succeeds and leaves `(k, in[k])` in the output, with
`k` the smallest index of a minimum of the input; that pair is never the initial pair
`(1, max_special(T))`, and `k = 0` when every element equals `max(T)`. Symmetrically
for `ArgMax`, the maximum and `(1, lowest_special(T))`. -/
theorem ArgMin_ArgMax_nonempty (is_signed : Bool) (bits : Nat) (required_bytes : Int → Nat)
    (temp : Nat) (temp_storage_bytes : Nat) (d_in : Nat → Int) (d_out : KeyValuePair Int Int)
    (n : Nat) (stream : hipStream_t) (hn : 0 < n)
    (hin : ∀ i, i < n → in_range is_signed bits (d_in i))
    (hbytes : required_bytes n ≤ temp_storage_bytes) :
    (∃ k, k < n ∧
      ArgMin (rocprim_model required_bytes) (.integral is_signed bits) integral_operators
          (some temp) temp_storage_bytes d_in d_out n stream =
        ⟨hipError_t.hipSuccess, temp_storage_bytes, ⟨(k : Int), d_in k⟩⟩ ∧
      (∀ j, j < n → d_in k ≤ d_in j) ∧ (∀ j, j < k → d_in k < d_in j) ∧
      (⟨(k : Int), d_in k⟩ : KeyValuePair Int Int) ≠
        ⟨1, detail.get_max_special_value (.integral is_signed bits)⟩ ∧
      ((∀ i, i < n → d_in i = detail.numeric_limits_max (.integral is_signed bits)) →
        k = 0)) ∧
    (∃ k, k < n ∧
      ArgMax (rocprim_model required_bytes) (.integral is_signed bits) integral_operators
          (some temp) temp_storage_bytes d_in d_out n stream =
        ⟨hipError_t.hipSuccess, temp_storage_bytes, ⟨(k : Int), d_in k⟩⟩ ∧
      (∀ j, j < n → d_in j ≤ d_in k) ∧ (∀ j, j < k → d_in j < d_in k) ∧
      (⟨(k : Int), d_in k⟩ : KeyValuePair Int Int) ≠
        ⟨1, detail.get_lowest_special_value (.integral is_signed bits)⟩ ∧
      ((∀ i, i < n → d_in i = detail.numeric_limits_lowest (.integral is_signed bits)) →
        k = 0)) := by
  obtain ⟨m, rfl⟩ : ∃ m, n = m + 1 := ⟨n - 1, by omega⟩
  have hmax : detail.get_max_special_value (.integral is_signed bits) =
      detail.numeric_limits_max (.integral is_signed bits) := rfl
  have hlow : detail.get_lowest_special_value (.integral is_signed bits) =
      detail.numeric_limits_lowest (.integral is_signed bits) := rfl
  have hpos : ((m + 1 : Nat) : Int) > 0 := by omega
  constructor
  · obtain ⟨k, hk, hfold, hall, hfirst⟩ := foldl_ArgMin d_in
      (detail.numeric_limits_max (.integral is_signed bits)) m (fun i hi => (hin i hi).2)
    refine ⟨k, hk, ?_, hall, hfirst, ?_, ?_⟩
    · simp only [ArgMin, Reduce, rocprim_model, rocprim_model.reduce,
        if_neg (Nat.not_lt.mpr hbytes), if_pos hpos, Int.toNat_ofNat, hmax]
      rw [hfold]
    · rw [hmax]
      intro heq
      injection heq with h1 h2
      have hk1 : k = 1 := by omega
      subst hk1
      have h3 := hfirst 0 (by omega)
      have h4 := (hin 0 (by omega)).2
      omega
    · intro hconst
      by_contra hk0
      have h3 := hfirst 0 (by omega)
      rw [hconst k hk, hconst 0 (by omega)] at h3
      exact lt_irrefl _ h3
  · obtain ⟨k, hk, hfold, hall, hfirst⟩ := foldl_ArgMax d_in
      (detail.numeric_limits_lowest (.integral is_signed bits)) m (fun i hi => (hin i hi).1)
    refine ⟨k, hk, ?_, hall, hfirst, ?_, ?_⟩
    · simp only [ArgMax, Reduce, rocprim_model, rocprim_model.reduce,
        if_neg (Nat.not_lt.mpr hbytes), if_pos hpos, Int.toNat_ofNat, hlow]
      rw [hfold]
    · rw [hlow]
      intro heq
      injection heq with h1 h2
      have hk1 : k = 1 := by omega
      subst hk1
      have h3 := hfirst 0 (by omega)
      have h4 := (hin 0 (by omega)).1
      omega
    · intro hconst
      by_contra hk0
      have h3 := hfirst 0 (by omega)
      rw [hconst k hk, hconst 0 (by omega)] at h3
      exact lt_irrefl _ h3

/-- Witness of C11: 8-bit unsigned integers, the input `[255, 255, 255]` (every element
is `max(T)`): `ArgMin` leaves `(0, 255)`; on `[4, 9, 9]` `ArgMax` leaves `(1, 9)`. -/
theorem ArgMin_ArgMax_nonempty_witness :
    (ArgMin (rocprim_model (fun _ => 1)) (.integral false 8) integral_operators (some 0) 1
        (fun _ => 255) ⟨7, 7⟩ 3 0).out = ⟨0, 255⟩ ∧
    (ArgMax (rocprim_model (fun _ => 1)) (.integral false 8) integral_operators (some 0) 1
        (fun i => if i = 0 then 4 else 9) ⟨7, 7⟩ 3 0).out = ⟨1, 9⟩ ∧
    ∃ k : Nat, k < 3 ∧
      ArgMin (rocprim_model (fun _ => 1)) (.integral false 8) integral_operators (some 0) 1
          (fun _ => 255) ⟨7, 7⟩ ((3 : Nat) : Int) 0 =
        ⟨hipError_t.hipSuccess, 1, ⟨(k : Int), 255⟩⟩ := by
  obtain ⟨k, hk, h, _⟩ := (ArgMin_ArgMax_nonempty false 8 (fun _ => 1) 0 1 (fun _ => 255)
    ⟨7, 7⟩ 3 0 (by decide) (fun _ _ => (by decide : in_range false 8 255)) (by decide)).1
  exact ⟨by decide, by decide, k, hk, h⟩

end DeviceReduce

end hipcub

namespace thrust

theorem strict_weak_ordering.asymm {α : Type} {pred : α → α → Bool}
    (h : strict_weak_ordering pred) (a b : α) (hab : pred a b = true) : pred b a = false := by
  cases hba : pred b a with
  | false => rfl
  | true =>
    have := h.2.1 a b a hab hba
    simp [h.1 a] at this

theorem strict_weak_ordering.neg_trans {α : Type} {pred : α → α → Bool}
    (h : strict_weak_ordering pred) (a b c : α) (hab : pred a b = false)
    (hbc : pred b c = false) : pred a c = false := by
  cases hba : pred b a with
  | true =>
    cases hac : pred a c with
    | false => rfl
    | true => rw [h.2.1 b a c hba hac] at hbc; exact hbc
  | false =>
    cases hcb : pred c b with
    | true =>
      cases hac : pred a c with
      | false => rfl
      | true => rw [h.2.1 a c b hac hcb] at hab; exact hab
    | false => exact (h.2.2 a b c hab hba hbc hcb).1

namespace hip_rocprim

theorem fold_left_append_singleton {T : Type} (op : T → T → T) (l : List T) (a y : T)
    (h : fold_left op l = some a) : fold_left op (l ++ [y]) = some (op a y) := by
  cases l with
  | nil => simp [fold_left] at h
  | cons x xs =>
    simp only [fold_left, Option.some.injEq] at h
    simp [fold_left, List.foldl_append, h]

open __extrema in
theorem fold_left_arg_min_f {α : Type} (pred : α → α → Bool) (h : strict_weak_ordering pred)
    (v : Nat → α) (n : Nat) :
    ∃ k, k < n + 1 ∧
      fold_left (arg_min_f pred) (Memory.read_range (fun i => (v i, (i : Int))) 0 (n + 1)) =
        some (v k, (k : Int)) ∧
      (∀ j, j < n + 1 → pred (v j) (v k) = false) ∧
      ∀ j, j < k → pred (v k) (v j) = true := by
  induction n with
  | zero =>
    refine ⟨0, by omega, rfl, ?_, ?_⟩
    · intro j hj
      have : j = 0 := by omega
      rw [this]; exact h.1 _
    · intro j hj; omega
  | succ n ih =>
    obtain ⟨k, hk, hfold, hall, hfirst⟩ := ih
    rw [Memory.read_range_succ, fold_left_append_singleton _ _ _ _ hfold]
    by_cases h1 : pred (v k) (v (n + 1)) = true
    · refine ⟨k, by omega, ?_, ?_, hfirst⟩
      · simp [arg_min_f, h1]
      · intro j hj
        rcases Nat.lt_succ_iff_lt_or_eq.mp hj with h2 | h2
        · exact hall j h2
        · rw [h2]; exact h.asymm _ _ h1
    · have h1f : pred (v k) (v (n + 1)) = false := by simpa using h1
      by_cases h2 : pred (v (n + 1)) (v k) = true
      · refine ⟨n + 1, by omega, ?_, ?_, ?_⟩
        · simp [arg_min_f, h1f, h2]
        · intro j hj
          rcases Nat.lt_succ_iff_lt_or_eq.mp hj with h3 | h3
          · cases hc : pred (v j) (v (n + 1)) with
            | false => rfl
            | true =>
              have hx := hall j h3
              rw [h.2.1 _ _ _ hc h2] at hx
              exact hx
          · rw [h3]; exact h.1 _
        · intro j hj
          cases hc : pred (v (n + 1)) (v j) with
          | true => rfl
          | false =>
            have := h.neg_trans _ _ _ hc (hall j (by omega))
            simp [h2] at this
      · have h2f : pred (v (n + 1)) (v k) = false := by simpa using h2
        refine ⟨k, by omega, ?_, ?_, hfirst⟩
        · have hlt : (k : Int) < (n : Int) + 1 := by omega
          simp [arg_min_f, h1f, h2f, hlt]
        · intro j hj
          rcases Nat.lt_succ_iff_lt_or_eq.mp hj with h3 | h3
          · exact hall j h3
          · rw [h3]; exact h2f

open __extrema in
theorem fold_left_arg_max_f {α : Type} (pred : α → α → Bool) (h : strict_weak_ordering pred)
    (v : Nat → α) (n : Nat) :
    ∃ k, k < n + 1 ∧
      fold_left (arg_max_f pred) (Memory.read_range (fun i => (v i, (i : Int))) 0 (n + 1)) =
        some (v k, (k : Int)) ∧
      (∀ j, j < n + 1 → pred (v k) (v j) = false) ∧
      ∀ j, j < k → pred (v j) (v k) = true := by
  induction n with
  | zero =>
    refine ⟨0, by omega, rfl, ?_, ?_⟩
    · intro j hj
      have : j = 0 := by omega
      rw [this]; exact h.1 _
    · intro j hj; omega
  | succ n ih =>
    obtain ⟨k, hk, hfold, hall, hfirst⟩ := ih
    rw [Memory.read_range_succ, fold_left_append_singleton _ _ _ _ hfold]
    by_cases h1 : pred (v k) (v (n + 1)) = true
    · refine ⟨n + 1, by omega, ?_, ?_, ?_⟩
      · simp [arg_max_f, h1]
      · intro j hj
        rcases Nat.lt_succ_iff_lt_or_eq.mp hj with h3 | h3
        · cases hc : pred (v (n + 1)) (v j) with
          | false => rfl
          | true =>
            have hx := hall j h3
            rw [h.2.1 _ _ _ h1 hc] at hx
            exact hx
        · rw [h3]; exact h.1 _
      · intro j hj
        cases hc : pred (v j) (v (n + 1)) with
        | true => rfl
        | false =>
          have := h.neg_trans _ _ _ (hall j (by omega)) hc
          simp [h1] at this
    · have h1f : pred (v k) (v (n + 1)) = false := by simpa using h1
      by_cases h2 : pred (v (n + 1)) (v k) = true
      · refine ⟨k, by omega, ?_, ?_, hfirst⟩
        · simp [arg_max_f, h1f, h2]
        · intro j hj
          rcases Nat.lt_succ_iff_lt_or_eq.mp hj with h3 | h3
          · exact hall j h3
          · rw [h3]; exact h1f
      · have h2f : pred (v (n + 1)) (v k) = false := by simpa using h2
        refine ⟨k, by omega, ?_, ?_, hfirst⟩
        · have hlt : (k : Int) < (n : Int) + 1 := by omega
          simp [arg_max_f, h1f, h2f, hlt]
        · intro j hj
          rcases Nat.lt_succ_iff_lt_or_eq.mp hj with h3 | h3
          · exact hall j h3
          · rw [h3]; exact h1f

end hip_rocprim

end thrust

namespace thrust

namespace hip_rocprim

theorem extrema_backend_model {T : Type} (required_bytes : Int → Nat)
    (result_bytes storage : Nat) (u : T) (first : Nat → T) (n : Nat) (op : T → T → T) (r : T)
    (h : fold_left op (Memory.read_range first 0 (n + 1)) = some r) :
    (__extrema.extrema (backend_model required_bytes result_bytes storage u) first
      ((n + 1 : Nat) : Int) op).2 = .ok r := by
  have hne : ((n + 1 : Nat) : Int) ≠ 0 := by omega
  simp only [__extrema.extrema, backend_model, if_neg hne, ne_eq, not_true_eq_false,
    if_false, lt_irrefl, Option.bind_some, Int.toNat_ofNat, h, Option.getD_some,
    Option.some_bind]

theorem element_backend_model {α : Type}
    (ArgFunctor : (α → α → Bool) → α × Int → α × Int → α × Int)
    (required_bytes : Int → Nat) (result_bytes storage : Nat) (u : α × Int) (v : Nat → α)
    (n : Nat) (first : Int) (pred : α → α → Bool) (r : α × Int)
    (h : fold_left (ArgFunctor pred)
      (Memory.read_range (fun i => (v i, (i : Int))) 0 (n + 1)) = some r) :
    (__extrema.element ArgFunctor (backend_model required_bytes result_bytes storage u)
      (fun p => v (p - first).toNat) first (first + ((n + 1 : Nat) : Int)) pred).2 =
      .ok (first + r.2) := by
  have hne : first ≠ first + ((n + 1 : Nat) : Int) := by omega
  have hnum : first + ((n + 1 : Nat) : Int) - first = ((n + 1 : Nat) : Int) := by omega
  have hbegin : (fun i : Nat => (v (first + (i : Int) - first).toNat, (i : Int))) =
      fun i : Nat => (v i, (i : Int)) := by
    funext i
    have : (first + (i : Int) - first).toNat = i := by omega
    rw [this]
  have hx := extrema_backend_model required_bytes result_bytes storage u _ n _ r h
  simp only [__extrema.element, if_neg hne, hnum, hbegin]
  rcases hext : __extrema.extrema (backend_model required_bytes result_bytes storage u)
    (fun i : Nat => (v i, (i : Int))) ((n + 1 : Nat) : Int) (ArgFunctor pred) with ⟨calls, res⟩
  rw [hext] at hx
  simp only at hx
  subst hx
  rfl

end hip_rocprim

end thrust

namespace thrust

theorem strict_weak_ordering_lt :
    strict_weak_ordering (fun a b : Nat => decide (a < b)) := by
  refine ⟨?_, ?_, ?_⟩
  · intro a; simp
  · intro a b c; simp only [decide_eq_true_eq]; omega
  · intro a b c; simp only [decide_eq_false_iff_not]; omega

namespace hip_rocprim

open __extrema in
theorem fold_left_arg_minmax_f {α : Type} (pred : α → α → Bool) (f : Nat → α × Int) (n : Nat) :
    ∃ a b, fold_left (arg_min_f pred) (Memory.read_range f 0 (n + 1)) = some a ∧
      fold_left (arg_max_f pred) (Memory.read_range f 0 (n + 1)) = some b ∧
      fold_left (arg_minmax_f pred)
        (Memory.read_range (fun i => duplicate_tuple (f i)) 0 (n + 1)) = some (a, b) := by
  induction n with
  | zero => exact ⟨f 0, f 0, rfl, rfl, rfl⟩
  | succ n ih =>
    obtain ⟨a, b, ha, hb, hab⟩ := ih
    refine ⟨arg_min_f pred a (f (n + 1)), arg_max_f pred b (f (n + 1)), ?_, ?_, ?_⟩
    · rw [Memory.read_range_succ, fold_left_append_singleton _ _ _ _ ha]
    · rw [Memory.read_range_succ, fold_left_append_singleton _ _ _ _ hb]
    · rw [Memory.read_range_succ, fold_left_append_singleton _ _ _ _ hab]
      rfl

theorem minmax_element_backend_model {α : Type} (required_bytes : Int → Nat)
    (result_bytes storage : Nat) (u : (α × Int) × (α × Int)) (v : Nat → α) (n : Nat)
    (first : Int) (pred : α → α → Bool) (a b : α × Int)
    (ha : fold_left (__extrema.arg_min_f pred)
      (Memory.read_range (fun i => (v i, (i : Int))) 0 (n + 1)) = some a)
    (hb : fold_left (__extrema.arg_max_f pred)
      (Memory.read_range (fun i => (v i, (i : Int))) 0 (n + 1)) = some b) :
    (minmax_element (backend_model required_bytes result_bytes storage u)
      (fun p => v (p - first).toNat) first (first + ((n + 1 : Nat) : Int)) pred).2 =
      .ok (first + a.2, first + b.2) := by
  have hne : first ≠ first + ((n + 1 : Nat) : Int) := by omega
  have hnum : first + ((n + 1 : Nat) : Int) - first = ((n + 1 : Nat) : Int) := by omega
  have hbegin : (fun i : Nat => __extrema.duplicate_tuple
      (v (first + (i : Int) - first).toNat, (i : Int))) =
      fun i : Nat => __extrema.duplicate_tuple (v i, (i : Int)) := by
    funext i
    have : (first + (i : Int) - first).toNat = i := by omega
    rw [this]
  obtain ⟨a', b', ha', hb', hab⟩ := fold_left_arg_minmax_f pred (fun i => (v i, (i : Int))) n
  rw [ha] at ha'
  rw [hb] at hb'
  cases ha'
  cases hb'
  have hx := extrema_backend_model required_bytes result_bytes storage u _ n _ _ hab
  simp only [minmax_element, if_neg hne, hnum, hbegin]
  rcases hext : __extrema.extrema (backend_model required_bytes result_bytes storage u)
    (fun i : Nat => __extrema.duplicate_tuple (v i, (i : Int))) ((n + 1 : Nat) : Int)
    (__extrema.arg_minmax_f pred) with ⟨calls, res⟩
  rw [hext] at hx
  simp only at hx
  subst hx
  rfl

/-- C15. First minimum: for every non-empty sequence `v` and every strict weak ordering
`pred`, folding `arg_min_f(pred)` from the left over the pairs `(v[i], i)`,
`i = 0..n-1`, yields `(v[k], k)` with `k` the smallest index such that
`pred(v[j], v[k])` holds for no `j`; and `min_element` on the range of these items
returns `first + k` (on the modelled back-end). -/
theorem min_element_first_minimum {α : Type} (pred : α → α → Bool)
    (hpred : strict_weak_ordering pred) (v : Nat → α) (n : Nat) (hn : 0 < n) (first : Int)
    (required_bytes : Int → Nat) (result_bytes storage : Nat) (u : α × Int) :
    ∃ k, k < n ∧
      fold_left (__extrema.arg_min_f pred)
        (Memory.read_range (fun i => (v i, (i : Int))) 0 n) = some (v k, (k : Int)) ∧
      (∀ j, j < n → pred (v j) (v k) = false) ∧
      (∀ k', k' < k → ∃ j, j < n ∧ pred (v j) (v k') = true) ∧
      (min_element (backend_model required_bytes result_bytes storage u)
        (fun p => v (p - first).toNat) first (first + (n : Int)) pred).2 =
        .ok (first + (k : Int)) := by
  obtain ⟨m, rfl⟩ : ∃ m, n = m + 1 := ⟨n - 1, by omega⟩
  obtain ⟨k, hk, hfold, hall, hfirst⟩ := fold_left_arg_min_f pred hpred v m
  exact ⟨k, hk, hfold, hall, fun k' hk' => ⟨k, hk, hfirst k' hk'⟩,
    element_backend_model __extrema.arg_min_f required_bytes result_bytes storage u v m first
      pred _ hfold⟩

/-- C16. First maximum: for every non-empty sequence `v` and every strict weak ordering
`pred`, folding `arg_max_f(pred)` from the left over the pairs `(v[i], i)` yields
`(v[k], k)` with `k` the smallest index such that `pred(v[k], v[j])` holds for no `j`;
`max_element` returns `first + k`, and `minmax_element` returns the pair of the first
minimum and the first maximum (on the modelled back-end). -/
theorem max_element_first_maximum {α : Type} (pred : α → α → Bool)
    (hpred : strict_weak_ordering pred) (v : Nat → α) (n : Nat) (hn : 0 < n) (first : Int)
    (required_bytes : Int → Nat) (result_bytes storage : Nat) (u : α × Int)
    (u2 : (α × Int) × (α × Int)) :
    ∃ k, k < n ∧
      fold_left (__extrema.arg_max_f pred)
        (Memory.read_range (fun i => (v i, (i : Int))) 0 n) = some (v k, (k : Int)) ∧
      (∀ j, j < n → pred (v k) (v j) = false) ∧
      (∀ k', k' < k → ∃ j, j < n ∧ pred (v k') (v j) = true) ∧
      (max_element (backend_model required_bytes result_bytes storage u)
        (fun p => v (p - first).toNat) first (first + (n : Int)) pred).2 =
        .ok (first + (k : Int)) ∧
      ∃ kmin, kmin < n ∧ (∀ j, j < n → pred (v j) (v kmin) = false) ∧
        (∀ k', k' < kmin → ∃ j, j < n ∧ pred (v j) (v k') = true) ∧
        (minmax_element (backend_model required_bytes result_bytes storage u2)
          (fun p => v (p - first).toNat) first (first + (n : Int)) pred).2 =
          .ok (first + (kmin : Int), first + (k : Int)) := by
  obtain ⟨m, rfl⟩ : ∃ m, n = m + 1 := ⟨n - 1, by omega⟩
  obtain ⟨k, hk, hfold, hall, hfirst⟩ := fold_left_arg_max_f pred hpred v m
  obtain ⟨kmin, hkmin, hfoldmin, hallmin, hfirstmin⟩ := fold_left_arg_min_f pred hpred v m
  exact ⟨k, hk, hfold, hall, fun k' hk' => ⟨k, hk, hfirst k' hk'⟩,
    element_backend_model __extrema.arg_max_f required_bytes result_bytes storage u v m first
      pred _ hfold,
    kmin, hkmin, hallmin, fun k' hk' => ⟨kmin, hkmin, hfirstmin k' hk'⟩,
    minmax_element_backend_model required_bytes result_bytes storage u2 v m first pred _ _
      hfoldmin hfold⟩

end hip_rocprim

end thrust

namespace thrust

namespace hip_rocprim

/-- Witness of C15: the values `[3, 1, 4, 1, 5]` at the positions 10 to 14 under `<`:
`min_element` returns position 11. -/
theorem min_element_first_minimum_witness :
    strict_weak_ordering (fun a b : Nat => decide (a < b)) ∧ 0 < 5 ∧
    (min_element (backend_model (fun _ => 1) 1 0 (0, 0))
      (fun p => [3, 1, 4, 1, 5].getD (p - 10).toNat 0) 10 15
      (fun a b : Nat => decide (a < b))).2 = .ok 11 ∧
    ∃ k, k < 5 ∧
      fold_left (__extrema.arg_min_f (fun a b : Nat => decide (a < b)))
        (Memory.read_range (fun i => ([3, 1, 4, 1, 5].getD i 0, (i : Int))) 0 5) =
        some ([3, 1, 4, 1, 5].getD k 0, (k : Int)) := by
  obtain ⟨k, hk, hfold, _⟩ := min_element_first_minimum (fun a b : Nat => decide (a < b))
    strict_weak_ordering_lt (fun i => [3, 1, 4, 1, 5].getD i 0) 5 (by decide) 10
    (fun _ => 1) 1 0 (0, 0)
  exact ⟨strict_weak_ordering_lt, by decide, rfl, k, hk, hfold⟩

/-- Witness of C16: the values `[3, 1, 5, 1, 5]` at the positions 10 to 14 under `<`:
`max_element` returns position 12 and `minmax_element` the positions 11 and 12. -/
theorem max_element_first_maximum_witness :
    strict_weak_ordering (fun a b : Nat => decide (a < b)) ∧ 0 < 5 ∧
    (max_element (backend_model (fun _ => 1) 1 0 (0, 0))
      (fun p => [3, 1, 5, 1, 5].getD (p - 10).toNat 0) 10 15
      (fun a b : Nat => decide (a < b))).2 = .ok 12 ∧
    (minmax_element (backend_model (fun _ => 1) 1 0 ((0, 0), (0, 0)))
      (fun p => [3, 1, 5, 1, 5].getD (p - 10).toNat 0) 10 15
      (fun a b : Nat => decide (a < b))).2 = .ok (11, 12) ∧
    ∃ k, k < 5 ∧
      fold_left (__extrema.arg_max_f (fun a b : Nat => decide (a < b)))
        (Memory.read_range (fun i => ([3, 1, 5, 1, 5].getD i 0, (i : Int))) 0 5) =
        some ([3, 1, 5, 1, 5].getD k 0, (k : Int)) := by
  obtain ⟨k, hk, hfold, _⟩ := max_element_first_maximum (fun a b : Nat => decide (a < b))
    strict_weak_ordering_lt (fun i => [3, 1, 5, 1, 5].getD i 0) 5 (by decide) 10
    (fun _ => 1) 1 0 (0, 0) ((0, 0), (0, 0))
  exact ⟨strict_weak_ordering_lt, by decide, rfl, rfl, k, hk, hfold⟩

theorem arg_min_f_assoc {α : Type} (pred : α → α → Bool) (h : strict_weak_ordering pred)
    (a b c : α × Int) :
    __extrema.arg_min_f pred (__extrema.arg_min_f pred a b) c =
      __extrema.arg_min_f pred a (__extrema.arg_min_f pred b c) := by
  obtain ⟨av, ak⟩ := a
  obtain ⟨bv, bk⟩ := b
  obtain ⟨cv, ck⟩ := c
  have t1 := h.2.1 av bv cv
  have t2 := h.2.1 av cv bv
  have t3 := h.2.1 bv av cv
  have t4 := h.2.1 bv cv av
  have t5 := h.2.1 cv av bv
  have t6 := h.2.1 cv bv av
  have n1 := h.neg_trans av bv cv
  have n2 := h.neg_trans av cv bv
  have n3 := h.neg_trans bv av cv
  have n4 := h.neg_trans bv cv av
  have n5 := h.neg_trans cv av bv
  have n6 := h.neg_trans cv bv av
  simp only [__extrema.arg_min_f]
  cases hab : pred av bv <;> cases hba : pred bv av <;> cases hbc : pred bv cv <;>
    cases hcb : pred cv bv <;> cases hac : pred av cv <;> cases hca : pred cv av <;>
    simp_all <;> split_ifs <;> simp_all <;> omega

end hip_rocprim

end thrust

namespace thrust

namespace hip_rocprim

theorem arg_max_f_assoc {α : Type} (pred : α → α → Bool) (h : strict_weak_ordering pred)
    (a b c : α × Int) :
    __extrema.arg_max_f pred (__extrema.arg_max_f pred a b) c =
      __extrema.arg_max_f pred a (__extrema.arg_max_f pred b c) := by
  obtain ⟨av, ak⟩ := a
  obtain ⟨bv, bk⟩ := b
  obtain ⟨cv, ck⟩ := c
  have t1 := h.2.1 av bv cv
  have t2 := h.2.1 av cv bv
  have t3 := h.2.1 bv av cv
  have t4 := h.2.1 bv cv av
  have t5 := h.2.1 cv av bv
  have t6 := h.2.1 cv bv av
  have n1 := h.neg_trans av bv cv
  have n2 := h.neg_trans av cv bv
  have n3 := h.neg_trans bv av cv
  have n4 := h.neg_trans bv cv av
  have n5 := h.neg_trans cv av bv
  have n6 := h.neg_trans cv bv av
  simp only [__extrema.arg_max_f]
  cases hab : pred av bv <;> cases hba : pred bv av <;> cases hbc : pred bv cv <;>
    cases hcb : pred cv bv <;> cases hac : pred av cv <;> cases hca : pred cv av <;>
    simp_all <;> split_ifs <;> simp_all <;> omega

/-- C17. Associativity of the arg reducers: for every strict weak ordering `pred` and
all (value, index) pairs `a`, `b`, `c`,
`arg_min_f(arg_min_f(a, b), c) = arg_min_f(a, arg_min_f(b, c))`; the same equation holds
for `arg_max_f`, and for `arg_minmax_f` on all pairs of pairs `x`, `y`, `z`. -/
theorem arg_reducers_associative {α : Type} (pred : α → α → Bool)
    (hpred : strict_weak_ordering pred) (a b c : α × Int)
    (x y z : (α × Int) × (α × Int)) :
    __extrema.arg_min_f pred (__extrema.arg_min_f pred a b) c =
      __extrema.arg_min_f pred a (__extrema.arg_min_f pred b c) ∧
    __extrema.arg_max_f pred (__extrema.arg_max_f pred a b) c =
      __extrema.arg_max_f pred a (__extrema.arg_max_f pred b c) ∧
    __extrema.arg_minmax_f pred (__extrema.arg_minmax_f pred x y) z =
      __extrema.arg_minmax_f pred x (__extrema.arg_minmax_f pred y z) := by
  refine ⟨arg_min_f_assoc pred hpred a b c, arg_max_f_assoc pred hpred a b c, ?_⟩
  show (__extrema.arg_min_f pred (__extrema.arg_min_f pred x.1 y.1) z.1,
      __extrema.arg_max_f pred (__extrema.arg_max_f pred x.2 y.2) z.2) =
    (__extrema.arg_min_f pred x.1 (__extrema.arg_min_f pred y.1 z.1),
      __extrema.arg_max_f pred x.2 (__extrema.arg_max_f pred y.2 z.2))
  rw [arg_min_f_assoc pred hpred, arg_max_f_assoc pred hpred]

/-- Witness of C17: under `<`, the pairs `(2, 5)`, `(2, 3)`, `(1, 9)` reduce to `(1, 9)`
with `arg_min_f` in both groupings. -/
theorem arg_reducers_associative_witness :
    strict_weak_ordering (fun a b : Nat => decide (a < b)) ∧
    __extrema.arg_min_f (fun a b : Nat => decide (a < b))
      (__extrema.arg_min_f (fun a b : Nat => decide (a < b)) (2, 5) (2, 3)) (1, 9) = (1, 9) ∧
    __extrema.arg_min_f (fun a b : Nat => decide (a < b))
        (__extrema.arg_min_f (fun a b : Nat => decide (a < b)) (2, 5) (2, 3)) (1, 9) =
      __extrema.arg_min_f (fun a b : Nat => decide (a < b)) (2, 5)
        (__extrema.arg_min_f (fun a b : Nat => decide (a < b)) (2, 3) (1, 9)) :=
  ⟨strict_weak_ordering_lt, by decide,
    (arg_reducers_associative (fun a b : Nat => decide (a < b)) strict_weak_ordering_lt
      (2, 5) (2, 3) (1, 9) ((0, 0), (0, 0)) ((0, 0), (0, 0)) ((0, 0), (0, 0))).1⟩

end hip_rocprim

end thrust

namespace thrust

namespace system

namespace detail

namespace generic

variable {T It : Type}

theorem map_getD_range (d : T) (l : List T) :
    (List.range l.length).map (fun i => l.getD i d) = l := by
  apply List.ext_getElem
  · simp
  · intro i h1 h2
    simp [List.getD_eq_getElem?_getD, List.getElem?_eq_getElem h2]

theorem head_flags_loop_eq_map (d : T) (binary_pred : T → T → Bool) (xs : List T) :
    ∀ previous : T, head_flags_loop binary_pred previous xs =
      (List.range xs.length).map
        (fun i => !binary_pred ((previous :: xs).getD i d) (xs.getD i d)) := by
  induction xs with
  | nil => intro previous; rfl
  | cons x xs ih =>
    intro previous
    rw [head_flags_loop, ih x, List.length_cons, List.range_succ_eq_map, List.map_cons,
      List.map_map]
    rfl

theorem head_flags_model_eq_map (d : T) (binary_pred : T → T → Bool) (input : List T) :
    head_flags_model input binary_pred =
      (List.range input.length).map
        (fun i => decide (i = 0) || !binary_pred (input.getD (i - 1) d) (input.getD i d)) := by
  cases input with
  | nil => rfl
  | cons x xs =>
    rw [head_flags_model, head_flags_loop_eq_map d, List.length_cons, List.range_succ_eq_map,
      List.map_cons, List.map_map]
    congr 1

/-- The elements of `input` whose flag is set, in input order. -/
theorem selected_eq_map_head_indices (d : T) (binary_pred : T → T → Bool) (input : List T) :
    ((input.zip (head_flags_model input binary_pred)).filter (fun p => p.2)).map (fun p => p.1) =
      (head_indices d input binary_pred).map (fun i => input.getD i d) := by
  rw [head_flags_model_eq_map d]
  have hz : ∀ f : Nat → Bool,
      ((List.range input.length).map (fun i => input.getD i d)).zip
        ((List.range input.length).map f) = input.zip ((List.range input.length).map f) := by
    intro f
    rw [map_getD_range]
  rw [← hz, List.zip_map', List.filter_map, List.map_map]
  rfl

theorem count_if_head_flags (d : T) (binary_pred : T → T → Bool) (input : List T) :
    count_if_model (head_flags_model input binary_pred) placeholders._1 =
      ((head_indices d input binary_pred).length : Int) := by
  rw [head_flags_model_eq_map d, count_if_model]
  congr 1
  rw [List.filter_map, List.length_map]
  rfl

theorem copy_if_model_eq_foldl (out : OutputIterator It T) (input : List T) :
    ∀ (flags : List Bool) (output : It),
      copy_if_model out input flags output placeholders._1 =
        (((input.zip flags).filter (fun p => p.2)).map (fun p => p.1)).foldl
          (fun it x => out.increment (out.assign it x)) output := by
  induction input with
  | nil => intro flags output; simp [copy_if_model]
  | cons x xs ih =>
    intro flags output
    cases flags with
    | nil => simp [copy_if_model]
    | cons flag flags =>
      cases flag with
      | true => simp [copy_if_model, placeholders._1, ih]
      | false => simp [copy_if_model, placeholders._1, ih]

theorem foldl_pointer_output (sel : List T) :
    ∀ (m : Memory T) (p : Nat),
      sel.foldl (fun it x => (pointer_output T).increment ((pointer_output T).assign it x))
        (m, p) = (m.write_range p sel, p + sel.length) := by
  induction sel with
  | nil => intro m p; rfl
  | cons x xs ih =>
    intro m p
    rw [List.foldl_cons]
    show xs.foldl _ (m.write p x, p + 1) = _
    rw [ih, Memory.write_range, List.length_cons]
    congr 1
    omega

theorem foldl_discard_output (sel : List T) :
    ∀ i : Int,
      sel.foldl (fun it x => (discard_output T).increment ((discard_output T).assign it x))
        ⟨i⟩ = (⟨i + sel.length⟩ : discard_iterator) := by
  induction sel with
  | nil => intro i; simp
  | cons x xs ih =>
    intro i
    rw [List.foldl_cons]
    show xs.foldl _ (⟨i + 1⟩ : discard_iterator) = _
    rw [ih, List.length_cons]
    congr 1
    push_cast
    omega

end generic

end detail

end system

end thrust

namespace thrust

namespace system

namespace detail

namespace generic

variable {T : Type}

theorem unique_copy_pointer (d : T) (input : List T) (binary_pred : T → T → Bool)
    (m : Memory T) (p : Nat) :
    unique_copy (algorithms_model (pointer_output T)) input (m, p) binary_pred =
      (m.write_range p ((head_indices d input binary_pred).map (fun i => input.getD i d)),
        p + (head_indices d input binary_pred).length) := by
  show copy_if_model (pointer_output T) input (head_flags_model input binary_pred) (m, p)
    placeholders._1 = _
  rw [copy_if_model_eq_foldl, foldl_pointer_output, selected_eq_map_head_indices d,
    List.length_map]

theorem unique_copy_discard (d : T) (input : List T) (binary_pred : T → T → Bool)
    (i : Int) :
    unique_copy (algorithms_model (discard_output T)) input (make_discard_iterator i)
      binary_pred = discard_iterator.construct (i + (head_indices d input binary_pred).length) := by
  show copy_if_model (discard_output T) input (head_flags_model input binary_pred) ⟨i⟩
    placeholders._1 = _
  rw [copy_if_model_eq_foldl, foldl_discard_output, selected_eq_map_head_indices d,
    List.length_map]
  rfl

/-- C18. The function `unique_copy`: for every input sequence and binary predicate, with
a pointer as output, `unique_copy` writes from the output address on, in input order,
exactly the elements `in[i]` with `i == 0` or `pred(in[i-1], in[i])` false, writes
nothing else, and returns the output advanced by their count.
`[11,11,12,20,29,21,21,31,31,37]` gives the 7 elements `[11,12,20,29,21,31,37]`, and
that result under `is_equal_div_10_unique` gives the 3 elements `[11,20,31]`. -/
theorem unique_copy_output (d : T) (input : List T) (binary_pred : T → T → Bool)
    (m : Memory T) (p : Nat) :
    (unique_copy (algorithms_model (pointer_output T)) input (m, p) binary_pred).2 =
      p + (head_indices d input binary_pred).length ∧
    Memory.read_range
        (unique_copy (algorithms_model (pointer_output T)) input (m, p) binary_pred).1 p
        (head_indices d input binary_pred).length =
      (head_indices d input binary_pred).map (fun i => input.getD i d) ∧
    (∀ a, (a < p ∨ p + (head_indices d input binary_pred).length ≤ a) →
      (unique_copy (algorithms_model (pointer_output T)) input (m, p) binary_pred).1 a =
        m a) ∧
    (unique_copy_equal_to (algorithms_model (pointer_output Int))
      [11, 11, 12, 20, 29, 21, 21, 31, 31, 37] (fun _ => 0, 0)).2 = 7 ∧
    Memory.read_range (unique_copy_equal_to (algorithms_model (pointer_output Int))
      [11, 11, 12, 20, 29, 21, 21, 31, 31, 37] (fun _ => 0, 0)).1 0 7 =
      [11, 12, 20, 29, 21, 31, 37] ∧
    (unique_copy (algorithms_model (pointer_output Int)) [11, 12, 20, 29, 21, 31, 37]
      (fun _ => 0, 0) is_equal_div_10_unique).2 = 3 ∧
    Memory.read_range (unique_copy (algorithms_model (pointer_output Int))
      [11, 12, 20, 29, 21, 31, 37] (fun _ => 0, 0) is_equal_div_10_unique).1 0 3 =
      [11, 20, 31] := by
  rw [unique_copy_pointer d]
  refine ⟨rfl, ?_, ?_, by decide, by decide, by decide, by decide⟩
  · have h := Memory.read_range_write_range
      ((head_indices d input binary_pred).map (fun i => input.getD i d)) m p
    rw [List.length_map] at h
    exact h
  · intro a ha
    apply Memory.write_range_of_not_mem
    rw [List.length_map]
    exact ha

end generic

end detail

end system

end thrust

namespace thrust

namespace system

namespace detail

namespace generic

variable {T : Type}

/-- Witness of C18: `[1, 1, 2]` under equality, written from address 4 on into a memory
that holds 9 everywhere: the output is advanced to 6 and address 0 still holds 9. -/
theorem unique_copy_output_witness :
    (unique_copy (algorithms_model (pointer_output Int)) [1, 1, 2] (fun _ => 9, 4)
      (fun a b => a == b)).2 = 6 ∧
    (unique_copy (algorithms_model (pointer_output Int)) [1, 1, 2] (fun _ => 9, 4)
      (fun a b => a == b)).1 0 = 9 :=
  ⟨by decide,
    (unique_copy_output (0 : Int) [1, 1, 2] (fun a b => a == b) (fun _ => 9) 4).2.2.1 0
      (Or.inl (by decide))⟩

/-- C19. The function `unique_count` agrees with `unique_copy`: for every input
sequence and binary predicate, `unique_count` equals the number of elements
`unique_copy` writes (the distance the output pointer is advanced, the number of
indices `i` with `i == 0` or `pred(in[i-1], in[i])` false; 7 and 3 on the test data),
and `unique_copy` into `make_discard_iterator()` returns the `discard_iterator` whose
index is that number. -/
theorem unique_count_agrees (d : T) (input : List T) (binary_pred : T → T → Bool)
    (m : Memory T) (p : Nat) :
    unique_count (algorithms_model (pointer_output T)) input binary_pred =
      (((unique_copy (algorithms_model (pointer_output T)) input (m, p) binary_pred).2 - p :
        Nat) : Int) ∧
    unique_count (algorithms_model (pointer_output T)) input binary_pred =
      ((head_indices d input binary_pred).length : Int) ∧
    unique_copy (algorithms_model (discard_output T)) input make_discard_iterator_default
        binary_pred =
      discard_iterator.construct
        (unique_count (algorithms_model (discard_output T)) input binary_pred) ∧
    unique_count_equal_to (algorithms_model (pointer_output Int))
      [11, 11, 12, 20, 29, 21, 21, 31, 31, 37] = 7 ∧
    unique_count (algorithms_model (pointer_output Int))
      [11, 11, 12, 20, 29, 21, 21, 31, 31, 37] is_equal_div_10_unique = 3 := by
  have hcount : ∀ It (out : OutputIterator It T),
      unique_count (algorithms_model out) input binary_pred =
        ((head_indices d input binary_pred).length : Int) :=
    fun _ _ => count_if_head_flags d binary_pred input
  refine ⟨?_, hcount _ _, ?_, by decide, by decide⟩
  · rw [hcount, unique_copy_pointer d]
    simp
  · rw [hcount]
    have h := unique_copy_discard d input binary_pred 0
    rw [zero_add] at h
    exact h

end generic

end detail

end system

end thrust

namespace thrust

namespace pointer

/-- C20. The observers of `thrust::pointer`: for every raw pointer `r`, a pointer
constructed from `r` returns `r` from `get()` and from `operator->`; a
default-constructed, nullptr-constructed or nullptr-assigned pointer has
`get() == nullptr`; `bool(p)` is true exactly when `get() != nullptr`; `p == nullptr`
and `nullptr == p` hold exactly when `get() == nullptr`, and each `!=` is the negation
of `==`. -/
theorem pointer_observers (r : raw_pointer) (p : pointer) :
    (construct r).get = r ∧ (construct r).operator_arrow = r ∧
    (construct_other r).get = r ∧ (construct_other r).operator_arrow = r ∧
    construct_default.get = nullptr ∧ construct_nullptr.get = nullptr ∧
    p.assign_nullptr.get = nullptr ∧
    (p.operator_bool = true ↔ p.get ≠ nullptr) ∧
    (p.eq_nullptr = true ↔ p.get = nullptr) ∧
    (p.nullptr_eq = true ↔ p.get = nullptr) ∧
    p.ne_nullptr = !p.eq_nullptr ∧ p.nullptr_ne = !p.nullptr_eq ∧
    (construct 4217).get = 4217 ∧ (construct 4217).operator_bool = true := by
  refine ⟨rfl, rfl, rfl, rfl, rfl, rfl, rfl, ?_, ?_, ?_, rfl, rfl, rfl, by decide⟩
  · simp [operator_bool, raw_pointer_to_bool]
  · show (nullptr == p.get) = true ↔ _
    rw [beq_iff_eq]
    exact eq_comm
  · show (nullptr == p.get) = true ↔ _
    rw [beq_iff_eq]
    exact eq_comm

end pointer

end thrust

namespace thrust

namespace mr

/-- C21. The function `mr::allocator<T, MR>::max_size()` returns the maximum value of
`std::size_t` divided by `sizeof(T)`; for every `n <= max_size()` the byte count
`n * sizeof(T)` computed in `std::size_t` is the mathematical product, `allocate(n)`
requests that count with the alignment `alignof(T)`, and `deallocate(p, n)` passes the
same count and the same alignment to the resource. -/
theorem allocator_max_size {State Pointer : Type} (a : allocator State Pointer)
    (n : Nat) (hn : n ≤ a.max_size) (s s' : State) (p : Pointer) :
    a.max_size = (2 ^ 64 - 1) / a.sizeof_T ∧
    n * a.sizeof_T % 2 ^ 64 = n * a.sizeof_T ∧
    a.allocate s n = a.mem_res.do_allocate s (n * a.sizeof_T) a.alignof_T ∧
    a.deallocate s' p n = a.mem_res.do_deallocate s' p (n * a.sizeof_T) a.alignof_T := by
  have hprod : n * a.sizeof_T % 2 ^ 64 = n * a.sizeof_T := by
    apply Nat.mod_eq_of_lt
    have h1 : n * a.sizeof_T ≤ size_type_max / a.sizeof_T * a.sizeof_T :=
      Nat.mul_le_mul_right _ hn
    have h2 : size_type_max / a.sizeof_T * a.sizeof_T ≤ size_type_max :=
      Nat.div_mul_le_self _ _
    have h3 : size_type_max < 2 ^ 64 := by decide
    omega
  refine ⟨rfl, hprod, ?_, ?_⟩
  · rw [allocator.allocate, hprod]
  · rw [allocator.deallocate, hprod]

/-- Witness of C21: elements of 4 bytes aligned to 4, `n = 10`: the recording resource
receives `(40, 4)` from `allocate` and again from `deallocate`. -/
theorem allocator_max_size_witness :
    (allocator.mk 4 4 recording_resource).max_size = 4611686018427387903 ∧
    (allocator.mk 4 4 recording_resource).allocate [] 10 = ([(40, 4)], 0) ∧
    (allocator.mk 4 4 recording_resource).deallocate [(40, 4)] 0 10 =
      [(40, 4), (40, 4)] := by
  have h := allocator_max_size (allocator.mk 4 4 recording_resource) 10 (by decide) []
    [(40, 4)] 0
  exact ⟨by decide, h.2.2.1, h.2.2.2⟩

end mr

namespace system

namespace cpp

/-- C22. The alias `cpp::universal_host_pinned_memory_resource` is declared as
`detail::native_resource`: it names the type of `cpp::memory_resource`, whose pointer
type is `cpp::pointer<void>`, and not the type of `cpp::universal_memory_resource`,
whose pointer type is `cpp::universal_pointer<void>`. -/
theorem universal_host_pinned_memory_resource_alias :
    universal_host_pinned_memory_resource = memory_resource ∧
    universal_host_pinned_memory_resource.pointer = pointer_type.pointer_void ∧
    universal_memory_resource.pointer = pointer_type.universal_pointer_void ∧
    universal_host_pinned_memory_resource ≠ universal_memory_resource := by
  refine ⟨rfl, rfl, rfl, by decide⟩

end cpp

end system

namespace hip_rocprim

/-- C28. Copy direction of a `cross_system`: `direction_of_copy` is DeviceToHost for
(hip, cpp), HostToDevice for (cpp, hip), DeviceToDevice for (hip, hip) and for a single
policy; for every direction it returns exactly one of `is_device_to_host_copy`,
`is_host_to_device_copy`, `is_device_to_device_copy` is true; `rotate()` swaps `sys1`
and `sys2`, turns a DeviceToHost `cross_system` into a HostToDevice one and back, and
`rotate().rotate()` is the original `cross_system`. -/
theorem cross_system_direction (systems : cross_system) (a b : Nat) :
    direction_of_copy ⟨.hip, a⟩ ⟨.cpp, b⟩ = some .hipMemcpyDeviceToHost ∧
    direction_of_copy ⟨.cpp, a⟩ ⟨.hip, b⟩ = some .hipMemcpyHostToDevice ∧
    direction_of_copy ⟨.hip, a⟩ ⟨.hip, b⟩ = some .hipMemcpyDeviceToDevice ∧
    direction_of_copy_single ⟨.hip, a⟩ = some .hipMemcpyDeviceToDevice ∧
    (∀ Direction, (direction_of_copy_cross_system systems = some Direction ∨
        direction_of_copy_single systems.sys1 = some Direction) →
      (is_device_to_host_copy Direction = true ∧ is_host_to_device_copy Direction = false ∧
          is_device_to_device_copy Direction = false) ∨
      (is_device_to_host_copy Direction = false ∧ is_host_to_device_copy Direction = true ∧
          is_device_to_device_copy Direction = false) ∨
      (is_device_to_host_copy Direction = false ∧ is_host_to_device_copy Direction = false ∧
          is_device_to_device_copy Direction = true)) ∧
    systems.rotate.sys1 = systems.sys2 ∧ systems.rotate.sys2 = systems.sys1 ∧
    (direction_of_copy_cross_system systems = some .hipMemcpyDeviceToHost ↔
      direction_of_copy_cross_system systems.rotate = some .hipMemcpyHostToDevice) ∧
    (direction_of_copy_cross_system systems = some .hipMemcpyHostToDevice ↔
      direction_of_copy_cross_system systems.rotate = some .hipMemcpyDeviceToHost) ∧
    systems.rotate.rotate = systems := by
  obtain ⟨⟨t1, o1⟩, ⟨t2, o2⟩⟩ := systems
  refine ⟨rfl, rfl, rfl, rfl, ?_, rfl, rfl, ?_, ?_, rfl⟩
  · intro Direction h
    cases Direction
    case hipMemcpyHostToHost =>
      cases t1 <;> cases t2 <;>
        simp [direction_of_copy_cross_system, direction_of_copy, direction_of_copy_single] at h
    case hipMemcpyDefault =>
      cases t1 <;> cases t2 <;>
        simp [direction_of_copy_cross_system, direction_of_copy, direction_of_copy_single] at h
    all_goals decide
  · cases t1 <;> cases t2 <;>
      simp [direction_of_copy_cross_system, direction_of_copy, cross_system.rotate]
  · cases t1 <;> cases t2 <;>
      simp [direction_of_copy_cross_system, direction_of_copy, cross_system.rotate]

/-- Witness of C28: the `cross_system` of a `hip` and a `cpp` policy is a DeviceToHost
copy and nothing else; rotated it is a HostToDevice copy. -/
theorem cross_system_direction_witness :
    direction_of_copy_cross_system ⟨⟨.hip, 0⟩, ⟨.cpp, 1⟩⟩ = some .hipMemcpyDeviceToHost ∧
    direction_of_copy_cross_system (cross_system.rotate ⟨⟨.hip, 0⟩, ⟨.cpp, 1⟩⟩) =
      some .hipMemcpyHostToDevice ∧
    is_device_to_host_copy .hipMemcpyDeviceToHost = true :=
  ⟨rfl,
    (cross_system_direction ⟨⟨.hip, 0⟩, ⟨.cpp, 1⟩⟩ 0 1).2.2.2.2.2.2.2.1.mp rfl, rfl⟩

end hip_rocprim

end thrust

namespace thrust

namespace hip_rocprim

/-- C26. Empty ranges in extrema: `__extrema::element` (and so `min_element` and
`max_element`) returns `last` when `first == last`, and `minmax_element` returns
`(last, last)`, without any call of the back-end; for a range with `first < last` they
hand `__extrema::extrema` the positive count `last - first`; called with
`num_items == 0`, `extrema` raises the `hipErrorInvalidValue` error before any call of
`rocprim::reduce`, `partition` or `temporary_array`. -/
theorem extrema_empty_ranges {α T : Type}
    (ArgFunctor : (α → α → Bool) → α × Int → α × Int → α × Int)
    (policy : Backend (α × Int)) (policy2 : Backend ((α × Int) × (α × Int)))
    (policyT : Backend T) (items : Int → α) (first last : Int)
    (binary_pred : α → α → Bool) (input : Nat → T) (binary_op : T → T → T)
    (hrange : first < last) :
    __extrema.element ArgFunctor policy items last last binary_pred = ([], .ok last) ∧
    min_element policy items last last binary_pred = ([], .ok last) ∧
    max_element policy items last last binary_pred = ([], .ok last) ∧
    minmax_element policy2 items last last binary_pred = ([], .ok (last, last)) ∧
    0 < last - first ∧
    __extrema.element ArgFunctor policy items first last binary_pred =
      (match __extrema.extrema policy (fun i : Nat => (items (first + i), (i : Int)))
          (last - first) (ArgFunctor binary_pred) with
        | (calls, .error e) => (calls, .error e)
        | (calls, .ok result) => (calls, .ok (first + result.2))) ∧
    minmax_element policy2 items first last binary_pred =
      (match __extrema.extrema policy2
          (fun i : Nat => __extrema.duplicate_tuple (items (first + i), (i : Int)))
          (last - first) (__extrema.arg_minmax_f binary_pred) with
        | (calls, .error e) => (calls, .error e)
        | (calls, .ok result) => (calls, .ok (first + result.1.2, first + result.2.2))) ∧
    __extrema.extrema policyT input 0 binary_op =
      ([], .error (hipcub.hipError_t.hipErrorInvalidValue,
        "extrema number of items is zero")) := by
  have hne : first ≠ last := ne_of_lt hrange
  refine ⟨?_, ?_, ?_, ?_, by omega, ?_, ?_, ?_⟩
  · simp [__extrema.element]
  · simp [min_element, __extrema.element]
  · simp [max_element, __extrema.element]
  · simp [minmax_element]
  · simp only [__extrema.element, if_neg hne]
  · simp only [minmax_element, if_neg hne]
  · simp [__extrema.extrema]

/-- Witness of C26: on the modelled back-end, `min_element` on the empty range at
position 3 returns 3 with no call, and `extrema` with no items raises the error with no
call. -/
theorem extrema_empty_ranges_witness :
    (0 : Int) < 1 ∧
    min_element (backend_model (fun _ => 1) 1 0 ((0 : Nat), (0 : Int))) (fun _ => 0) 3 3
      (fun a b => decide (a < b)) = ([], .ok 3) ∧
    __extrema.extrema (backend_model (fun _ => 1) 1 0 (0 : Nat)) (fun _ => 0) 0
      (fun a _ => a) =
      ([], .error (hipcub.hipError_t.hipErrorInvalidValue,
        "extrema number of items is zero")) := by
  have h := extrema_empty_ranges (__extrema.arg_min_f)
    (backend_model (fun _ => 1) 1 0 ((0 : Nat), (0 : Int)))
    (backend_model (fun _ => 1) 1 0 (((0 : Nat), (0 : Int)), ((0 : Nat), (0 : Int))))
    (backend_model (fun _ => 1) 1 0 (0 : Nat)) (fun _ => 0) 0 1
    (fun a b => decide (a < b)) (fun _ => 0) (fun a _ => a) (by decide)
  exact ⟨by decide, rfl, h.2.2.2.2.2.2.2⟩

end hip_rocprim

end thrust

namespace hipcub

namespace test

theorem sum_counting (start : Nat) (i : Nat) :
    2 * Finset.sum (Finset.range (i + 1)) (fun j => start + j) =
      (i + 1) * (2 * start + i) := by
  induction i with
  | zero => simp
  | succ i ih =>
    rw [Finset.sum_range_succ, Nat.mul_add, ih]
    ring

theorem InclusiveScan_Sum_counting (start : Nat) (i : Nat) :
    InclusiveScan_Sum (CountingInputIterator start) i =
      Finset.sum (Finset.range (i + 1)) (fun j => start + j) % 2 ^ 32 := by
  induction i with
  | zero => simp [InclusiveScan_Sum, CountingInputIterator]
  | succ i ih =>
    rw [InclusiveScan_Sum, ih, Finset.sum_range_succ _ (i + 1), CountingInputIterator]
    omega

/-- C30. Large-index expectation: in `LargeIndicesInclusiveScan`, for
`size = 2^31 + 1` and every start value `n` in `[0, 200]`, the expected value computed
by the test in 32-bit unsigned arithmetic equals the sum of the `size` consecutive
integers `n, n+1, ..., n+size-1` reduced modulo `2^32`, which is the element at index
`size - 1` of the inclusive sum scan of the counting sequence. -/
theorem large_indices_expected_output (n : Nat) (hn : n ≤ 200) :
    LargeIndicesInclusiveScan.size = 2 ^ 31 + 1 ∧
    LargeIndicesInclusiveScan.expected_output LargeIndicesInclusiveScan.size n =
      Finset.sum (Finset.range LargeIndicesInclusiveScan.size) (fun j => n + j) % 2 ^ 32 ∧
    LargeIndicesInclusiveScan.expected_output LargeIndicesInclusiveScan.size n =
      InclusiveScan_Sum (CountingInputIterator n) (LargeIndicesInclusiveScan.size - 1) := by
  have hsize : LargeIndicesInclusiveScan.size = 2 ^ 31 + 1 := by
    norm_num [LargeIndicesInclusiveScan.size]
  obtain ⟨N, hN⟩ : ∃ N : Nat, N = 2 ^ 31 := ⟨_, rfl⟩
  have hsizeN : LargeIndicesInclusiveScan.size = N + 1 := by rw [hsize, hN]
  have hpred : N + 1 - 1 = N := Nat.add_sub_cancel N 1
  have hsum := sum_counting n N
  have hscan := InclusiveScan_Sum_counting n N
  have hexp : LargeIndicesInclusiveScan.expected_output (N + 1) n =
      Finset.sum (Finset.range (N + 1)) (fun j => n + j) % 2 ^ 32 := by
    generalize Finset.sum (Finset.range (N + 1)) (fun j => n + j) = total at hsum ⊢
    have htotal : total = 2147483649 * (n + 1073741824) := by
      rw [hN] at hsum
      norm_num at hsum
      omega
    have h1 : (N + 1) % 2 ^ 32 % 2 = 1 := by
      rw [hN]
      norm_num
    have h1' : (N + 1) % 2 ^ 32 = 2147483649 := by
      rw [hN]
      norm_num
    have h2 : ((2 * n % 2 ^ 32 + (N + 1)) % 2 ^ 64 + (2 ^ 64 - 1)) % 2 ^ 64 % 2 ^ 32 / 2 =
        n + 1073741824 := by
      rw [hN]
      norm_num
      omega
    have hodd : ¬(2147483649 % 2 = 0) := by omega
    simp only [LargeIndicesInclusiveScan.expected_output, h1, h2, htotal, h1', if_neg hodd]
  refine ⟨hsize, ?_, ?_⟩
  · rw [hsizeN]
    exact hexp
  · rw [hsizeN, hpred, hscan]
    exact hexp

/-- Witness of C30: for the start value 7 the test expects 3221225479. -/
theorem large_indices_expected_output_witness :
    (7 : Nat) ≤ 200 ∧
    LargeIndicesInclusiveScan.expected_output LargeIndicesInclusiveScan.size 7 = 3221225479 ∧
    InclusiveScan_Sum (CountingInputIterator 7) (LargeIndicesInclusiveScan.size - 1) =
      3221225479 := by
  have h := large_indices_expected_output 7 (by decide)
  have he : LargeIndicesInclusiveScan.expected_output LargeIndicesInclusiveScan.size 7 =
      3221225479 := by
    norm_num [LargeIndicesInclusiveScan.expected_output, LargeIndicesInclusiveScan.size]
  exact ⟨by decide, he, h.2.2.symm.trans he⟩

end test

end hipcub

namespace thrust

namespace hip_rocprim

theorem parallel_for_conditional_write {B : Type} (c : Nat → Bool) (v : Nat → B)
    (result : Nat) (m : Memory B) (a : Nat) (n : Nat) :
    parallel_for (fun idx m => if c idx then m.write (result + idx) (v idx) else m) n m a =
      if result ≤ a ∧ a < result + n ∧ c (a - result) = true then v (a - result)
      else m a := by
  induction n with
  | zero =>
    have h : ¬(result ≤ a ∧ a < result + 0 ∧ c (a - result) = true) := by omega
    rw [if_neg h]
    rfl
  | succ n ih =>
    have hstep : parallel_for
        (fun idx m => if c idx then m.write (result + idx) (v idx) else m) (n + 1) m =
        (fun m => if c n then m.write (result + n) (v n) else m)
          (parallel_for (fun idx m => if c idx then m.write (result + idx) (v idx) else m)
            n m) := by
      simp [parallel_for, List.range_succ, List.foldl_append]
    rw [hstep]
    by_cases ha : a = result + n
    · have hsub : a - result = n := by omega
      cases hc : c n with
      | true =>
        have h : result ≤ a ∧ a < result + (n + 1) ∧ c n = true :=
          ⟨by omega, by omega, hc⟩
        simp only [if_true, Memory.write, if_pos ha, hsub, if_pos h]
      | false =>
        have h1 : ¬(result ≤ a ∧ a < result + (n + 1) ∧ c (a - result) = true) := by
          rw [hsub, hc]; simp
        have h2 : ¬(result ≤ a ∧ a < result + n ∧ c (a - result) = true) := by omega
        simp only [Bool.false_eq_true, if_false, ih, if_neg h1, if_neg h2]
    · have hiff : (result ≤ a ∧ a < result + (n + 1) ∧ c (a - result) = true) ↔
          (result ≤ a ∧ a < result + n ∧ c (a - result) = true) := by
        constructor
        · rintro ⟨h1, h2, h3⟩; exact ⟨h1, by omega, h3⟩
        · rintro ⟨h1, h2, h3⟩; exact ⟨h1, by omega, h3⟩
      cases hc : c n with
      | true =>
        simp only [if_true, Memory.write, if_neg ha, ih, hiff]
      | false =>
        simp only [Bool.false_eq_true, if_false, ih, hiff]

end hip_rocprim

end thrust

namespace thrust

namespace hip_rocprim

/-- C25. The frame of `transform_if`: for `n = distance(first, last)` and every `i < n`,
after `transform_if` the output at `result + i` holds `op(input[i])` when
`predicate(stencil[i])` is true (`predicate(input[i])` in the overload without stencil)
and keeps its previous content otherwise; nothing outside `[result, result + n)` is
written; the call returns `result + n`, and for `n == 0` it returns `result` without
writing; `transform` writes `op(input[i])` at every `i < n`. -/
theorem transform_if_frame {A S B : Type} (first : Nat → A) (n : Nat) (stencil : Nat → S)
    (result : Nat) (op : A → B) (predicate : S → Bool) (predicate' : A → Bool)
    (m : Memory B) (i : Nat) (hi : i < n) :
    (transform_if first n stencil result op predicate m).1 (result + i) =
      (if predicate (stencil i) then op (first i) else m (result + i)) ∧
    (transform_if_no_stencil first n result op predicate' m).1 (result + i) =
      (if predicate' (first i) then op (first i) else m (result + i)) ∧
    (transform first n result op m).1 (result + i) = op (first i) ∧
    (∀ a, (a < result ∨ result + n ≤ a) →
      (transform_if first n stencil result op predicate m).1 a = m a ∧
      (transform_if_no_stencil first n result op predicate' m).1 a = m a ∧
      (transform first n result op m).1 a = m a) ∧
    (transform_if first n stencil result op predicate m).2 = result + n ∧
    (transform_if_no_stencil first n result op predicate' m).2 = result + n ∧
    (transform first n result op m).2 = result + n ∧
    transform_if first 0 stencil result op predicate m = (m, result) ∧
    transform_if_no_stencil first 0 result op predicate' m = (m, result) ∧
    transform first 0 result op m = (m, result) := by
  have hn : n ≠ 0 := by omega
  have h1 : ∀ a, (transform_if first n stencil result op predicate m).1 a =
      if result ≤ a ∧ a < result + n ∧ predicate (stencil (a - result)) = true then
        op (first (a - result)) else m a := by
    intro a
    simp only [transform_if, __transform.unary, if_neg hn]
    exact parallel_for_conditional_write (fun idx => predicate (stencil idx))
      (fun idx => op (first idx)) result m a n
  have h2 : ∀ (p : A → Bool) a, (transform_if_no_stencil first n result op p m).1 a =
      if result ≤ a ∧ a < result + n ∧ p (first (a - result)) = true then
        op (first (a - result)) else m a := by
    intro p a
    simp only [transform_if_no_stencil, __transform.unary_no_stencil, if_neg hn]
    exact parallel_for_conditional_write (fun idx => p (first idx))
      (fun idx => op (first idx)) result m a n
  have hsub : result + i - result = i := by omega
  refine ⟨?_, ?_, ?_, ?_, ?_, ?_, ?_, ?_, ?_, ?_⟩
  · rw [h1, hsub]
    cases hp : predicate (stencil i) with
    | true => rw [if_pos ⟨by omega, by omega, rfl⟩]; rfl
    | false => rw [if_neg (by simp)]; rfl
  · rw [h2, hsub]
    cases hp : predicate' (first i) with
    | true => rw [if_pos ⟨by omega, by omega, rfl⟩]; rfl
    | false => rw [if_neg (by simp)]; rfl
  · show (transform_if_no_stencil first n result op __transform.always_true_predicate m).1
      (result + i) = _
    rw [h2, hsub, if_pos ⟨by omega, by omega, rfl⟩]
  · intro a ha
    refine ⟨?_, ?_, ?_⟩
    · rw [h1, if_neg (by omega)]
    · rw [h2, if_neg (by omega)]
    · show (transform_if_no_stencil first n result op __transform.always_true_predicate m).1
        a = _
      rw [h2, if_neg (by omega)]
  · simp [transform_if, __transform.unary, hn]
  · simp [transform_if_no_stencil, __transform.unary_no_stencil, hn]
  · simp [transform, transform_if_no_stencil, __transform.unary_no_stencil, hn]
  · simp [transform_if, __transform.unary]
  · simp [transform_if_no_stencil, __transform.unary_no_stencil]
  · simp [transform, transform_if_no_stencil, __transform.unary_no_stencil]

/-- Witness of C25: the input `10, 11, 12` with the stencil `1, 0, 1`, the operation
`x + 100` and the predicate `s = 1`, written at address 5 into a memory that holds 0:
address 6 keeps 0, address 7 holds 112, and the call returns 8. -/
theorem transform_if_frame_witness :
    (1 : Nat) < 3 ∧
    (transform_if (fun i => 10 + i) 3 (fun i => if i = 1 then 0 else 1) 5
      (fun x => x + 100) (fun s : Nat => decide (s = 1)) (fun _ => 0)).1 (5 + 1) = 0 ∧
    (transform_if (fun i => 10 + i) 3 (fun i => if i = 1 then 0 else 1) 5
      (fun x => x + 100) (fun s : Nat => decide (s = 1)) (fun _ => 0)).1 7 = 112 ∧
    (transform_if (fun i => 10 + i) 3 (fun i => if i = 1 then 0 else 1) 5
      (fun x => x + 100) (fun s : Nat => decide (s = 1)) (fun _ => 0)).2 = 8 := by
  have h := transform_if_frame (fun i => 10 + i) 3 (fun i : Nat => if i = 1 then 0 else 1) 5
    (fun x => x + 100) (fun s : Nat => decide (s = 1)) (fun _ => true) (fun _ => 0) 1
    (by decide)
  exact ⟨by decide, h.1, by decide, by decide⟩

end hip_rocprim

end thrust

namespace thrust

variable {E : Type}

theorem destroy_range (d : Nat) :
    ∀ (fuel first : Nat) (log : List lifetime_event), d < fuel →
      destroy fuel first (first + d) log =
        some (log ++ (List.range' first d).map lifetime_event.destroy, first + d) := by
  induction d with
  | zero =>
    intro fuel first log hfuel
    obtain ⟨f, rfl⟩ : ∃ f, fuel = f + 1 := ⟨fuel - 1, by omega⟩
    simp [destroy]
  | succ d ih =>
    intro fuel first log hfuel
    obtain ⟨f, rfl⟩ : ∃ f, fuel = f + 1 := ⟨fuel - 1, by omega⟩
    have hne : first ≠ first + (d + 1) := by omega
    have hlast : first + (d + 1) = first + 1 + d := by omega
    rw [destroy, if_pos hne, hlast, ih f (first + 1) _ (by omega)]
    simp [destroy_at, List.range'_succ]

theorem uninitialized_construct_loop_all (T_args : Nat → Option E) (d : Nat) :
    ∀ (fuel first : Nat) (log : List lifetime_event), d < fuel →
      (∀ j, j < d → T_args (first + j) = none) →
      uninitialized_construct_loop T_args fuel first (first + d) log =
        some (log ++ (List.range' first d).map lifetime_event.construct, first + d, none) := by
  induction d with
  | zero =>
    intro fuel first log hfuel _
    obtain ⟨f, rfl⟩ : ∃ f, fuel = f + 1 := ⟨fuel - 1, by omega⟩
    simp [uninitialized_construct_loop]
  | succ d ih =>
    intro fuel first log hfuel hok
    obtain ⟨f, rfl⟩ : ∃ f, fuel = f + 1 := ⟨fuel - 1, by omega⟩
    have hne : first ≠ first + (d + 1) := by omega
    have hlast : first + (d + 1) = first + 1 + d := by omega
    have h0 : T_args first = none := by simpa using hok 0 (by omega)
    rw [uninitialized_construct_loop, if_pos hne, h0]
    simp only []
    rw [hlast, ih f (first + 1) _ (by omega) (fun j hj => by
      have := hok (j + 1) (by omega)
      rw [← this]; congr 1; omega)]
    simp [List.range'_succ]

theorem uninitialized_construct_loop_throw (T_args : Nat → Option E) (e : E) (k : Nat) :
    ∀ (fuel first last : Nat) (log : List lifetime_event), k < fuel →
      first + k < last → (∀ j, j < k → T_args (first + j) = none) →
      T_args (first + k) = some e →
      uninitialized_construct_loop T_args fuel first last log =
        some (log ++ (List.range' first k).map lifetime_event.construct, first + k, some e) := by
  induction k with
  | zero =>
    intro fuel first last log hfuel hlast _ hthrow
    obtain ⟨f, rfl⟩ : ∃ f, fuel = f + 1 := ⟨fuel - 1, by omega⟩
    have hne : first ≠ last := by omega
    rw [Nat.add_zero] at hthrow
    rw [uninitialized_construct_loop, if_pos hne, hthrow]
    simp
  | succ k ih =>
    intro fuel first last log hfuel hlast hok hthrow
    obtain ⟨f, rfl⟩ : ∃ f, fuel = f + 1 := ⟨fuel - 1, by omega⟩
    have hne : first ≠ last := by omega
    have h0 : T_args first = none := by simpa using hok 0 (by omega)
    have hk : first + (k + 1) = first + 1 + k := by omega
    rw [uninitialized_construct_loop, if_pos hne, h0]
    simp only []
    rw [ih f (first + 1) last _ (by omega) (by omega) (fun j hj => by
      have := hok (j + 1) (by omega)
      rw [← this]; congr 1; omega) (by rw [← hk]; exact hthrow)]
    simp [List.range'_succ, hk]

theorem uninitialized_construct_n_loop_all (T_args : Nat → Option E) (d : Nat) :
    ∀ (first : Nat) (log : List lifetime_event),
      (∀ j, j < d → T_args (first + j) = none) →
      uninitialized_construct_n_loop T_args d first log =
        (log ++ (List.range' first d).map lifetime_event.construct, first + d, none) := by
  induction d with
  | zero => intro first log _; simp [uninitialized_construct_n_loop]
  | succ d ih =>
    intro first log hok
    have h0 : T_args first = none := by simpa using hok 0 (by omega)
    rw [uninitialized_construct_n_loop, h0]
    simp only []
    rw [ih (first + 1) _ (fun j hj => by
      have := hok (j + 1) (by omega)
      rw [← this]; congr 1; omega)]
    simp [List.range'_succ]
    omega

theorem uninitialized_construct_n_loop_throw (T_args : Nat → Option E) (e : E) (k : Nat) :
    ∀ (n first : Nat) (log : List lifetime_event), k < n →
      (∀ j, j < k → T_args (first + j) = none) → T_args (first + k) = some e →
      uninitialized_construct_n_loop T_args n first log =
        (log ++ (List.range' first k).map lifetime_event.construct, first + k, some e) := by
  induction k with
  | zero =>
    intro n first log hn _ hthrow
    obtain ⟨n', rfl⟩ : ∃ n', n = n' + 1 := ⟨n - 1, by omega⟩
    rw [Nat.add_zero] at hthrow
    rw [uninitialized_construct_n_loop, hthrow]
    simp
  | succ k ih =>
    intro n first log hn hok hthrow
    obtain ⟨n', rfl⟩ : ∃ n', n = n' + 1 := ⟨n - 1, by omega⟩
    have h0 : T_args first = none := by simpa using hok 0 (by omega)
    have hk : first + (k + 1) = first + 1 + k := by omega
    rw [uninitialized_construct_n_loop, h0]
    simp only []
    rw [ih n' (first + 1) _ (by omega) (fun j hj => by
      have := hok (j + 1) (by omega)
      rw [← this]; congr 1; omega) (by rw [← hk]; exact hthrow)]
    simp [List.range'_succ, hk]

end thrust

namespace thrust

/-- C27. Roll-back in `uninitialized_construct` and `uninitialized_construct_n` on the
host: if the constructor throws `e` at position `k` of the `n` positions and returns at
the positions before, the events are the `k` constructions at `first .. first + k - 1`
followed by the destruction of exactly these `k` elements, each once, and `e` leaves
the function; if the constructor throws nowhere, the events are the constructions of
the `n` elements and nothing is destroyed; for `n <= 0` `uninitialized_construct_n`
constructs nothing. -/
theorem uninitialized_construct_rollback {E : Type} (T_args T_args' : Nat → Option E)
    (e : E) (first n k fuel : Nat) (hk : k < n) (hfuel : n < fuel)
    (hbefore : ∀ j, j < k → T_args (first + j) = none)
    (hthrow : T_args (first + k) = some e)
    (hall : ∀ j, j < n → T_args' (first + j) = none) :
    uninitialized_construct true T_args fuel first (first + n) [] =
      some ((List.range' first k).map lifetime_event.construct ++
        (List.range' first k).map lifetime_event.destroy, .error e) ∧
    uninitialized_construct_n true T_args fuel first (n : Int) [] =
      some ((List.range' first k).map lifetime_event.construct ++
        (List.range' first k).map lifetime_event.destroy, .error e) ∧
    uninitialized_construct true T_args' fuel first (first + n) [] =
      some ((List.range' first n).map lifetime_event.construct, .ok ()) ∧
    uninitialized_construct_n true T_args' fuel first (n : Int) [] =
      some ((List.range' first n).map lifetime_event.construct, .ok ()) ∧
    ∀ m : Int, m ≤ 0 → uninitialized_construct_n true T_args fuel first m [] =
      some ([], .ok ()) := by
  refine ⟨?_, ?_, ?_, ?_, ?_⟩
  · rw [uninitialized_construct,
      uninitialized_construct_loop_throw T_args e k fuel first (first + n) [] (by omega)
        (by omega) hbefore hthrow]
    simp only [if_true, List.nil_append]
    rw [destroy_range k fuel first _ (by omega)]
  · rw [uninitialized_construct_n, Int.toNat_ofNat,
      uninitialized_construct_n_loop_throw T_args e k n first [] hk hbefore hthrow]
    simp only [if_true, List.nil_append]
    rw [destroy_range k fuel first _ (by omega)]
  · rw [uninitialized_construct,
      uninitialized_construct_loop_all T_args' n fuel first [] hfuel hall]
    rfl
  · rw [uninitialized_construct_n, Int.toNat_ofNat,
      uninitialized_construct_n_loop_all T_args' n first [] hall]
    rfl
  · intro m hm
    have h0 : m.toNat = 0 := by omega
    rw [uninitialized_construct_n, h0]
    rfl

/-- Witness of C27: five positions from location 10, the constructor throws at the
third: locations 10 and 11 are constructed, then destroyed, and the exception leaves
the function. -/
theorem uninitialized_construct_rollback_witness :
    uninitialized_construct true (fun location => if location = 12 then some 7 else none)
        9 10 15 [] =
      some ([lifetime_event.construct 10, lifetime_event.construct 11,
        lifetime_event.destroy 10, lifetime_event.destroy 11], .error 7) ∧
    uninitialized_construct true (fun _ => (none : Option Nat)) 9 10 15 [] =
      some ([lifetime_event.construct 10, lifetime_event.construct 11,
        lifetime_event.construct 12, lifetime_event.construct 13,
        lifetime_event.construct 14], .ok ()) := by
  have h := uninitialized_construct_rollback
    (fun location => if location = 12 then some 7 else none) (fun _ => (none : Option Nat))
    7 10 5 2 9 (by decide) (by decide)
    (by intro j hj; interval_cases j <;> rfl) rfl (by intro j _; rfl)
  exact ⟨h.1, h.2.2.1⟩

end thrust

namespace hipcub

namespace test

theorem length_fill (keys : List Nat) (first last value : Nat) :
    (fill keys first last value).length = keys.length := by
  simp [fill]

theorem getElem?_fill (keys : List Nat) (first last value i : Nat) (hi : i < keys.length) :
    (fill keys first last value)[i]? =
      some (if first ≤ i ∧ i < last then value else keys.getD i 0) := by
  simp [fill, List.getElem?_zipWith, List.getElem?_range hi, List.getElem?_eq_getElem hi,
    List.getD_eq_getElem?_getD]

theorem generate_segments_loop_keys (T_max : Nat) (prng : Nat → Nat)
    (size max_segment_length : Nat) (fuel : Nat) :
    ∀ (keys_start_index draws : Nat) (keys : List Nat) (fills : List (Nat × Nat))
      (result : List Nat × List (Nat × Nat)),
      keys.length = size →
      (∀ i, i < keys_start_index → i < size → keys[i]? = some T_max) →
      generate_segments_loop T_max prng size max_segment_length fuel keys_start_index draws
        keys fills = some result →
      result.1 = List.replicate size T_max := by
  induction fuel with
  | zero => intro _ _ _ _ _ _ _ h; simp [generate_segments_loop] at h
  | succ fuel ih =>
    intro keys_start_index draws keys fills result hlen hinv h
    rw [generate_segments_loop] at h
    by_cases hlt : keys_start_index < size
    · rw [if_pos hlt] at h
      refine ih _ _ _ _ result (by rw [length_fill, hlen]) ?_ h
      intro i hi hsize
      have hkey : uniform_int_distribution T_max T_max (prng (draws + 1)) = T_max := by
        simp [uniform_int_distribution, Nat.mod_one]
      rw [getElem?_fill _ _ _ _ _ (by omega), hkey]
      by_cases hin : keys_start_index ≤ i ∧
          i < min size ((keys_start_index +
            uniform_int_distribution max_segment_length (2 ^ 64 - 1) (prng draws)) % 2 ^ 64)
      · rw [if_pos hin]
      · rw [if_neg hin]
        have hold : i < keys_start_index := by
          by_contra hge
          apply hin
          refine ⟨by omega, ?_⟩
          rw [Nat.lt_min]
          exact ⟨hsize, hi⟩
        have := hinv i hold hsize
        rw [List.getD_eq_getElem?_getD, this]
        rfl
    · rw [if_neg hlt] at h
      simp only [Option.some.injEq] at h
      subst h
      apply List.ext_getElem?
      intro i
      by_cases hi : i < size
      · rw [hinv i (by omega) hi]
        simp [List.getElem?_replicate, hi]
      · have hl : (keys, fills).1.length = size := hlen
        rw [List.getElem?_eq_none (by omega), List.getElem?_eq_none (by simp; omega)]

end test

end hipcub

namespace hipcub

namespace test

/-- C29. The test key generator `generate_segments`: the one-argument constructors make
`max_segment_length` the lower bound of the drawn segment lengths and
`numeric_limits<T>::max()` the only key: every drawn length is at least
`max_segment_length`, every drawn key is `numeric_limits<T>::max()`, and whenever the
function returns, for every size, `max_segment_length` and seed, the vector holds
`size` copies of that key. For `size = 12`, `max_segment_length = 5` and an engine
whose outputs are 7, the first drawn length is 12 and the single fill covers the 12
keys. -/
theorem generate_segments_keys_constant (T_max : Nat)
    (default_random_engine : Int → Nat → Nat) (fuel size max_segment_length : Nat)
    (seed_value : Int) (raw : Nat) :
    max_segment_length ≤ uniform_int_distribution max_segment_length (2 ^ 64 - 1) raw ∧
    uniform_int_distribution T_max T_max raw = T_max ∧
    (∀ result, generate_segments T_max default_random_engine fuel size max_segment_length
        seed_value = some result → result.1 = List.replicate size T_max) ∧
    uniform_int_distribution 5 (2 ^ 64 - 1) 7 = 12 ∧
    generate_segments (2 ^ 31 - 1) (fun _ _ => 7) 2 12 5 0 =
      some (List.replicate 12 (2 ^ 31 - 1), [(0, 12)]) := by
  refine ⟨?_, ?_, ?_, by decide, by decide⟩
  · exact Nat.le_add_right _ _
  · simp [uniform_int_distribution, Nat.mod_one]
  · intro result h
    refine generate_segments_loop_keys T_max (default_random_engine seed_value) size
      max_segment_length fuel 0 0 (List.replicate size 0) [] result (by simp) ?_ h
    intro i hi
    omega

end test

end hipcub

namespace thrust

namespace hip_rocprim

namespace __copy_if

variable {T P : Type}

theorem foldl_range_eq_self {β : Type} (f : β → Nat → β) (n : Nat)
    (h : ∀ i, i < n → ∀ m, f m i = m) : ∀ m, (List.range n).foldl f m = m := by
  induction n with
  | zero => intro m; rfl
  | succ n ih =>
    intro m
    rw [List.range_succ, List.foldl_append, ih (fun i hi => h i (by omega))]
    exact h n (by omega) m

theorem copy_if_kernel_item_eq_self (first : Nat → T) (flagsFirst posFirst : Nat → Nat)
    (size output index : Nat) (m : Memory T)
    (h : index < size → flagsFirst index = 0) :
    copy_if_kernel_item first flagsFirst posFirst size output index m = m := by
  unfold copy_if_kernel_item
  by_cases hlt : index < size
  · rw [if_pos hlt, if_neg (by rw [h hlt]; simp)]
  · rw [if_neg hlt]

theorem launch_eq_self (first : Nat → T) (flagsFirst posFirst : Nat → Nat)
    (size output grid : Nat) (m : Memory T)
    (h : ∀ blockIdx threadIdx i, blockIdx < grid → threadIdx < threads_per_block →
      i < items_per_thread →
      baseIdx items_per_thread blockIdx threads_per_block threadIdx + i < size →
      flagsFirst (baseIdx items_per_thread blockIdx threads_per_block threadIdx + i) = 0) :
    launch grid threads_per_block
      (copy_if_kernel items_per_thread first flagsFirst posFirst size output) m = m := by
  unfold launch
  apply foldl_range_eq_self
  intro blockIdx hb m
  apply foldl_range_eq_self
  intro threadIdx ht m
  unfold copy_if_kernel
  apply foldl_range_eq_self
  intro i hi m
  exact copy_if_kernel_item_eq_self _ _ _ _ _ _ _ (h blockIdx threadIdx i hb ht hi)

theorem rocprim_inclusive_scan_zero (input : Nat → Nat) (n : Nat)
    (h : ∀ j, j ≤ n → input j = 0) : rocprim_inclusive_scan input n = 0 := by
  induction n with
  | zero => simp [rocprim_inclusive_scan, h 0 (le_refl 0)]
  | succ n ih =>
    rw [rocprim_inclusive_scan, ih (fun j hj => h j (by omega)), h (n + 1) (le_refl _)]
    norm_num

theorem static_cast_float_16777217 : static_cast_float 16777217 = 16777216 := by decide

theorem block_size_16777217 : block_size 16777217 = 4096 := by
  simp only [block_size, static_cast_float_16777217, items_per_thread, threads_per_block]

theorem baseIdx_lt_16777216 (blockIdx threadIdx i : Nat) (hb : blockIdx < 4096)
    (ht : threadIdx < threads_per_block) (hi : i < items_per_thread) :
    baseIdx items_per_thread blockIdx threads_per_block threadIdx + i < 16777216 := by
  simp only [baseIdx, items_per_thread, threads_per_block] at ht hi ⊢
  omega

theorem rocprim_transform_last_only (j : Nat) (hj : j < 16777216) :
    rocprim_transform (fun i : Nat => i) 16777217
      (fun val => if decide (val = 16777216) = true then 1 else 0) j = 0 := by
  have hne : ¬(j = 16777216) := by omega
  simp [rocprim_transform, hne]

theorem rocprim_inclusive_scan_last_only :
    rocprim_inclusive_scan (rocprim_transform (fun i : Nat => i) 16777217
      (fun val => if decide (val = 16777216) = true then 1 else 0)) (16777217 - 1) = 1 := by
  have hlast : rocprim_transform (fun i : Nat => i) 16777217
      (fun val => if decide (val = 16777216) = true then 1 else 0) 16777216 = 1 := by
    simp [rocprim_transform]
  have h16 : 16777217 - 1 = 16777215 + 1 := by norm_num
  rw [h16, rocprim_inclusive_scan,
    rocprim_inclusive_scan_zero _ 16777215
      (fun j hj => rocprim_transform_last_only j (by omega)), hlast]
  norm_num

theorem copy_if_common_last_only (first : Nat → T) (output : Nat) (m : Memory T) :
    copy_if_common first 16777217 output (fun v : Nat => decide (v = 16777216)) (fun i => i) m =
      (m, output + 1) := by
  have hne : (16777217 : Nat) ≠ 0 := by norm_num
  simp only [copy_if_common, if_neg hne, block_size_16777217, rocprim_inclusive_scan_last_only]
  rw [launch_eq_self]
  intro blockIdx threadIdx i hb ht hi _
  exact rocprim_transform_last_only _ (baseIdx_lt_16777216 blockIdx threadIdx i hb ht hi)

theorem filter_range_eq_last (N : Nat) :
    (List.range (N + 1)).filter (fun i => decide (i = N)) = [N] := by
  have hnil : (List.range N).filter (fun i => decide (i = N)) = [] := by
    rw [List.filter_eq_nil_iff]
    intro a ha
    have := List.mem_range.mp ha
    simp only [decide_eq_true_eq]
    omega
  rw [List.range_succ, List.filter_append, hnil]
  simp

/-- C23. The grid of `copy_if_common` for `num_items = 16777217`: the conversion to
`float` gives 16777216, the block count is 4096, and 4096 blocks of 256 threads with 16
items cover 16777216 indices only: no (block, thread, i) visits index 16777216. With
only the last element selected, `copy_if_common` returns `output + 1` and writes
nothing. -/
theorem copy_if_common_grid_misses_last (first : Nat → T) (output : Nat) (m : Memory T) :
    static_cast_float 16777217 = 16777216 ∧
    block_size 16777217 = 4096 ∧
    block_size 16777217 * threads_per_block * items_per_thread < 16777217 ∧
    (∀ blockIdx threadIdx i, blockIdx < block_size 16777217 → threadIdx < threads_per_block →
      i < items_per_thread →
      baseIdx items_per_thread blockIdx threads_per_block threadIdx + i ≠ 16777216) ∧
    copy_if_common first 16777217 output (fun v : Nat => decide (v = 16777216)) (fun i => i) m =
      (m, output + 1) := by
  refine ⟨static_cast_float_16777217, block_size_16777217, ?_, ?_,
    copy_if_common_last_only first output m⟩
  · rw [block_size_16777217]; decide
  · intro blockIdx threadIdx i hb ht hi
    rw [block_size_16777217] at hb
    exact Nat.ne_of_lt (baseIdx_lt_16777216 blockIdx threadIdx i hb ht hi)

/-- C24. Compaction in `copy_if_common` for `num_items = 16777217` with only the last
element selected: the subsequence of `first` at the flagged indices is the one element
`first[16777216]`, `pos[num_items - 1]` is 1 and the call returns `output + 1`, but
`output[0]` still holds what it held before the call: the write
`output[pos[i] - 1] = first[i]` for the flagged index 16777216 is not made, and
`output[0 .. pos[num_items - 1])` differs from the subsequence whenever the old content
differs from `first[16777216]`. -/
theorem copy_if_common_last_selected_unwritten (first : Nat → T) (output : Nat)
    (m : Memory T) :
    ((List.range 16777217).filter (fun i => decide (i = 16777216))).map first =
      [first 16777216] ∧
    rocprim_inclusive_scan (rocprim_transform (fun i : Nat => i) 16777217
      (fun val => if decide (val = 16777216) = true then 1 else 0)) (16777217 - 1) = 1 ∧
    (copy_if_common first 16777217 output (fun v : Nat => decide (v = 16777216))
      (fun i => i) m).2 = output + 1 ∧
    Memory.read_range (copy_if_common first 16777217 output
      (fun v : Nat => decide (v = 16777216)) (fun i => i) m).1 output 1 = [m output] ∧
    (m output ≠ first 16777216 →
      Memory.read_range (copy_if_common first 16777217 output
        (fun v : Nat => decide (v = 16777216)) (fun i => i) m).1 output 1 ≠
      ((List.range 16777217).filter (fun i => decide (i = 16777216))).map first) ∧
    Memory.read_range (copy_if_common (fun i : Nat => i + 1) 16777217 0
      (fun v : Nat => decide (v = 16777216)) (fun i => i) (fun _ => 0)).1 0 1 = [0] := by
  have hsel : ((List.range 16777217).filter (fun i => decide (i = 16777216))).map first =
      [first 16777216] := by
    have h := filter_range_eq_last 16777216
    have h17 : (16777216 : Nat) + 1 = 16777217 := by norm_num
    rw [h17] at h
    rw [h]
    rfl
  have hread : ∀ (T' : Type) (first' : Nat → T') (output' : Nat) (m' : Memory T'),
      Memory.read_range (copy_if_common first' 16777217 output'
        (fun v : Nat => decide (v = 16777216)) (fun i => i) m').1 output' 1 = [m' output'] := by
    intro T' first' output' m'
    rw [copy_if_common_last_only first' output' m']
    rfl
  refine ⟨hsel, rocprim_inclusive_scan_last_only, ?_, hread T first output m, ?_,
    hread Nat (fun i => i + 1) 0 (fun _ => 0)⟩
  · rw [copy_if_common_last_only first output m]
  · intro hne
    rw [hsel, hread T first output m]
    intro heq
    exact hne (List.head_eq_of_cons_eq heq)

end __copy_if

end hip_rocprim

end thrust

theorem Memory.write_range_append_singleton {α : Type} (xs : List α) (x : α) :
    ∀ (m : Memory α) (base : Nat),
      m.write_range base (xs ++ [x]) = (m.write_range base xs).write (base + xs.length) x := by
  induction xs with
  | nil => intro m base; rfl
  | cons y ys ih =>
    intro m base
    have h : base + 1 + ys.length = base + (ys.length + 1) := by omega
    show (m.write base y).write_range (base + 1) (ys ++ [x]) =
      ((m.write base y).write_range (base + 1) ys).write (base + (ys.length + 1)) x
    rw [ih, h]

namespace thrust

namespace hip_rocprim

namespace __copy_if

variable {T P : Type}

theorem foldl_range_congr {β : Type} (f g : β → Nat → β) (n : Nat)
    (h : ∀ i, i < n → ∀ m, f m i = g m i) :
    ∀ m, (List.range n).foldl f m = (List.range n).foldl g m := by
  induction n with
  | zero => intro m; rfl
  | succ n ih =>
    intro m
    rw [List.range_succ, List.foldl_append, List.foldl_append,
      ih (fun i hi => h i (by omega))]
    exact h n (by omega) _

theorem foldl_range_mul {β : Type} (f : β → Nat → β) (b : Nat) (a : Nat) :
    ∀ m, (List.range a).foldl
        (fun m i => (List.range b).foldl (fun m j => f m (i * b + j)) m) m =
      (List.range (a * b)).foldl f m := by
  induction a with
  | zero => intro m; simp
  | succ a ih =>
    intro m
    rw [List.range_succ, List.foldl_append, ih, Nat.succ_mul, List.range_add,
      List.foldl_append, List.foldl_map]
    rfl

theorem foldl_range_add_eq {β : Type} (f : β → Nat → β) (n k : Nat)
    (h : ∀ i, n ≤ i → ∀ m, f m i = m) :
    ∀ m, (List.range (n + k)).foldl f m = (List.range n).foldl f m := by
  intro m
  rw [List.range_add, List.foldl_append, List.foldl_map]
  exact foldl_range_eq_self (fun m j => f m (n + j)) k (fun i _ m => h (n + i) (by omega) m) _

theorem launch_eq_foldl (first : Nat → T) (flagsFirst posFirst : Nat → Nat)
    (size output grid : Nat) (m : Memory T)
    (hgrid : grid * (threads_per_block * items_per_thread) ≤ 2 ^ 32) :
    launch grid threads_per_block
        (copy_if_kernel items_per_thread first flagsFirst posFirst size output) m =
      (List.range (grid * (threads_per_block * items_per_thread))).foldl
        (fun m index => copy_if_kernel_item first flagsFirst posFirst size output index m)
        m := by
  rw [← foldl_range_mul _ (threads_per_block * items_per_thread) grid m]
  unfold launch
  apply foldl_range_congr
  intro blockIdx hb m
  rw [← foldl_range_mul _ items_per_thread threads_per_block m]
  apply foldl_range_congr
  intro threadIdx ht m
  unfold copy_if_kernel
  apply foldl_range_congr
  intro i hi m
  have hbase : baseIdx items_per_thread blockIdx threads_per_block threadIdx + i =
      blockIdx * (threads_per_block * items_per_thread) + (threadIdx * items_per_thread + i) := by
    simp only [baseIdx, items_per_thread, threads_per_block] at hgrid ht hi ⊢
    omega
  rw [hbase]

end __copy_if

end hip_rocprim

end thrust

namespace thrust

namespace hip_rocprim

namespace __copy_if

variable {T P : Type}

theorem filter_range_succ (p : Nat → Bool) (k : Nat) :
    (List.range (k + 1)).filter p = (List.range k).filter p ++ (if p k then [k] else []) := by
  rw [List.range_succ, List.filter_append]
  cases hp : p k <;> simp [hp]

theorem rocprim_inclusive_scan_count (flags : Nat → Nat) (p : Nat → Bool) (n : Nat)
    (hn : n < 2 ^ 32) (hflags : ∀ i, i < n → flags i = if p i then 1 else 0) (k : Nat) :
    k < n → rocprim_inclusive_scan flags k = ((List.range (k + 1)).filter p).length := by
  induction k with
  | zero =>
    intro hk
    rw [rocprim_inclusive_scan, hflags 0 hk, filter_range_succ]
    cases hp : p 0 <;> simp
  | succ k ih =>
    intro hk
    have hlen : ((List.range (k + 1)).filter p).length ≤ k + 1 := by
      have h := List.length_filter_le p (List.range (k + 1))
      rw [List.length_range] at h
      exact h
    rw [rocprim_inclusive_scan, ih (by omega), hflags (k + 1) hk, filter_range_succ p (k + 1),
      List.length_append]
    cases hp : p (k + 1)
    · simp only [Bool.false_eq_true, if_false, List.length_nil]
      omega
    · simp only [if_true, List.length_cons, List.length_nil]
      omega

theorem foldl_copy_if_kernel_item (first : Nat → T) (flags : Nat → Nat) (p : Nat → Bool)
    (n output : Nat) (m : Memory T) (hn : n < 2 ^ 32)
    (hflags : ∀ i, i < n → flags i = if p i then 1 else 0) (k : Nat) :
    k ≤ n →
    (List.range k).foldl
        (fun m index =>
          copy_if_kernel_item first flags (rocprim_inclusive_scan flags) n output index m) m =
      m.write_range output (((List.range k).filter p).map first) := by
  induction k with
  | zero => intro _; rfl
  | succ k ih =>
    intro hk
    have hlt : k < n := by omega
    have hlen : ((List.range k).filter p).length ≤ k := by
      have h := List.length_filter_le p (List.range k)
      rw [List.length_range] at h
      exact h
    rw [List.range_succ, List.foldl_append, ih (by omega), List.foldl_cons, List.foldl_nil,
      ← List.range_succ, filter_range_succ, copy_if_kernel_item, if_pos hlt, hflags k hlt]
    cases hp : p k
    · simp
    · have hpos := rocprim_inclusive_scan_count flags p n hn hflags k hlt
      rw [filter_range_succ, hp] at hpos
      simp only [if_true, List.length_append, List.length_cons, List.length_nil] at hpos
      have hslot : (rocprim_inclusive_scan flags k + (2 ^ 32 - 1)) % 2 ^ 32 =
          (((List.range k).filter p).map first).length := by
        rw [hpos, List.length_map]
        omega
      simp only [if_true, ne_eq, one_ne_zero, not_false_eq_true, List.map_append,
        List.map_cons, List.map_nil, hslot]
      rw [Memory.write_range_append_singleton]

theorem static_cast_float_exact (n : Nat) (hn : n ≤ 2 ^ 24) : static_cast_float n = n := by
  by_cases h : n < 2 ^ 24
  · rw [static_cast_float, if_pos h]
  · have h24 : n = 16777216 := by omega
    rw [h24]
    decide

end __copy_if

end hip_rocprim

end thrust

namespace thrust

namespace hip_rocprim

namespace __copy_if

variable {T P : Type}

theorem copy_if_common_eq (first : Nat → T) (num_items output : Nat) (predicate : P → Bool)
    (predicate_input : Nat → P) (m : Memory T) (hn : num_items ≤ 2 ^ 24) :
    copy_if_common first num_items output predicate predicate_input m =
      (m.write_range output
          (((List.range num_items).filter (fun i => predicate (predicate_input i))).map first),
        output +
          ((List.range num_items).filter (fun i => predicate (predicate_input i))).length) := by
  by_cases h0 : num_items = 0
  · subst h0
    rfl
  have hflags : ∀ i, i < num_items →
      rocprim_transform predicate_input num_items (fun val => if predicate val then 1 else 0) i =
        if (fun i => predicate (predicate_input i)) i then 1 else 0 := by
    intro i hi
    simp only [rocprim_transform, if_pos hi]
    by_cases hp : predicate (predicate_input i) = true
    · rw [if_pos hp]; norm_num
    · rw [if_neg hp]; norm_num
  have hn32 : num_items < 2 ^ 32 := by omega
  have hblock : block_size num_items = (num_items + 4095) / 4096 := by
    simp only [block_size, static_cast_float_exact num_items hn, items_per_thread,
      threads_per_block]
  have hcover : ∃ extra, block_size num_items * (threads_per_block * items_per_thread) =
      num_items + extra := by
    refine ⟨block_size num_items * (threads_per_block * items_per_thread) - num_items, ?_⟩
    rw [hblock]
    simp only [items_per_thread, threads_per_block]
    omega
  have hgrid : block_size num_items * (threads_per_block * items_per_thread) ≤ 2 ^ 32 := by
    rw [hblock]
    simp only [items_per_thread, threads_per_block]
    omega
  obtain ⟨extra, hextra⟩ := hcover
  have hpos := rocprim_inclusive_scan_count _ (fun i => predicate (predicate_input i))
    num_items hn32 hflags (num_items - 1) (by omega)
  have hpred : num_items - 1 + 1 = num_items := by omega
  rw [hpred] at hpos
  simp only [copy_if_common, if_neg h0, hpos]
  rw [launch_eq_foldl _ _ _ _ _ _ _ hgrid, hextra,
    foldl_range_add_eq _ num_items extra (fun i hi m =>
      copy_if_kernel_item_eq_self _ _ _ _ _ _ _ (fun hlt => absurd hlt (by omega))),
    foldl_copy_if_kernel_item first _ (fun i => predicate (predicate_input i)) num_items
      output m hn32 hflags num_items (le_refl _)]

/-- Compaction by prefix sum in `copy_if_common` where the grid covers every index: with
`flags[i] = 1` when `predicate(predicate_input[i])` and `pos` the inclusive prefix sum of the flags (in
`std::uint32_t`, for fewer than `2^32` items), the loop body of `copy_if_kernel` run
for every index below `size` leaves in `output[0 .. pos[size-1])` the elements of
`first` at the flagged indices in input order. For at most `2^24` items (so that the
grid covers every index) the call does so and writes nothing else; a flagged index `i`
is written to the slot `pos[i] - 1`, which is the number of flagged indices before `i`
(so it is never negative and no slot is written twice); the call returns
`output + pos[num_items - 1]`, and for `num_items == 0` it returns `output` and writes
nothing. -/
theorem copy_if_common_compaction (first : Nat → T) (num_items size output : Nat)
    (predicate : P → Bool) (predicate_input : Nat → P) (m : Memory T)
    (hn : num_items ≤ 2 ^ 24) (hsize : size < 2 ^ 32) :
    (List.range size).foldl
        (fun m index =>
          copy_if_kernel_item first
            (rocprim_transform predicate_input size (fun val => if predicate val then 1 else 0))
            (rocprim_inclusive_scan
              (rocprim_transform predicate_input size
                (fun val => if predicate val then 1 else 0))) size output index m) m =
      m.write_range output
        (((List.range size).filter (fun i => predicate (predicate_input i))).map first) ∧
    Memory.read_range (copy_if_common first num_items output predicate predicate_input m).1
        output ((List.range num_items).filter (fun i => predicate (predicate_input i))).length =
      ((List.range num_items).filter (fun i => predicate (predicate_input i))).map first ∧
    (∀ a, (a < output ∨ output +
        ((List.range num_items).filter (fun i => predicate (predicate_input i))).length ≤ a) →
      (copy_if_common first num_items output predicate predicate_input m).1 a = m a) ∧
    (copy_if_common first num_items output predicate predicate_input m).2 =
      output + ((List.range num_items).filter (fun i => predicate (predicate_input i))).length ∧
    (0 < num_items →
      (copy_if_common first num_items output predicate predicate_input m).2 =
        output + rocprim_inclusive_scan (rocprim_transform predicate_input num_items
          (fun val => if predicate val then 1 else 0)) (num_items - 1)) ∧
    (∀ i, i < num_items → predicate (predicate_input i) = true →
      rocprim_inclusive_scan (rocprim_transform predicate_input num_items
          (fun val => if predicate val then 1 else 0)) i =
        ((List.range i).filter (fun i => predicate (predicate_input i))).length + 1) ∧
    copy_if_common first 0 output predicate predicate_input m = (m, output) := by
  have hflags : ∀ i, i < num_items →
      rocprim_transform predicate_input num_items (fun val => if predicate val then 1 else 0) i =
        if (fun i => predicate (predicate_input i)) i then 1 else 0 := by
    intro i hi
    simp only [rocprim_transform, if_pos hi]
    by_cases hp : predicate (predicate_input i) = true
    · rw [if_pos hp]; norm_num
    · rw [if_neg hp]; norm_num
  have hflags_size : ∀ i, i < size →
      rocprim_transform predicate_input size (fun val => if predicate val then 1 else 0) i =
        if (fun i => predicate (predicate_input i)) i then 1 else 0 := by
    intro i hi
    simp only [rocprim_transform, if_pos hi]
    by_cases hp : predicate (predicate_input i) = true
    · rw [if_pos hp]; norm_num
    · rw [if_neg hp]; norm_num
  rw [copy_if_common_eq first num_items output predicate predicate_input m hn]
  refine ⟨foldl_copy_if_kernel_item first _ (fun i => predicate (predicate_input i)) size
    output m hsize hflags_size size (le_refl _), ?_, ?_, rfl, ?_, ?_, rfl⟩
  · have h := Memory.read_range_write_range
      (((List.range num_items).filter (fun i => predicate (predicate_input i))).map first)
      m output
    rw [List.length_map] at h
    exact h
  · intro a ha
    apply Memory.write_range_of_not_mem
    rw [List.length_map]
    exact ha
  · intro hpos
    have h := rocprim_inclusive_scan_count _ (fun i => predicate (predicate_input i))
      num_items (by omega) hflags (num_items - 1) (by omega)
    have hpred : num_items - 1 + 1 = num_items := by omega
    rw [hpred] at h
    rw [h]
  · intro i hi hp
    have h := rocprim_inclusive_scan_count _ (fun i => predicate (predicate_input i))
      num_items (by omega) hflags i hi
    rw [h, filter_range_succ]
    simp [hp]

/-- Example of the compaction: the five items `10 .. 14` with the even ones selected,
written from address 3 on into a memory that holds 0: the addresses 3, 4, 5 hold
`10, 12, 14` and the call returns 6. -/
theorem copy_if_common_compaction_witness :
    (5 : Nat) ≤ 2 ^ 24 ∧ (5 : Nat) < 2 ^ 32 ∧
    Memory.read_range (copy_if_common (fun i => 10 + i) 5 3 (fun v : Nat => decide (v % 2 = 0))
      (fun i => 10 + i) (fun _ => 0)).1 3 3 = [10, 12, 14] ∧
    (copy_if_common (fun i => 10 + i) 5 3 (fun v : Nat => decide (v % 2 = 0))
      (fun i => 10 + i) (fun _ => 0)).2 = 6 := by
  have h := copy_if_common_compaction (fun i => 10 + i) 5 5 3
    (fun v : Nat => decide (v % 2 = 0)) (fun i => 10 + i) (fun _ => 0) (by decide)
    (by decide)
  exact ⟨by decide, by decide, h.2.1, h.2.2.2.1⟩

end __copy_if

end hip_rocprim

end thrust
